import Mathlib

/-!
# CHIP-8 interpreter: machine model and verified properties

A shallow embedding of the interpreter core (`cpu.h`, `cpu.cc`, `opcode.h`).

Conventions of the embedding.

* `byte` is an 8-bit and `word` a 16-bit unsigned integer (their declarations, in
  `common.h`, are not among the sources; see `to_byte`, `to_word`).  Every cell is a `Nat`;
  a store into a `byte` cell is written `% 256` and into a `word` cell `% 65536`
  wherever the C++ `int` result can leave the range of the cell.  Stores of
  `a & b`, `a | b`, `a ^ b`, `a >> k`, `a / k`, `a % k` of in-range operands stay in
  range and carry no reduction.  The ranges of the cells themselves are the
  predicate `Cpu.WF`.
* A fixed-size C++ array is a function on `Nat`; only the cells below the declared
  size belong to the machine.  Where the source indexes an array with a value that
  can leave the declared bounds, the operation checks the index and stops with
  `Fault.out_of_range`: C++ gives such an access no meaning.  The indices that cannot
  leave the bounds carry no test: `v[vx]`, `v[vy]` are indexed by nibbles of the opcode
  (`interpret` keeps 12 bits of the word, so `code.high < 16`), and `vram[pos]` is only
  reached with `y_coord < 32` and `x_coord < 64`.
* `throw std::runtime_error` is `Fault.invalid_opcode` (in `interpret`) or
  `Fault.could_not_open` (in `load_program`), carrying the machine state at the throw.
* `reset` is the one place where the out-of-bounds access is unconditional and of a
  fixed extent: `std::fill_n(stack, sizeof(stack), 0)` writes 32 words from `stack`,
  16 slots past the array.  Stopping there would leave no reachable state at all, so
  this one access is followed through the members that `cpu.h` declares after `stack`
  (see `stack_fill_covers` and `reset`).
* `cycle` takes the value `rand()` would return as an argument, and a sequence of
  cycles (`run`) takes one such value per call.
* `if (cpu.debug) printf(...)` writes to standard output only and is not modelled.
-/

namespace Chip8

/-! ## Data model (`cpu.h`) -/

/-- Memory size. -/
@[simp] def mem_size : Nat := 4096
/-- Stack size. -/
@[simp] def stack_size : Nat := 16
/-- Video ram width. -/
@[simp] def vram_width : Nat := 64
/-- Video ram height. -/
@[simp] def vram_height : Nat := 32
/-- Video ram size. -/
@[simp] def vram_size : Nat := vram_width * vram_height
/-- Number of keys. -/
@[simp] def key_size : Nat := 16
/-- Font sprite size. -/
@[simp] def sprint_size : Nat := 5

/-- Array store `a[k] = x`. -/
def set_at {α : Type} (a : Nat → α) (k : Nat) (x : α) : Nat → α :=
  fun j => if j = k then x else a j

/-- Modelled from the spec: the declaration of `byte` (`common.h`) is not among the
sources; the spec gives "sixteen 8-bit data registers" and 8-bit timers, so `byte` is an
unsigned 8-bit integer.  This is the conversion of a C++ `int` to `byte`. -/
def to_byte (z : Int) : Nat := (z % 256).toNat

/-- Modelled from the spec: the declaration of `word` (`common.h`) is not among the
sources; the spec gives a 16-bit `I`, `pc` and opcode, so `word` is an unsigned 16-bit
integer.  This is the conversion of a C++ `int` to `word`. -/
def to_word (z : Int) : Nat := (z % 65536).toNat

/-- Unsigned 32-bit arithmetic of `uint32_t`: the value of an integer modulo `2^32`. -/
def to_u32 (z : Int) : Nat := (z % 4294967296).toNat

/-- The register struct `Cpu::Register`; `v_flag` is the union alias of `v[15]`. -/
structure Register where
  /-- program counter (`word`) -/
  pc : Nat
  /-- stack pointer (`byte`) -/
  sp : Nat
  /-- the 16 `byte` registers `v[16]` -/
  v : Nat → Nat
  /-- register I (`word`) -/
  i : Nat

/-- The machine state held by `class Cpu`. -/
structure Cpu where
  /-- cpu register -/
  reg : Register
  /-- main memory, `byte ram[mem_size]` -/
  ram : Nat → Nat
  /-- video memory, `byte vram[vram_size]` -/
  vram : Nat → Nat
  /-- stack, `word stack[stack_size]` -/
  stack : Nat → Nat
  /-- keyboard, `bool keys[key_size]` -/
  keys : Nat → Bool
  /-- delay timer (`byte`) -/
  delay_timer : Nat
  /-- sound timer (`byte`) -/
  sound_timer : Nat
  /-- flag indicating gui update -/
  update_gui : Bool
  /-- debug flag -/
  debug : Bool
  /-- cpu ticks (`uint32_t`) -/
  last_cpu_ticks : Nat
  /-- timer ticks (`uint32_t`) -/
  last_timer_ticks : Nat

/-- The union member `v_flag`, stored in `v[15]`. -/
def Cpu.v_flag (cpu : Cpu) : Nat := cpu.reg.v 15

/-- Store `cpu.reg.v[k] = x`. -/
def Cpu.set_v (cpu : Cpu) (k x : Nat) : Cpu :=
  { cpu with reg := { cpu.reg with v := set_at cpu.reg.v k x } }

/-- Store `cpu.reg.v_flag = x`, which is `v[15]`. -/
def Cpu.set_v_flag (cpu : Cpu) (x : Nat) : Cpu := cpu.set_v 15 x

/-- Store `cpu.reg.pc = x`. -/
def Cpu.set_pc (cpu : Cpu) (x : Nat) : Cpu :=
  { cpu with reg := { cpu.reg with pc := x } }

/-- Store `cpu.reg.i = x`. -/
def Cpu.set_i (cpu : Cpu) (x : Nat) : Cpu :=
  { cpu with reg := { cpu.reg with i := x } }

/-- The ranges of the cells: what the C++ types `byte`, `word` and `uint32_t` hold. -/
structure Cpu.WF (cpu : Cpu) : Prop where
  pc_lt : cpu.reg.pc < 65536
  sp_lt : cpu.reg.sp < 256
  v_lt : ∀ k, k < 16 → cpu.reg.v k < 256
  i_lt : cpu.reg.i < 65536
  ram_lt : ∀ k, k < mem_size → cpu.ram k < 256
  vram_lt : ∀ k, k < vram_size → cpu.vram k < 256
  stack_lt : ∀ k, k < stack_size → cpu.stack k < 65536
  delay_lt : cpu.delay_timer < 256
  sound_lt : cpu.sound_timer < 256
  cpu_ticks_lt : cpu.last_cpu_ticks < 4294967296
  timer_ticks_lt : cpu.last_timer_ticks < 4294967296

/-- Outcomes of an operation other than normal completion. -/
inductive Fault where
  /-- `throw std::runtime_error("invalid opcode: ...")`, with the state at the throw -/
  | invalid_opcode (cpu : Cpu)
  /-- an array was indexed outside its declared bounds -/
  | out_of_range
  /-- `assert` failed -/
  | assertion
  /-- `throw std::runtime_error("impossible!!!")` -/
  | impossible
  /-- `throw std::runtime_error("could not open file")`, with the state at the throw -/
  | could_not_open (cpu : Cpu)

/-- The opcode access helper `union Opcode`, assumed little-endian. -/
structure Opcode where
  /-- the 16-bit member `word` -/
  word : Nat

/-- The member `low`: the low byte of `word`. -/
def Opcode.low (code : Opcode) : Nat := code.word % 256

/-- The member `high`: the high byte of `word`. -/
def Opcode.high (code : Opcode) : Nat := code.word / 256 % 256

/-! ## Operation set (`opcode.h`) -/

/-- 00E0, clear screen. -/
def cls (cpu : Cpu) : Cpu :=
  { cpu with vram := fun k => if k < vram_size then 0 else cpu.vram k, update_gui := true }

/-- 00EE, return: `pc = stack[--sp]`. -/
def ret (cpu : Cpu) : Except Fault Cpu :=
  let sp := to_byte ((cpu.reg.sp : Int) - 1)
  if sp < stack_size then
    .ok { cpu with reg := { cpu.reg with sp := sp, pc := cpu.stack sp } }
  else .error .out_of_range

/-- 1NNN, jump. -/
def jump (cpu : Cpu) (code : Opcode) : Cpu := cpu.set_pc code.word

/-- 2NNN, call: `stack[sp++] = pc; pc = code.word`. -/
def call (cpu : Cpu) (code : Opcode) : Except Fault Cpu :=
  if cpu.reg.sp < stack_size then
    .ok { cpu with
      stack := set_at cpu.stack cpu.reg.sp cpu.reg.pc,
      reg := { cpu.reg with sp := (cpu.reg.sp + 1) % 256, pc := code.word } }
  else .error .out_of_range

/-- 3XKK, skip next instruction if reg[x] == kk. -/
def skip_eq (cpu : Cpu) (code : Opcode) : Cpu :=
  let vx := code.high
  let value := code.low
  if cpu.reg.v vx = value then cpu.set_pc ((cpu.reg.pc + 2) % 65536) else cpu

/-- 4XKK, skip next instruction if reg[x] != kk. -/
def skip_not_eq (cpu : Cpu) (code : Opcode) : Cpu :=
  let vx := code.high
  let value := code.low
  if cpu.reg.v vx ≠ value then cpu.set_pc ((cpu.reg.pc + 2) % 65536) else cpu

/-- 5XY0, skip next instruction if reg[x] == reg[y]. -/
def skip_eq_reg (cpu : Cpu) (code : Opcode) : Cpu :=
  let vx := code.high
  let vy := (code.low &&& 0xf0) >>> 4
  if cpu.reg.v vx = cpu.reg.v vy then cpu.set_pc ((cpu.reg.pc + 2) % 65536) else cpu

/-- 6XKK, load reg: reg[x] = kk. -/
def load_reg_value (cpu : Cpu) (code : Opcode) : Cpu :=
  let vx := code.high
  let value := code.low
  cpu.set_v vx value

/-- 7XKK, add reg: reg[x] += kk. -/
def add_reg_value (cpu : Cpu) (code : Opcode) : Cpu :=
  let vx := code.high
  let value := code.low
  cpu.set_v vx ((cpu.reg.v vx + value) % 256)

/-- 8XY0, load reg: reg[x] = reg[y]. -/
def load_reg_reg (cpu : Cpu) (code : Opcode) : Cpu :=
  let vx := code.high
  let vy := (code.low &&& 0xf0) >>> 4
  cpu.set_v vx (cpu.reg.v vy)

/-- 8XY1, or: reg[x] |= reg[y]. -/
def or_reg_reg (cpu : Cpu) (code : Opcode) : Cpu :=
  let vx := code.high
  let vy := (code.low &&& 0xf0) >>> 4
  cpu.set_v vx (cpu.reg.v vx ||| cpu.reg.v vy)

/-- 8XY2, and: reg[x] &= reg[y]. -/
def and_reg_reg (cpu : Cpu) (code : Opcode) : Cpu :=
  let vx := code.high
  let vy := (code.low &&& 0xf0) >>> 4
  cpu.set_v vx (cpu.reg.v vx &&& cpu.reg.v vy)

/-- 8XY3, xor: reg[x] ^= reg[y]. -/
def xor_reg_reg (cpu : Cpu) (code : Opcode) : Cpu :=
  let vx := code.high
  let vy := (code.low &&& 0xf0) >>> 4
  cpu.set_v vx (cpu.reg.v vx ^^^ cpu.reg.v vy)

/-- 8XY4, add: reg[x] += reg[y].  The sum is taken first, then the flag is stored,
then the destination. -/
def add_reg_reg (cpu : Cpu) (code : Opcode) : Cpu :=
  let vx := code.high
  let vy := (code.low &&& 0xf0) >>> 4
  let sum := (cpu.reg.v vx + cpu.reg.v vy) % 65536
  let cpu1 := cpu.set_v_flag (if sum > 0xff then 1 else 0)
  cpu1.set_v vx (sum % 0x100)

/-- 8XY5, sub: reg[x] -= reg[y].  The flag is stored first; the subtraction reads
`v[vx]` and `v[vy]` after that store. -/
def sub_reg_reg (cpu : Cpu) (code : Opcode) : Cpu :=
  let vx := code.high
  let vy := (code.low &&& 0xf0) >>> 4
  let cpu1 := cpu.set_v_flag (if cpu.reg.v vx > cpu.reg.v vy then 1 else 0)
  cpu1.set_v vx (to_byte ((cpu1.reg.v vx : Int) - (cpu1.reg.v vy : Int)))

/-- 8XY6, shift right.  The flag is stored first; the shift reads `v[vy]` after
that store. -/
def shr_reg_reg (cpu : Cpu) (code : Opcode) : Cpu :=
  let vx := code.high
  let vy := (code.low &&& 0xf0) >>> 4
  let cpu1 := cpu.set_v_flag (cpu.reg.v vy &&& 0x01)
  cpu1.set_v vx (cpu1.reg.v vy >>> 1)

/-- 8XY7, sub negative: reg[x] = reg[y] - reg[x]. -/
def subn_reg_reg (cpu : Cpu) (code : Opcode) : Cpu :=
  let vx := code.high
  let vy := (code.low &&& 0xf0) >>> 4
  let cpu1 := cpu.set_v_flag (if cpu.reg.v vy > cpu.reg.v vx then 1 else 0)
  cpu1.set_v vx (to_byte ((cpu1.reg.v vy : Int) - (cpu1.reg.v vx : Int)))

/-- 8XYE, shift left. -/
def shl_reg_reg (cpu : Cpu) (code : Opcode) : Cpu :=
  let vx := code.high
  let vy := (code.low &&& 0xf0) >>> 4
  let cpu1 := cpu.set_v_flag (if cpu.reg.v vy &&& 0x80 ≠ 0 then 1 else 0)
  cpu1.set_v vx ((cpu1.reg.v vy <<< 1) % 256)

/-- 9XY0, skip next instruction if reg[x] != reg[y]. -/
def skip_not_eq_reg (cpu : Cpu) (code : Opcode) : Cpu :=
  let vx := code.high
  let vy := (code.low &&& 0xf0) >>> 4
  if cpu.reg.v vx ≠ cpu.reg.v vy then cpu.set_pc ((cpu.reg.pc + 2) % 65536) else cpu

/-- ANNN, load address: reg_i = nnn. -/
def load_i_addr (cpu : Cpu) (code : Opcode) : Cpu := cpu.set_i code.word

/-- BNNN, jump to address: nnn + reg[0]. -/
def jump_relative (cpu : Cpu) (code : Opcode) : Cpu :=
  cpu.set_pc ((cpu.reg.v 0 + code.word) % 65536)

/-- CXNN, random: reg[x] = rand() & nn; `rnd` is the value `rand()` returns. -/
def rand_mask (rnd : Nat) (cpu : Cpu) (code : Opcode) : Cpu :=
  let vx := code.high
  let value := code.low
  cpu.set_v vx ((rnd % 0x100) &&& value)

/-- The inner loop of `draw_sprite`, `for (byte j = ...; j < 8; j++)`: the `todo`
iterations from `j` on, over the remaining bits `data` of the sprite row. -/
def draw_row (x y_coord : Nat) : (todo j data : Nat) → Cpu → Cpu
  | 0, _, _, cpu => cpu
  | todo + 1, j, data, cpu =>
    let x_coord := (x + 8 - j - 1) % 256
    if x_coord ≥ vram_width then
      draw_row x y_coord todo (j + 1) (data >>> 1) cpu
    else
      let pos := (vram_width * y_coord + x_coord) % 65536
      let bit := data &&& 0x1
      let cpu1 := if bit &&& cpu.vram pos ≠ 0 then cpu.set_v_flag 1 else cpu
      let cpu2 := { cpu1 with vram := set_at cpu1.vram pos (cpu1.vram pos ^^^ bit) }
      draw_row x y_coord todo (j + 1) (data >>> 1) cpu2

/-- The outer loop of `draw_sprite`, `for (byte i = ...; i < n; i++)`: the `todo`
iterations from `i` on.  `ram[I + i]` is read before the row is tested. -/
def draw_rows (x y : Nat) : (todo i : Nat) → Cpu → Except Fault Cpu
  | 0, _, cpu => .ok cpu
  | todo + 1, i, cpu =>
    if cpu.reg.i + i < mem_size then
      let data := cpu.ram (cpu.reg.i + i)
      let y_coord := (y + i) % 256
      if y_coord ≥ vram_height then
        draw_rows x y todo (i + 1) cpu
      else
        draw_rows x y todo (i + 1) (draw_row x y_coord 8 0 data cpu)
    else .error .out_of_range

/-- DXYN, draw sprite at (x,y) with n bytes of data. -/
def draw_sprite (cpu : Cpu) (code : Opcode) : Except Fault Cpu :=
  let vx := code.high
  let vy := (code.low &&& 0xf0) >>> 4
  let n := code.low &&& 0x0f
  let x := cpu.reg.v vx
  let y := cpu.reg.v vy
  match draw_rows x y n 0 (cpu.set_v_flag 0) with
  | .ok cpu1 => .ok { cpu1 with update_gui := true }
  | .error e => .error e

/-- EX9E, skip if keys[reg[x]] pressed. -/
def skip_pressed (cpu : Cpu) (code : Opcode) : Except Fault Cpu :=
  let vx := code.high
  if cpu.reg.v vx < key_size then
    .ok (if cpu.keys (cpu.reg.v vx) then cpu.set_pc ((cpu.reg.pc + 2) % 65536) else cpu)
  else .error .out_of_range

/-- EXA1, skip if keys[reg[x]] not pressed. -/
def skip_not_pressed (cpu : Cpu) (code : Opcode) : Except Fault Cpu :=
  let vx := code.high
  if cpu.reg.v vx < key_size then
    .ok (if !cpu.keys (cpu.reg.v vx) then cpu.set_pc ((cpu.reg.pc + 2) % 65536) else cpu)
  else .error .out_of_range

/-- FX07, load reg: reg[x] = delay_timer. -/
def load_reg_delay (cpu : Cpu) (code : Opcode) : Cpu :=
  let vx := code.high
  cpu.set_v vx cpu.delay_timer

/-- FX0A, wait key: reg[x] = key; the lowest pressed key, else `pc -= 2`. -/
def load_wait_key (cpu : Cpu) (code : Opcode) : Cpu :=
  let vx := code.high
  match (List.range key_size).find? (fun i => cpu.keys i) with
  | some i => cpu.set_v vx i
  | none => cpu.set_pc (to_word ((cpu.reg.pc : Int) - 2))

/-- FX15, load delay timer. -/
def load_delay_reg (cpu : Cpu) (code : Opcode) : Cpu :=
  let vx := code.high
  { cpu with delay_timer := cpu.reg.v vx }

/-- FX18, load sound timer. -/
def load_sound_reg (cpu : Cpu) (code : Opcode) : Cpu :=
  let vx := code.high
  { cpu with sound_timer := cpu.reg.v vx }

/-- FX1E, add: reg.i += reg[x]. -/
def add_i_reg (cpu : Cpu) (code : Opcode) : Cpu :=
  let vx := code.high
  cpu.set_i ((cpu.reg.i + cpu.reg.v vx) % 65536)

/-- FX29, load sprite. -/
def load_sprite (cpu : Cpu) (code : Opcode) : Cpu :=
  let vx := code.high
  cpu.set_i ((cpu.reg.v vx * sprint_size) % 65536)

/-- FX33, store bcd value of reg[x] at reg.i[0:3]. -/
def store_bcd (cpu : Cpu) (code : Opcode) : Except Fault Cpu :=
  let vx := code.high
  let value := cpu.reg.v vx
  if cpu.reg.i + 2 < mem_size then
    let ram1 := set_at cpu.ram cpu.reg.i (value / 100)
    let ram2 := set_at ram1 (cpu.reg.i + 1) ((value % 100) / 10)
    let ram3 := set_at ram2 (cpu.reg.i + 2) (value % 10)
    .ok { cpu with ram := ram3 }
  else .error .out_of_range

/-- The loop of `store_regs`: `ram[I++] = v[i]` for the `todo` registers from `i` on. -/
def store_regs_loop : (todo i : Nat) → Cpu → Except Fault Cpu
  | 0, _, cpu => .ok cpu
  | todo + 1, i, cpu =>
    if cpu.reg.i < mem_size then
      store_regs_loop todo (i + 1)
        { cpu with
          ram := set_at cpu.ram cpu.reg.i (cpu.reg.v i),
          reg := { cpu.reg with i := (cpu.reg.i + 1) % 65536 } }
    else .error .out_of_range

/-- FX55, store register values to [I]. -/
def store_regs (cpu : Cpu) (code : Opcode) : Except Fault Cpu :=
  let vx := code.high
  if vx ≤ 16 then store_regs_loop (vx + 1) 0 cpu else .error .assertion

/-- The loop of `load_regs`: `v[i] = ram[I++]` for the `todo` registers from `i` on. -/
def load_regs_loop : (todo i : Nat) → Cpu → Except Fault Cpu
  | 0, _, cpu => .ok cpu
  | todo + 1, i, cpu =>
    if cpu.reg.i < mem_size then
      load_regs_loop todo (i + 1)
        { cpu with
          reg := { cpu.reg with
            v := set_at cpu.reg.v i (cpu.ram cpu.reg.i),
            i := (cpu.reg.i + 1) % 65536 } }
    else .error .out_of_range

/-- FX65, load values at [I] to registers. -/
def load_regs (cpu : Cpu) (code : Opcode) : Except Fault Cpu :=
  let vx := code.high
  if vx ≤ 16 then load_regs_loop (vx + 1) 0 cpu else .error .assertion

/-! ## Decode and dispatch (`cpu.cc`) -/

/-- Interpret one opcode (`Cpu::interpret`); `rnd` is what `rand()` returns should
the operation call it. -/
def interpret (rnd : Nat) (cpu : Cpu) (opcode : Nat) : Except Fault Cpu :=
  let type := ((opcode &&& 0xf000) >>> 12) % 256
  let code : Opcode := ⟨opcode &&& 0x0fff⟩
  match type with
  | 0x00 =>
    if code.low = 0xe0 then .ok (cls cpu)
    else if code.low = 0xee then ret cpu
    else .ok cpu
  | 0x01 => .ok (jump cpu code)
  | 0x02 => call cpu code
  | 0x03 => .ok (skip_eq cpu code)
  | 0x04 => .ok (skip_not_eq cpu code)
  | 0x05 =>
    if code.low &&& 0x0f ≠ 0 then .error (.invalid_opcode cpu)
    else .ok (skip_eq_reg cpu code)
  | 0x06 => .ok (load_reg_value cpu code)
  | 0x07 => .ok (add_reg_value cpu code)
  | 0x08 =>
    match code.low &&& 0x0f with
    | 0x00 => .ok (load_reg_reg cpu code)
    | 0x01 => .ok (or_reg_reg cpu code)
    | 0x02 => .ok (and_reg_reg cpu code)
    | 0x03 => .ok (xor_reg_reg cpu code)
    | 0x04 => .ok (add_reg_reg cpu code)
    | 0x05 => .ok (sub_reg_reg cpu code)
    | 0x06 => .ok (shr_reg_reg cpu code)
    | 0x07 => .ok (subn_reg_reg cpu code)
    | 0x0e => .ok (shl_reg_reg cpu code)
    | _ => .error (.invalid_opcode cpu)
  | 0x09 => .ok (skip_not_eq_reg cpu code)
  | 0x0a => .ok (load_i_addr cpu code)
  | 0x0b => .ok (jump_relative cpu code)
  | 0x0c => .ok (rand_mask rnd cpu code)
  | 0x0d => draw_sprite cpu code
  | 0x0e =>
    if code.low = 0x9e then skip_pressed cpu code
    else if code.low = 0xa1 then skip_not_pressed cpu code
    else .error (.invalid_opcode cpu)
  | 0x0f =>
    match code.low with
    | 0x07 => .ok (load_reg_delay cpu code)
    | 0x0A => .ok (load_wait_key cpu code)
    | 0x15 => .ok (load_delay_reg cpu code)
    | 0x18 => .ok (load_sound_reg cpu code)
    | 0x1E => .ok (add_i_reg cpu code)
    | 0x29 => .ok (load_sprite cpu code)
    | 0x33 => store_bcd cpu code
    | 0x55 => store_regs cpu code
    | 0x65 => load_regs cpu code
    | _ => .error (.invalid_opcode cpu)
  | _ => .error .impossible

/-- The opcode word with type nibble `t`, register nibbles `x`, `y` and last nibble `n`. -/
def opword (t x y n : Nat) : Nat := 0x1000 * t + 0x100 * x + 0x10 * y + n

/-- Font sprite data ('0' - 'F'). -/
def HEX_FONTS : List Nat := [
  0xF0, 0x90, 0x90, 0x90, 0xF0, -- 0
  0x20, 0x60, 0x20, 0x20, 0x70, -- 1
  0xF0, 0x10, 0xF0, 0x80, 0xF0, -- 2
  0xF0, 0x10, 0xF0, 0x10, 0xF0, -- 3
  0x90, 0x90, 0xF0, 0x10, 0x10, -- 4
  0xF0, 0x80, 0xF0, 0x10, 0xF0, -- 5
  0xF0, 0x80, 0xF0, 0x90, 0xF0, -- 6
  0xF0, 0x10, 0x20, 0x40, 0x40, -- 7
  0xF0, 0x90, 0xF0, 0x90, 0xF0, -- 8
  0xF0, 0x90, 0xF0, 0x10, 0xF0, -- 9
  0xF0, 0x90, 0xF0, 0x90, 0x90, -- A
  0xE0, 0x90, 0xE0, 0x90, 0xE0, -- B
  0xF0, 0x80, 0x80, 0x80, 0xF0, -- C
  0xE0, 0x90, 0x90, 0x90, 0xE0, -- D
  0xF0, 0x80, 0xF0, 0x80, 0xF0, -- E
  0xF0, 0x80, 0xF0, 0x80, 0x80  -- F
]

/-! ## Fetch, pacing, reset and loader (`cpu.cc`) -/

/-- Start address of program (pc). -/
@[simp] def prog_start : Nat := 0x200
/-- Max program size. -/
@[simp] def max_prog_size : Nat := mem_size - prog_start
/-- Cpu frequency. -/
@[simp] def cpu_frequency : Nat := 600
/-- Timer frequency. -/
@[simp] def timer_frequency : Nat := 60

/-- The tests `(now - last) > cpu_time_out` and `(now - last) > timer_time_out` of `cycle`,
on the unsigned difference `d`.  The source compares `d`, converted to `float`, with the
`float` constant `1000.0 / float(frequency)` (1.6666666 and 16.666666); the conversion of an
unsigned integer is monotone and exact on small values and no integer lies between the
quotient and its rounding, so the test holds exactly when `d * frequency > 1000`. -/
def time_out_passed (d frequency : Nat) : Bool := decide (1000 < d * frequency)

/-- Fetch opcode (`Cpu::fetch`): `high = ram[pc++] << 8; low = ram[pc++]; return high | low`. -/
def fetch (cpu : Cpu) : Except Fault (Cpu × Nat) :=
  if cpu.reg.pc < mem_size then
    let high := (cpu.ram cpu.reg.pc <<< 8) % 65536
    let pc1 := (cpu.reg.pc + 1) % 65536
    if pc1 < mem_size then
      let low := cpu.ram pc1
      let pc2 := (pc1 + 1) % 65536
      .ok (cpu.set_pc pc2, high ||| low)
    else .error .out_of_range
  else .error .out_of_range

/-- The first block of `Cpu::cycle`: the timers. -/
def timer_block (now : Nat) (cpu : Cpu) : Cpu :=
  if time_out_passed (to_u32 ((now : Int) - (cpu.last_timer_ticks : Int))) timer_frequency then
    let cpu1 := if cpu.delay_timer > 0 then { cpu with delay_timer := cpu.delay_timer - 1 }
      else cpu
    let cpu2 := if cpu1.sound_timer > 0 then { cpu1 with sound_timer := cpu1.sound_timer - 1 }
      else cpu1
    { cpu2 with last_timer_ticks := now }
  else cpu

/-- The second block of `Cpu::cycle`: one instruction.  An exception of `interpret`
leaves `last_cpu_ticks` as it was. -/
def cpu_block (rnd now : Nat) (cpu : Cpu) : Except Fault Cpu :=
  if time_out_passed (to_u32 ((now : Int) - (cpu.last_cpu_ticks : Int))) cpu_frequency then
    match fetch cpu with
    | .ok (cpu1, code) =>
      match interpret rnd { cpu1 with update_gui := false } code with
      | .ok cpu2 => .ok { cpu2 with last_cpu_ticks := now }
      | .error e => .error e
    | .error e => .error e
  else .ok cpu

/-- Run one cycle (`Cpu::cycle`); `now` is the `uint32_t` argument and `rnd` what
`rand()` returns should the instruction call it. -/
def cycle (rnd now : Nat) (cpu : Cpu) : Except Fault Cpu :=
  cpu_block rnd now (timer_block now cpu)

/-- The count `sizeof(stack)` that `reset` passes to `std::fill_n`: the size in bytes
of the 16 two-byte slots. -/
@[simp] def sizeof_stack : Nat := 2 * stack_size

/-- Whether `std::fill_n(stack, sizeof(stack), 0)` writes the `size` bytes that lie
`offset` bytes after the start of `stack`: it writes `sizeof_stack` elements of type
`word`, two bytes each, from offset 0. -/
def stack_fill_covers (offset size : Nat) : Bool := decide (offset + size ≤ 2 * sizeof_stack)

/-- Reset register and memory (`Cpu::reset`).  Each `std::fill_n(a, count, 0)` zeroes
`count` elements from `a` on.  For `ram`, `vram` and `keys` (one byte per element) that
is the array.  For `stack` the count is `sizeof_stack = 32` words, 64 bytes, twice the
array, and the fill runs on through the members that `cpu.h` declares after `stack`
(lines 52 to 69).  Their byte offsets from `stack`, a `uint32_t` being aligned to 4
from the start of the object, where `stack` stands at `22 + 4096 + 2048 = 6166`:
`stack` 0..32, `keys` 32..48, `delay_timer` 48, `sound_timer` 49, `update_gui` 50,
`debug` 51, padding 52..54, `last_cpu_ticks` 54..58, `last_timer_ticks` 58..62; the
last word of the fill, 62..64, lies after the object.  `reg` is declared before `ram`
and is assigned by `reg = (const Register){}` and `reg.pc = prog_start`. -/
def reset (cpu : Cpu) : Cpu :=
  let ram0 : Nat → Nat := fun k => if k < mem_size then 0 else cpu.ram k
  { ram := fun k => if k < HEX_FONTS.length then HEX_FONTS.getD k 0 else ram0 k
    vram := fun k => if k < vram_size then 0 else cpu.vram k
    stack := fun k => if k < stack_size then 0 else cpu.stack k
    keys := fun k => if k < key_size then false else cpu.keys k
    delay_timer := if stack_fill_covers 48 1 then 0 else cpu.delay_timer
    sound_timer := if stack_fill_covers 49 1 then 0 else cpu.sound_timer
    update_gui := if stack_fill_covers 50 1 then false else cpu.update_gui
    debug := if stack_fill_covers 51 1 then false else cpu.debug
    last_cpu_ticks := if stack_fill_covers 54 4 then 0 else cpu.last_cpu_ticks
    last_timer_ticks := if stack_fill_covers 58 4 then 0 else cpu.last_timer_ticks
    reg := { pc := prog_start, sp := 0, v := fun k => if k < 16 then 0 else cpu.reg.v k,
             i := 0 } }

/-- Load program from file (`Cpu::load_program`).  `file` is `none` when the stream
cannot be opened, else the bytes of the file; `stream.read` stores at most
`max_prog_size` of them from `ram + prog_start` on. -/
def load_program (file : Option (List Nat)) (cpu : Cpu) : Except Fault Cpu :=
  match file with
  | none => .error (.could_not_open cpu)
  | some rom =>
    let cpu1 := reset cpu
    .ok { cpu1 with
      ram := fun k =>
        if prog_start ≤ k ∧ k < prog_start + min rom.length max_prog_size then
          rom.getD (k - prog_start) 0
        else cpu1.ram k }

/-- A sequence of `cycle` calls: each entry is the `now` passed to the call and the
value `rand()` would return in it.  The sequence stops at the first call that does
not complete. -/
def run : List (Nat × Nat) → Cpu → Except Fault Cpu
  | [], cpu => .ok cpu
  | (now, rnd) :: rest, cpu =>
    match cycle rnd now cpu with
    | .ok cpu1 => run rest cpu1
    | .error e => .error e

/-- A machine with every cell zero. -/
def zero_cpu : Cpu :=
  { reg := { pc := 0, sp := 0, v := fun _ => 0, i := 0 },
    ram := fun _ => 0, vram := fun _ => 0, stack := fun _ => 0, keys := fun _ => false,
    delay_timer := 0, sound_timer := 0, update_gui := false, debug := false,
    last_cpu_ticks := 0, last_timer_ticks := 0 }

/-- A cleared machine at the program start with the hex-font table in `ram[0..80)`. -/
def font_cpu : Cpu :=
  { zero_cpu with
    reg := { zero_cpu.reg with pc := 0x200 },
    ram := fun k => HEX_FONTS.getD k 0 }

/-- The machine `font_cpu` with every pixel lit. -/
def lit_cpu : Cpu := { font_cpu with vram := fun _ => 1 }

/-- A machine with every cell zero but key 5 held down. -/
def key5_cpu : Cpu := { zero_cpu with keys := fun k => k == 5 }

/-- The state `load_program` leaves on the program `F0 0A 12 02` of the specification
(`LD V0, K`; `JP 0x202`), from a machine with every cell zero. -/
def wait_key_cpu : Cpu :=
  (load_program (some [0xF0, 0x0A, 0x12, 0x02]) zero_cpu).toOption.getD zero_cpu

/-- The state `load_program` leaves on the program `22 06 12 04 00 00 00 EE` of the
specification (`CALL 0x206`; `JP 0x204`; ...; `RET`), from a machine with every cell
zero. -/
def call_ret_cpu : Cpu :=
  (load_program (some [0x22, 0x06, 0x12, 0x04, 0x00, 0x00, 0x00, 0xEE]) zero_cpu).toOption.getD
    zero_cpu

/-- The state `load_program` leaves on the program `F3 07` (`LD V3, DT`), from a
machine with every cell zero, with the delay timer then set to 10. -/
def delay_cpu : Cpu :=
  { (load_program (some [0xF3, 0x07]) zero_cpu).toOption.getD zero_cpu with delay_timer := 10 }

/-! ## Vocabulary of the statements about the sprite loops -/

/-- Column written by iteration `j` of the inner loop: `byte x_coord = (x + 8 - j - 1)`. -/
def col (x j : Nat) : Nat := (x + 8 - j - 1) % 256

/-- Index of the cell at row `y_coord`, column `x_coord`: `word pos`. -/
def cell (y_coord x_coord : Nat) : Nat := (vram_width * y_coord + x_coord) % 65536

/-- Row written by iteration `i` of the outer loop: `byte y_coord = y + i`. -/
def row_of (y i : Nat) : Nat := (y + i) % 256

/-- Some iteration from `j` on meets a lit cell with a set sprite bit. -/
def row_collision (x yc todo j data : Nat) (vram : Nat → Nat) : Prop :=
  ∃ d, d < todo ∧ col x (j + d) < 64 ∧
    ((data >>> d) &&& 1) &&& vram (cell yc (col x (j + d))) ≠ 0

/-- Some iteration of the two loops, from row iteration `i` on, meets a lit cell with a
set sprite bit. -/
def sprite_collision (x y todo i regI : Nat) (ram vram : Nat → Nat) : Prop :=
  ∃ e d, e < todo ∧ d < 8 ∧ row_of y (i + e) < 32 ∧ col x d < 64 ∧
    ((ram (regI + (i + e)) >>> d) &&& 1) &&& vram (cell (row_of y (i + e)) (col x d)) ≠ 0

/-! ## Vocabulary of the statements about decoding -/

/-- The branch of `Cpu::interpret` that the word `w` selects, with the conditions on the
type nibble `w / 4096 % 16`, the low byte `w % 256` and the last nibble `w % 16` under
which it is selected, and the result of the branch. -/
inductive Decoded (rnd : Nat) (cpu : Cpu) (w : Nat) : Except Fault Cpu → Prop
  | cls (h0 : w / 4096 % 16 = 0) (h1 : w % 256 = 0xe0) :
      Decoded rnd cpu w (.ok (cls cpu))
  | ret (h0 : w / 4096 % 16 = 0) (h1 : w % 256 ≠ 0xe0) (h2 : w % 256 = 0xee) :
      Decoded rnd cpu w (ret cpu)
  | ignored (h0 : w / 4096 % 16 = 0) (h1 : w % 256 ≠ 0xe0) (h2 : w % 256 ≠ 0xee) :
      Decoded rnd cpu w (.ok cpu)
  | jump (h0 : w / 4096 % 16 = 1) :
      Decoded rnd cpu w (.ok (jump cpu ⟨w &&& 0x0fff⟩))
  | call (h0 : w / 4096 % 16 = 2) :
      Decoded rnd cpu w (call cpu ⟨w &&& 0x0fff⟩)
  | skip_eq (h0 : w / 4096 % 16 = 3) :
      Decoded rnd cpu w (.ok (skip_eq cpu ⟨w &&& 0x0fff⟩))
  | skip_not_eq (h0 : w / 4096 % 16 = 4) :
      Decoded rnd cpu w (.ok (skip_not_eq cpu ⟨w &&& 0x0fff⟩))
  | invalid_5 (h0 : w / 4096 % 16 = 5) (h1 : w % 16 ≠ 0) :
      Decoded rnd cpu w (.error (.invalid_opcode cpu))
  | skip_eq_reg (h0 : w / 4096 % 16 = 5) (h1 : w % 16 = 0) :
      Decoded rnd cpu w (.ok (skip_eq_reg cpu ⟨w &&& 0x0fff⟩))
  | load_reg_value (h0 : w / 4096 % 16 = 6) :
      Decoded rnd cpu w (.ok (load_reg_value cpu ⟨w &&& 0x0fff⟩))
  | add_reg_value (h0 : w / 4096 % 16 = 7) :
      Decoded rnd cpu w (.ok (add_reg_value cpu ⟨w &&& 0x0fff⟩))
  | load_reg_reg (h0 : w / 4096 % 16 = 8) (h1 : w % 16 = 0) :
      Decoded rnd cpu w (.ok (load_reg_reg cpu ⟨w &&& 0x0fff⟩))
  | or_reg_reg (h0 : w / 4096 % 16 = 8) (h1 : w % 16 = 1) :
      Decoded rnd cpu w (.ok (or_reg_reg cpu ⟨w &&& 0x0fff⟩))
  | and_reg_reg (h0 : w / 4096 % 16 = 8) (h1 : w % 16 = 2) :
      Decoded rnd cpu w (.ok (and_reg_reg cpu ⟨w &&& 0x0fff⟩))
  | xor_reg_reg (h0 : w / 4096 % 16 = 8) (h1 : w % 16 = 3) :
      Decoded rnd cpu w (.ok (xor_reg_reg cpu ⟨w &&& 0x0fff⟩))
  | add_reg_reg (h0 : w / 4096 % 16 = 8) (h1 : w % 16 = 4) :
      Decoded rnd cpu w (.ok (add_reg_reg cpu ⟨w &&& 0x0fff⟩))
  | sub_reg_reg (h0 : w / 4096 % 16 = 8) (h1 : w % 16 = 5) :
      Decoded rnd cpu w (.ok (sub_reg_reg cpu ⟨w &&& 0x0fff⟩))
  | shr_reg_reg (h0 : w / 4096 % 16 = 8) (h1 : w % 16 = 6) :
      Decoded rnd cpu w (.ok (shr_reg_reg cpu ⟨w &&& 0x0fff⟩))
  | subn_reg_reg (h0 : w / 4096 % 16 = 8) (h1 : w % 16 = 7) :
      Decoded rnd cpu w (.ok (subn_reg_reg cpu ⟨w &&& 0x0fff⟩))
  | shl_reg_reg (h0 : w / 4096 % 16 = 8) (h1 : w % 16 = 14) :
      Decoded rnd cpu w (.ok (shl_reg_reg cpu ⟨w &&& 0x0fff⟩))
  | invalid_8 (h0 : w / 4096 % 16 = 8) (h1 : 7 < w % 16) (h2 : w % 16 ≠ 14) :
      Decoded rnd cpu w (.error (.invalid_opcode cpu))
  | skip_not_eq_reg (h0 : w / 4096 % 16 = 9) :
      Decoded rnd cpu w (.ok (skip_not_eq_reg cpu ⟨w &&& 0x0fff⟩))
  | load_i_addr (h0 : w / 4096 % 16 = 10) :
      Decoded rnd cpu w (.ok (load_i_addr cpu ⟨w &&& 0x0fff⟩))
  | jump_relative (h0 : w / 4096 % 16 = 11) :
      Decoded rnd cpu w (.ok (jump_relative cpu ⟨w &&& 0x0fff⟩))
  | rand_mask (h0 : w / 4096 % 16 = 12) :
      Decoded rnd cpu w (.ok (rand_mask rnd cpu ⟨w &&& 0x0fff⟩))
  | draw_sprite (h0 : w / 4096 % 16 = 13) :
      Decoded rnd cpu w (draw_sprite cpu ⟨w &&& 0x0fff⟩)
  | skip_pressed (h0 : w / 4096 % 16 = 14) (h1 : w % 256 = 0x9e) :
      Decoded rnd cpu w (skip_pressed cpu ⟨w &&& 0x0fff⟩)
  | skip_not_pressed (h0 : w / 4096 % 16 = 14) (h1 : w % 256 = 0xa1) :
      Decoded rnd cpu w (skip_not_pressed cpu ⟨w &&& 0x0fff⟩)
  | invalid_E (h0 : w / 4096 % 16 = 14) (h1 : w % 256 ≠ 0x9e) (h2 : w % 256 ≠ 0xa1) :
      Decoded rnd cpu w (.error (.invalid_opcode cpu))
  | load_reg_delay (h0 : w / 4096 % 16 = 15) (h1 : w % 256 = 0x07) :
      Decoded rnd cpu w (.ok (load_reg_delay cpu ⟨w &&& 0x0fff⟩))
  | load_wait_key (h0 : w / 4096 % 16 = 15) (h1 : w % 256 = 0x0A) :
      Decoded rnd cpu w (.ok (load_wait_key cpu ⟨w &&& 0x0fff⟩))
  | load_delay_reg (h0 : w / 4096 % 16 = 15) (h1 : w % 256 = 0x15) :
      Decoded rnd cpu w (.ok (load_delay_reg cpu ⟨w &&& 0x0fff⟩))
  | load_sound_reg (h0 : w / 4096 % 16 = 15) (h1 : w % 256 = 0x18) :
      Decoded rnd cpu w (.ok (load_sound_reg cpu ⟨w &&& 0x0fff⟩))
  | add_i_reg (h0 : w / 4096 % 16 = 15) (h1 : w % 256 = 0x1E) :
      Decoded rnd cpu w (.ok (add_i_reg cpu ⟨w &&& 0x0fff⟩))
  | load_sprite (h0 : w / 4096 % 16 = 15) (h1 : w % 256 = 0x29) :
      Decoded rnd cpu w (.ok (load_sprite cpu ⟨w &&& 0x0fff⟩))
  | store_bcd (h0 : w / 4096 % 16 = 15) (h1 : w % 256 = 0x33) :
      Decoded rnd cpu w (store_bcd cpu ⟨w &&& 0x0fff⟩)
  | store_regs (h0 : w / 4096 % 16 = 15) (h1 : w % 256 = 0x55) :
      Decoded rnd cpu w (store_regs cpu ⟨w &&& 0x0fff⟩)
  | load_regs (h0 : w / 4096 % 16 = 15) (h1 : w % 256 = 0x65) :
      Decoded rnd cpu w (load_regs cpu ⟨w &&& 0x0fff⟩)
  | invalid_F (h0 : w / 4096 % 16 = 15) (h1 : w % 256 ≠ 0x07) (h2 : w % 256 ≠ 0x0A) (h3 : w % 256 ≠ 0x15) (h4 : w % 256 ≠ 0x18) (h5 : w % 256 ≠ 0x1E) (h6 : w % 256 ≠ 0x29) (h7 : w % 256 ≠ 0x33) (h8 : w % 256 ≠ 0x55) (h9 : w % 256 ≠ 0x65) :
      Decoded rnd cpu w (.error (.invalid_opcode cpu))

/-- The undefined patterns as the specification lists them, for a 16-bit word `w`:
`5XYn` with `n ≠ 0`; `8XYn` with `n` not in `{0,1,2,3,4,5,6,7,E}`; `EXkk` with `kk` not
in `{9E, A1}`; `FXkk` with `kk` not in `{07, 0A, 15, 18, 1E, 29, 33, 55, 65}`. -/
def undefined_pattern (w : Nat) : Prop :=
  (w / 4096 = 0x5 ∧ w % 16 ≠ 0) ∨
  (w / 4096 = 0x8 ∧ w % 16 ≠ 0 ∧ w % 16 ≠ 1 ∧ w % 16 ≠ 2 ∧ w % 16 ≠ 3 ∧ w % 16 ≠ 4 ∧
    w % 16 ≠ 5 ∧ w % 16 ≠ 6 ∧ w % 16 ≠ 7 ∧ w % 16 ≠ 0xE) ∨
  (w / 4096 = 0xE ∧ w % 256 ≠ 0x9E ∧ w % 256 ≠ 0xA1) ∨
  (w / 4096 = 0xF ∧ w % 256 ≠ 0x07 ∧ w % 256 ≠ 0x0A ∧ w % 256 ≠ 0x15 ∧ w % 256 ≠ 0x18 ∧
    w % 256 ≠ 0x1E ∧ w % 256 ≠ 0x29 ∧ w % 256 ≠ 0x33 ∧ w % 256 ≠ 0x55 ∧ w % 256 ≠ 0x65)

/-! ## Vocabulary of the statements about sequences of cycles -/

/-- What every state between two `cycle` calls satisfies, as long as no access leaves
an array: registers, `ram` and the delay timer hold bytes, the stack slots hold
addresses up to 4096, the pixels are 0 or 1 and the stack pointer is at most 16. -/
structure Safe (cpu : Cpu) : Prop where
  v_lt : ∀ k, k < 16 → cpu.reg.v k < 256
  ram_lt : ∀ k, k < 4096 → cpu.ram k < 256
  delay_lt : cpu.delay_timer < 256
  stack_le : ∀ k, k < 16 → cpu.stack k ≤ 4096
  vram_bin : ∀ k, k < 2048 → cpu.vram k ≤ 1
  sp_le : cpu.reg.sp ≤ 16

/-- A `Safe` state right after a fetch inside `ram`: `pc` is between 2 and 4096. -/
def Ready (cpu : Cpu) : Prop := Safe cpu ∧ 2 ≤ cpu.reg.pc ∧ cpu.reg.pc ≤ 4096

/-- A `Safe` state between two cycles: `pc` is at most `0xFFF + 0xFF`. -/
def Settled (cpu : Cpu) : Prop := Safe cpu ∧ cpu.reg.pc ≤ 0x10FE

/-! ## Bit-level and decoding lemmas -/

theorem shiftRight_and (a b k : Nat) : (a &&& b) >>> k = (a >>> k) &&& (b >>> k) := by
  apply Nat.eq_of_testBit_eq; intro i; simp

theorem and_fff (w : Nat) : w &&& 0x0fff = w % 4096 := Nat.and_pow_two_sub_one_eq_mod w 12

theorem and_0f (w : Nat) : w &&& 0x0f = w % 16 := Nat.and_pow_two_sub_one_eq_mod w 4

theorem and_f000_shift (w : Nat) : (w &&& 0xf000) >>> 12 = w / 4096 % 16 := by
  rw [shiftRight_and]
  have h : (0xf000 : Nat) >>> 12 = 2 ^ 4 - 1 := by decide
  rw [h, Nat.and_pow_two_sub_one_eq_mod, Nat.shiftRight_eq_div_pow]

theorem and_f0_shift (w : Nat) : (w &&& 0xf0) >>> 4 = w / 16 % 16 := by
  rw [shiftRight_and]
  have h : (0xf0 : Nat) >>> 4 = 2 ^ 4 - 1 := by decide
  rw [h, Nat.and_pow_two_sub_one_eq_mod, Nat.shiftRight_eq_div_pow]

theorem opword_type (t x y n : Nat) (ht : t < 16) (hx : x < 16) (hy : y < 16) (hn : n < 16) :
    ((opword t x y n &&& 0xf000) >>> 12) % 256 = t := by
  rw [and_f000_shift]; unfold opword; omega

theorem opword_code (t x y n : Nat) (hx : x < 16) (hy : y < 16) (hn : n < 16) :
    opword t x y n &&& 0x0fff = 0x100 * x + 0x10 * y + n := by
  rw [and_fff]; unfold opword; omega

theorem code_high (x y n : Nat) (hx : x < 16) (hy : y < 16) (hn : n < 16) :
    Opcode.high ⟨0x100 * x + 0x10 * y + n⟩ = x := by
  unfold Opcode.high; simp only; omega

theorem code_low (x y n : Nat) (hy : y < 16) (hn : n < 16) :
    Opcode.low ⟨0x100 * x + 0x10 * y + n⟩ = 0x10 * y + n := by
  unfold Opcode.low; simp only; omega

theorem code_vy (x y n : Nat) (hy : y < 16) (hn : n < 16) :
    (Opcode.low ⟨0x100 * x + 0x10 * y + n⟩ &&& 0xf0) >>> 4 = y := by
  rw [and_f0_shift, code_low x y n hy hn]; omega

theorem code_n (x y n : Nat) (hy : y < 16) (hn : n < 16) :
    Opcode.low ⟨0x100 * x + 0x10 * y + n⟩ &&& 0x0f = n := by
  rw [and_0f, code_low x y n hy hn]; omega

/-! ## The sprite loops -/

theorem draw_row_succ (x yc todo j data : Nat) (cpu : Cpu) :
    draw_row x yc (todo + 1) j data cpu =
      if col x j ≥ vram_width then draw_row x yc todo (j + 1) (data >>> 1) cpu
      else draw_row x yc todo (j + 1) (data >>> 1)
        { (if (data &&& 0x1) &&& cpu.vram (cell yc (col x j)) ≠ 0 then cpu.set_v_flag 1 else cpu) with
          vram := set_at cpu.vram (cell yc (col x j))
            (cpu.vram (cell yc (col x j)) ^^^ (data &&& 0x1)) } := by
  show draw_row x yc (todo + 1) j data cpu = _
  rw [draw_row]
  simp only [col, cell]
  split
  · rfl
  · split <;> rfl

theorem cell_inj (yc a b : Nat) (ha : a < 64) (hb : b < 64) (h : a ≠ b) :
    cell yc a ≠ cell yc b := by
  unfold cell; simp only [vram_width]; omega

theorem col_inj (x j k : Nat) (hj : j < 8) (hk : k < 8) (h : j ≠ k) : col x j ≠ col x k := by
  unfold col; omega

/-- A cell that no iteration of the inner loop addresses keeps its value. -/
theorem draw_row_miss (x yc p : Nat) : ∀ (todo j data : Nat) (cpu : Cpu),
    (∀ d, d < todo → col x (j + d) < 64 → p ≠ cell yc (col x (j + d))) →
    (draw_row x yc todo j data cpu).vram p = cpu.vram p := by
  intro todo
  induction todo with
  | zero => intro j data cpu _; rfl
  | succ todo ih =>
    intro j data cpu h
    have htail : ∀ d, d < todo → col x (j + 1 + d) < 64 → p ≠ cell yc (col x (j + 1 + d)) := by
      intro d hd hc
      have e : j + 1 + d = j + (d + 1) := by omega
      rw [e] at hc ⊢
      exact h (d + 1) (by omega) hc
    rw [draw_row_succ]
    split
    · exact ih _ _ _ htail
    · rename_i hc
      rw [ih _ _ _ htail]
      have h0 := h 0 (by omega) (by simpa using hc)
      simp only [Nat.add_zero] at h0
      simp [set_at, h0]

/-- A cell addressed by iteration `j + d` of the inner loop is XORed with bit `d` of `data`. -/
theorem draw_row_hit (x yc : Nat) : ∀ (todo j data : Nat) (cpu : Cpu) (d : Nat),
    j + todo ≤ 8 → d < todo → col x (j + d) < 64 →
    (draw_row x yc todo j data cpu).vram (cell yc (col x (j + d)))
      = cpu.vram (cell yc (col x (j + d))) ^^^ ((data >>> d) &&& 1) := by
  intro todo
  induction todo with
  | zero => intro j data cpu d _ hd; omega
  | succ todo ih =>
    intro j data cpu d hj hd hc
    rw [draw_row_succ]
    cases d with
    | zero =>
      simp only [Nat.add_zero] at hc ⊢
      have hlt : ¬ col x j ≥ vram_width := by simp only [vram_width]; omega
      rw [if_neg hlt, draw_row_miss]
      · simp [set_at]
      · intro e he hce
        exact cell_inj yc _ _ hc hce (col_inj x _ _ (by omega) (by omega) (by omega))
    | succ d =>
      have e : j + (d + 1) = j + 1 + d := by omega
      have es : data >>> (d + 1) = (data >>> 1) >>> d := by
        rw [Nat.add_comm, Nat.shiftRight_add]
      rw [e] at hc ⊢
      rw [es]
      split
      · exact ih _ _ _ d (by omega) (by omega) hc
      · rename_i hc0
        rw [ih _ _ _ d (by omega) (by omega) hc]
        have hlt : col x j < 64 := by simpa using hc0
        have hne : cell yc (col x (j + 1 + d)) ≠ cell yc (col x j) :=
          cell_inj yc _ _ hc hlt (col_inj x _ _ (by omega) (by omega) (by omega))
        simp [set_at, hne]

theorem set_at_self {α : Type} (a : Nat → α) (k : Nat) : set_at a k (a k) = a := by
  funext j; unfold set_at; split
  · rename_i h; rw [h]
  · rfl

theorem set_at_set_at {α : Type} (a : Nat → α) (k : Nat) (u w : α) :
    set_at (set_at a k u) k w = set_at a k w := by
  funext j; unfold set_at; split <;> rfl

/-- The inner loop touches nothing but `vram` and `v[15]`. -/
theorem draw_row_shape (x yc : Nat) : ∀ (todo j data : Nat) (cpu : Cpu),
    ∃ f V, draw_row x yc todo j data cpu =
      { cpu with reg := { cpu.reg with v := set_at cpu.reg.v 15 f }, vram := V } := by
  intro todo
  induction todo with
  | zero =>
    intro j data cpu
    exact ⟨cpu.reg.v 15, cpu.vram, by rw [set_at_self]; rfl⟩
  | succ todo ih =>
    intro j data cpu
    rw [draw_row_succ]
    split
    · exact ih _ _ _
    · split
      · obtain ⟨f, V, h⟩ := ih (j + 1) (data >>> 1)
          { cpu.set_v_flag 1 with
            vram := set_at cpu.vram (cell yc (col x j))
              (cpu.vram (cell yc (col x j)) ^^^ (data &&& 0x1)) }
        refine ⟨f, V, ?_⟩
        rw [h]
        simp [Cpu.set_v_flag, Cpu.set_v, set_at_set_at]
      · obtain ⟨f, V, h⟩ := ih (j + 1) (data >>> 1)
          { cpu with
            vram := set_at cpu.vram (cell yc (col x j))
              (cpu.vram (cell yc (col x j)) ^^^ (data &&& 0x1)) }
        exact ⟨f, V, by rw [h]⟩

theorem row_collision_succ (x yc todo j data : Nat) (vram : Nat → Nat) :
    row_collision x yc (todo + 1) j data vram ↔
      (col x j < 64 ∧ (data &&& 1) &&& vram (cell yc (col x j)) ≠ 0) ∨
        row_collision x yc todo (j + 1) (data >>> 1) vram := by
  constructor
  · rintro ⟨d, hd, hc, hb⟩
    cases d with
    | zero =>
      simp only [Nat.add_zero, Nat.shiftRight_zero] at hc hb
      exact Or.inl ⟨hc, hb⟩
    | succ d =>
      right
      refine ⟨d, by omega, ?_, ?_⟩
      · rw [show j + 1 + d = j + (d + 1) by omega]; exact hc
      · rw [show j + 1 + d = j + (d + 1) by omega, ← Nat.shiftRight_add,
          Nat.add_comm 1 d]
        exact hb
  · rintro (⟨hc, hb⟩ | ⟨d, hd, hc, hb⟩)
    · refine ⟨0, by omega, ?_, ?_⟩
      · simp only [Nat.add_zero]; exact hc
      · simp only [Nat.add_zero, Nat.shiftRight_zero]; exact hb
    · refine ⟨d + 1, by omega, ?_, ?_⟩
      · rw [show j + (d + 1) = j + 1 + d by omega]; exact hc
      · rw [show j + (d + 1) = j + 1 + d by omega, Nat.add_comm d 1, Nat.shiftRight_add]
        exact hb

theorem row_collision_congr (x yc todo j data : Nat) (V W : Nat → Nat)
    (h : ∀ d, d < todo → col x (j + d) < 64 →
      V (cell yc (col x (j + d))) = W (cell yc (col x (j + d)))) :
    row_collision x yc todo j data V ↔ row_collision x yc todo j data W := by
  constructor
  · rintro ⟨d, hd, hc, hb⟩
    exact ⟨d, hd, hc, by rw [← h d hd hc]; exact hb⟩
  · rintro ⟨d, hd, hc, hb⟩
    exact ⟨d, hd, hc, by rw [h d hd hc]; exact hb⟩

/-- The inner loop sets `v[15]` to 1 when a set sprite bit meets a lit cell and leaves
it alone otherwise. -/
theorem draw_row_flag (x yc : Nat) : ∀ (todo j data : Nat) (cpu : Cpu), j + todo ≤ 8 →
    (row_collision x yc todo j data cpu.vram →
      (draw_row x yc todo j data cpu).reg.v 15 = 1) ∧
    (¬ row_collision x yc todo j data cpu.vram →
      (draw_row x yc todo j data cpu).reg.v 15 = cpu.reg.v 15) := by
  intro todo
  induction todo with
  | zero =>
    intro j data cpu _
    refine ⟨?_, fun _ => rfl⟩
    rintro ⟨d, hd, _⟩; omega
  | succ todo ih =>
    intro j data cpu hj
    rw [draw_row_succ, row_collision_succ]
    split
    · rename_i hc
      have hc64 : ¬ col x j < 64 := by simp only [vram_width] at hc; omega
      have ih1 := ih (j + 1) (data >>> 1) cpu (by omega)
      constructor
      · rintro (⟨h, _⟩ | h)
        · exact absurd h hc64
        · exact ih1.1 h
      · intro h
        exact ih1.2 (fun h2 => h (Or.inr h2))
    · rename_i hc
      have hc64 : col x j < 64 := by simp only [vram_width] at hc; omega
      have hcongr : ∀ (c : Cpu), c.vram = cpu.vram →
          (row_collision x yc todo (j + 1) (data >>> 1)
            (set_at c.vram (cell yc (col x j)) (c.vram (cell yc (col x j)) ^^^ (data &&& 0x1)))
          ↔ row_collision x yc todo (j + 1) (data >>> 1) cpu.vram) := by
        intro c hcv
        apply row_collision_congr
        intro d hd hcd
        have hne : cell yc (col x (j + 1 + d)) ≠ cell yc (col x j) :=
          cell_inj yc _ _ hcd hc64 (col_inj x _ _ (by omega) (by omega) (by omega))
        simp [set_at, hne, hcv]
      split
      · rename_i hb
        have ih1 := ih (j + 1) (data >>> 1)
          { cpu.set_v_flag 1 with
            vram := set_at cpu.vram (cell yc (col x j))
              (cpu.vram (cell yc (col x j)) ^^^ (data &&& 0x1)) } (by omega)
        have hc1 := hcongr cpu rfl
        constructor
        · intro _
          by_cases h2 : row_collision x yc todo (j + 1) (data >>> 1) cpu.vram
          · exact ih1.1 (hc1.2 h2)
          · rw [ih1.2 (fun h3 => h2 (hc1.1 h3))]
            simp [Cpu.set_v_flag, Cpu.set_v, set_at]
        · intro h
          exact absurd (Or.inl ⟨hc64, hb⟩) h
      · rename_i hb
        have ih1 := ih (j + 1) (data >>> 1)
          { cpu with
            vram := set_at cpu.vram (cell yc (col x j))
              (cpu.vram (cell yc (col x j)) ^^^ (data &&& 0x1)) } (by omega)
        have hc1 := hcongr cpu rfl
        constructor
        · rintro (⟨_, h⟩ | h)
          · exact absurd h hb
          · exact ih1.1 (hc1.2 h)
        · intro h
          exact ih1.2 (fun h3 => h (Or.inr (hc1.1 h3)))

theorem draw_rows_succ (x y todo i : Nat) (cpu : Cpu) :
    draw_rows x y (todo + 1) i cpu =
      if cpu.reg.i + i < mem_size then
        if row_of y i ≥ vram_height then draw_rows x y todo (i + 1) cpu
        else draw_rows x y todo (i + 1)
          (draw_row x (row_of y i) 8 0 (cpu.ram (cpu.reg.i + i)) cpu)
      else .error .out_of_range := by
  rw [draw_rows]
  rfl

theorem cell_row_inj (r s a b : Nat) (hr : r < 32) (hs : s < 32) (ha : a < 64) (hb : b < 64)
    (h : r ≠ s) : cell r a ≠ cell s b := by
  unfold cell; simp only [vram_width]; omega

theorem row_inj (y i k : Nat) (hi : i < 256) (hk : k < 256) (h : i ≠ k) :
    row_of y i ≠ row_of y k := by
  unfold row_of; omega

/-- The outer loop completes when every sprite byte lies inside `ram`, and touches
nothing but `vram` and `v[15]`. -/
theorem draw_rows_shape (x y : Nat) : ∀ (todo i : Nat) (cpu : Cpu),
    cpu.reg.i + i + todo ≤ mem_size →
    ∃ f V, draw_rows x y todo i cpu =
      .ok { cpu with reg := { cpu.reg with v := set_at cpu.reg.v 15 f }, vram := V } := by
  intro todo
  induction todo with
  | zero =>
    intro i cpu _
    exact ⟨cpu.reg.v 15, cpu.vram, by rw [set_at_self]; rfl⟩
  | succ todo ih =>
    intro i cpu hb
    rw [draw_rows_succ, if_pos (by omega)]
    split
    · exact ih (i + 1) cpu (by omega)
    · obtain ⟨f, V, h⟩ := draw_row_shape x (row_of y i) 8 0 (cpu.ram (cpu.reg.i + i)) cpu
      rw [h]
      obtain ⟨g, W, h2⟩ := ih (i + 1)
        { cpu with reg := { cpu.reg with v := set_at cpu.reg.v 15 f }, vram := V }
        (by simpa using (by omega : cpu.reg.i + (i + 1) + todo ≤ mem_size))
      refine ⟨g, W, ?_⟩
      rw [h2]
      simp [set_at_set_at]

/-- A cell that no iteration of the two loops addresses keeps its value. -/
theorem draw_rows_miss (x y p : Nat) : ∀ (todo i : Nat) (cpu cpu1 : Cpu),
    draw_rows x y todo i cpu = .ok cpu1 →
    (∀ e d, e < todo → d < 8 → row_of y (i + e) < 32 → col x d < 64 →
      p ≠ cell (row_of y (i + e)) (col x d)) →
    cpu1.vram p = cpu.vram p := by
  intro todo
  induction todo with
  | zero =>
    intro i cpu cpu1 h _
    rw [draw_rows] at h
    cases h; rfl
  | succ todo ih =>
    intro i cpu cpu1 h hp
    have htail : ∀ e d, e < todo → d < 8 → row_of y (i + 1 + e) < 32 → col x d < 64 →
        p ≠ cell (row_of y (i + 1 + e)) (col x d) := by
      intro e d he hd hr hc
      have e1 : i + 1 + e = i + (e + 1) := by omega
      rw [e1] at hr ⊢
      exact hp (e + 1) d (by omega) hd hr hc
    rw [draw_rows_succ] at h
    split at h
    · split at h
      · exact ih _ _ _ h htail
      · rename_i hr
        rw [ih _ _ _ h htail]
        apply draw_row_miss
        intro d hd hc
        have h0 := hp 0 (0 + d) (by omega) (by omega)
          (by simp only [Nat.add_zero, vram_height] at hr ⊢; omega) hc
        simpa using h0
    · cases h

/-- A cell addressed by row iteration `i + e` and column iteration `d` is XORed with
bit `d` of the sprite byte `ram[I + i + e]`. -/
theorem draw_rows_hit (x y : Nat) : ∀ (todo i : Nat) (cpu cpu1 : Cpu) (e d : Nat),
    draw_rows x y todo i cpu = .ok cpu1 → i + todo ≤ 256 →
    e < todo → d < 8 → row_of y (i + e) < 32 → col x d < 64 →
    cpu1.vram (cell (row_of y (i + e)) (col x d))
      = cpu.vram (cell (row_of y (i + e)) (col x d))
          ^^^ ((cpu.ram (cpu.reg.i + (i + e)) >>> d) &&& 1) := by
  intro todo
  induction todo with
  | zero => intro i cpu cpu1 e d _ _ he; omega
  | succ todo ih =>
    intro i cpu cpu1 e d h hi he hd hr hc
    rw [draw_rows_succ] at h
    split at h
    · cases e with
      | zero =>
        simp only [Nat.add_zero] at hr ⊢
        rw [if_neg (by simp only [vram_height]; omega)] at h
        rw [draw_rows_miss x y _ _ _ _ _ h]
        · have h1 := draw_row_hit x (row_of y i) 8 0 (cpu.ram (cpu.reg.i + i)) cpu d
            (by omega) hd (by simpa using hc)
          simpa using h1
        · intro e2 d2 he2 hd2 hr2 hc2
          exact cell_row_inj _ _ _ _ hr hr2 hc hc2
            (row_inj y _ _ (by omega) (by omega) (by omega))
      | succ e =>
        have e1 : i + (e + 1) = i + 1 + e := by omega
        rw [e1] at hr ⊢
        split at h
        · exact ih _ _ _ e d h (by omega) (by omega) hd hr hc
        · rename_i hr0
          have hr0lt : row_of y i < 32 := by simp only [vram_height] at hr0; omega
          rw [ih _ _ _ e d h (by omega) (by omega) hd hr hc]
          obtain ⟨f, V, hs⟩ := draw_row_shape x (row_of y i) 8 0 (cpu.ram (cpu.reg.i + i)) cpu
          have hram : (draw_row x (row_of y i) 8 0 (cpu.ram (cpu.reg.i + i)) cpu).ram = cpu.ram := by
            rw [hs]
          have hI : (draw_row x (row_of y i) 8 0 (cpu.ram (cpu.reg.i + i)) cpu).reg.i = cpu.reg.i := by
            rw [hs]
          rw [hram, hI]
          congr 1
          apply draw_row_miss
          intro d2 hd2 hc2
          exact cell_row_inj _ _ _ _ hr hr0lt hc hc2
            (row_inj y _ _ (by omega) (by omega) (by omega))
    · cases h

theorem sprite_collision_succ (x y todo i regI : Nat) (ram vram : Nat → Nat) :
    sprite_collision x y (todo + 1) i regI ram vram ↔
      (row_of y i < 32 ∧ row_collision x (row_of y i) 8 0 (ram (regI + i)) vram) ∨
        sprite_collision x y todo (i + 1) regI ram vram := by
  constructor
  · rintro ⟨e, d, he, hd, hr, hc, hb⟩
    cases e with
    | zero =>
      simp only [Nat.add_zero] at hr hb
      exact Or.inl ⟨hr, d, hd, by simpa using hc, by simpa only [Nat.zero_add] using hb⟩
    | succ e =>
      have e1 : i + (e + 1) = i + 1 + e := by omega
      rw [e1] at hr hb
      exact Or.inr ⟨e, d, by omega, hd, hr, hc, hb⟩
  · rintro (⟨hr, d, hd, hc, hb⟩ | ⟨e, d, he, hd, hr, hc, hb⟩)
    · simp only [Nat.zero_add] at hc hb
      exact ⟨0, d, by omega, hd, by simpa using hr, hc, by simpa only [Nat.add_zero] using hb⟩
    · have e1 : i + 1 + e = i + (e + 1) := by omega
      rw [e1] at hr hb
      exact ⟨e + 1, d, by omega, hd, hr, hc, hb⟩

theorem sprite_collision_congr (x y todo i regI : Nat) (ram V W : Nat → Nat)
    (h : ∀ e d, e < todo → d < 8 → row_of y (i + e) < 32 → col x d < 64 →
      V (cell (row_of y (i + e)) (col x d)) = W (cell (row_of y (i + e)) (col x d))) :
    sprite_collision x y todo i regI ram V ↔ sprite_collision x y todo i regI ram W := by
  constructor
  · rintro ⟨e, d, he, hd, hr, hc, hb⟩
    exact ⟨e, d, he, hd, hr, hc, by rw [← h e d he hd hr hc]; exact hb⟩
  · rintro ⟨e, d, he, hd, hr, hc, hb⟩
    exact ⟨e, d, he, hd, hr, hc, by rw [h e d he hd hr hc]; exact hb⟩

/-- The two loops set `v[15]` to 1 when a set sprite bit meets a cell that was lit
before the loops, and leave it alone otherwise. -/
theorem draw_rows_flag (x y : Nat) : ∀ (todo i : Nat) (cpu cpu1 : Cpu),
    draw_rows x y todo i cpu = .ok cpu1 → i + todo ≤ 256 →
    (sprite_collision x y todo i cpu.reg.i cpu.ram cpu.vram → cpu1.reg.v 15 = 1) ∧
    (¬ sprite_collision x y todo i cpu.reg.i cpu.ram cpu.vram →
      cpu1.reg.v 15 = cpu.reg.v 15) := by
  intro todo
  induction todo with
  | zero =>
    intro i cpu cpu1 h _
    rw [draw_rows] at h
    cases h
    refine ⟨?_, fun _ => rfl⟩
    rintro ⟨e, _, he, _⟩; omega
  | succ todo ih =>
    intro i cpu cpu1 h hi
    rw [draw_rows_succ] at h
    rw [sprite_collision_succ]
    split at h
    · split at h
      · rename_i hr
        have hr32 : ¬ row_of y i < 32 := by simp only [vram_height] at hr; omega
        have ih1 := ih (i + 1) cpu cpu1 h (by omega)
        constructor
        · rintro (⟨h1, _⟩ | h1)
          · exact absurd h1 hr32
          · exact ih1.1 h1
        · intro h1
          exact ih1.2 (fun h2 => h1 (Or.inr h2))
      · rename_i hr
        have hr32 : row_of y i < 32 := by simp only [vram_height] at hr; omega
        have ih1 := ih (i + 1) _ cpu1 h (by omega)
        obtain ⟨f, V, hs⟩ := draw_row_shape x (row_of y i) 8 0 (cpu.ram (cpu.reg.i + i)) cpu
        have hram : (draw_row x (row_of y i) 8 0 (cpu.ram (cpu.reg.i + i)) cpu).ram = cpu.ram := by
          rw [hs]
        have hI : (draw_row x (row_of y i) 8 0 (cpu.ram (cpu.reg.i + i)) cpu).reg.i = cpu.reg.i := by
          rw [hs]
        rw [hram, hI] at ih1
        have hc1 : sprite_collision x y todo (i + 1) cpu.reg.i cpu.ram
            (draw_row x (row_of y i) 8 0 (cpu.ram (cpu.reg.i + i)) cpu).vram ↔
            sprite_collision x y todo (i + 1) cpu.reg.i cpu.ram cpu.vram := by
          apply sprite_collision_congr
          intro e d he hd hre hc
          apply draw_row_miss
          intro d2 hd2 hc2
          exact cell_row_inj _ _ _ _ hre hr32 hc hc2
            (row_inj y _ _ (by omega) (by omega) (by omega))
        have hrow := draw_row_flag x (row_of y i) 8 0 (cpu.ram (cpu.reg.i + i)) cpu (by omega)
        constructor
        · intro h1
          by_cases h2 : sprite_collision x y todo (i + 1) cpu.reg.i cpu.ram cpu.vram
          · exact ih1.1 (hc1.2 h2)
          · rw [ih1.2 (fun h3 => h2 (hc1.1 h3))]
            rcases h1 with ⟨_, h1⟩ | h1
            · exact hrow.1 h1
            · exact absurd h1 h2
        · intro h1
          rw [ih1.2 (fun h3 => h1 (Or.inr (hc1.1 h3)))]
          exact hrow.2 (fun h3 => h1 (Or.inl ⟨hr32, h3⟩))
    · cases h

/-- The word `DXYN` is dispatched to `draw_sprite` with payload `XYN`. -/
theorem interpret_draw (rnd : Nat) (cpu : Cpu) (X Y N : Nat)
    (hX : X < 16) (hY : Y < 16) (hN : N < 16) :
    interpret rnd cpu (opword 0xD X Y N) = draw_sprite cpu ⟨0x100 * X + 0x10 * Y + N⟩ := by
  unfold interpret
  simp only [opword_type 0xD X Y N (by decide) hX hY hN, opword_code 0xD X Y N hX hY hN]

/-- What `DXYN` does when the sprite bytes lie inside `ram`, in the terms of the loops:
`e` is the row iteration, `d` the column iteration (bit `d` of the sprite byte). -/
theorem interpret_drw_spec (rnd : Nat) (cpu : Cpu) (X Y N : Nat)
    (hX : X < 16) (hY : Y < 16) (hN : N < 16) (hI : cpu.reg.i + N ≤ mem_size) :
    ∃ c1, interpret rnd cpu (opword 0xD X Y N) = .ok c1 ∧
      (∃ f V, c1 = { cpu with
        reg := { cpu.reg with v := set_at cpu.reg.v 15 f }, vram := V, update_gui := true }) ∧
      (∀ p, (∀ e d, e < N → d < 8 → row_of (cpu.reg.v Y) e < 32 → col (cpu.reg.v X) d < 64 →
          p ≠ cell (row_of (cpu.reg.v Y) e) (col (cpu.reg.v X) d)) → c1.vram p = cpu.vram p) ∧
      (∀ e d, e < N → d < 8 → row_of (cpu.reg.v Y) e < 32 → col (cpu.reg.v X) d < 64 →
        c1.vram (cell (row_of (cpu.reg.v Y) e) (col (cpu.reg.v X) d))
          = cpu.vram (cell (row_of (cpu.reg.v Y) e) (col (cpu.reg.v X) d))
              ^^^ ((cpu.ram (cpu.reg.i + e) >>> d) &&& 1)) ∧
      (sprite_collision (cpu.reg.v X) (cpu.reg.v Y) N 0 cpu.reg.i cpu.ram cpu.vram →
        c1.reg.v 15 = 1) ∧
      (¬ sprite_collision (cpu.reg.v X) (cpu.reg.v Y) N 0 cpu.reg.i cpu.ram cpu.vram →
        c1.reg.v 15 = 0) := by
  rw [interpret_draw rnd cpu X Y N hX hY hN]
  unfold draw_sprite
  simp only [code_high X Y N hX hY hN, code_vy X Y N hY hN, code_n X Y N hY hN]
  obtain ⟨f, V, hs⟩ := draw_rows_shape (cpu.reg.v X) (cpu.reg.v Y) N 0 (cpu.set_v_flag 0)
    (by simpa [Cpu.set_v_flag, Cpu.set_v] using hI)
  have hmiss := fun p => draw_rows_miss (cpu.reg.v X) (cpu.reg.v Y) p N 0 _ _ hs
  have hhit := fun e d => draw_rows_hit (cpu.reg.v X) (cpu.reg.v Y) N 0 _ _ e d hs (by omega)
  have hflag := draw_rows_flag (cpu.reg.v X) (cpu.reg.v Y) N 0 _ _ hs (by omega)
  rw [hs]
  refine ⟨_, rfl, ⟨f, V, ?_⟩, ?_, ?_, ?_, ?_⟩
  · simp [Cpu.set_v_flag, Cpu.set_v, set_at_set_at]
  · intro p hp
    have h1 := hmiss p (by simpa only [Nat.zero_add] using hp)
    simpa [Cpu.set_v_flag, Cpu.set_v] using h1
  · intro e d he hd hr hc
    have h1 := hhit e d he hd (by simpa only [Nat.zero_add] using hr) hc
    simpa only [Nat.zero_add] using h1
  · intro hcol
    exact hflag.1 hcol
  · intro hcol
    have h1 := hflag.2 hcol
    rw [h1]
    simp [Cpu.set_v_flag, Cpu.set_v, set_at]

/-! ## Machines used as concrete inputs -/

/-- The cells of a machine with every cell zero are in range. -/
theorem zero_cpu_WF : zero_cpu.WF := by
  constructor <;> simp [zero_cpu]

/-- A byte stored in a register keeps the cells in range. -/
theorem WF_set_v (cpu : Cpu) (k x : Nat) (h : cpu.WF) (hx : x < 256) : (cpu.set_v k x).WF := by
  refine { h with v_lt := ?_ }
  intro j hj
  simp only [Cpu.set_v, set_at]
  split
  · exact hx
  · exact h.v_lt j hj

/-- Every entry of the font table is a byte. -/
theorem HEX_FONTS_lt (k : Nat) : HEX_FONTS.getD k 0 < 256 := by
  by_cases hk : k < 80
  · revert k; decide
  · rw [List.getD_eq_default _ _ (by simpa [HEX_FONTS] using Nat.le_of_not_lt hk)]
    decide

/-- The cells of `font_cpu` are in range. -/
theorem font_cpu_WF : font_cpu.WF :=
  { zero_cpu_WF with
    pc_lt := by decide
    ram_lt := fun k _ => HEX_FONTS_lt k }

/-- The cells of `key5_cpu` are in range. -/
theorem key5_cpu_WF : key5_cpu.WF :=
  { zero_cpu_WF with }

/-! ## DRW (`DXYN`) -/

/-- Claim C1, which the code departs from.  `DRW` clips at the screen edge but its coordinates
are bytes: with `V0 = 0xFF` (column 255, off screen) the word `D011` still changes the
cells of columns 0, 1, 2 of row 0, and with `V1 = 0xFF` (row 255) the word `D012` draws
its second sprite row on row 0. -/
theorem drw_wraps_at_byte_overflow :
    ((interpret 0 (font_cpu.set_v 0 0xFF) (opword 0xD 0 1 1)).toOption.map
        (fun c => [c.vram 0, c.vram 1, c.vram 2, c.vram 3]) = some [1, 1, 1, 0]) ∧
    ((interpret 0 (font_cpu.set_v 1 0xFF) (opword 0xD 0 1 2)).toOption.map
        (fun c => [c.vram 0, c.vram 3, c.vram 4]) = some [1, 1, 0]) ∧
    (font_cpu.set_v 0 0xFF).reg.v 0 ≥ 64 ∧ (font_cpu.set_v 1 0xFF).reg.v 1 ≥ 32 ∧
    (font_cpu.set_v 0 0xFF).reg.i + 1 ≤ 4096 ∧ (font_cpu.set_v 1 0xFF).reg.i + 2 ≤ 4096 ∧
    (∀ k, k < 5 → (font_cpu.set_v 0 0xFF).vram k = 0 ∧ (font_cpu.set_v 1 0xFF).vram k = 0) ∧
    (font_cpu.set_v 0 0xFF).WF ∧ (font_cpu.set_v 1 0xFF).WF := by
  refine ⟨by decide, by decide, by decide, by decide, by decide, by decide, by decide,
    WF_set_v _ _ _ font_cpu_WF (by decide), WF_set_v _ _ _ font_cpu_WF (by decide)⟩

/-- Where no byte overflows (`Vx + 7 < 256` and `Vy + N ≤ 256`) `DRW` does clip: a cell
at column `c`, row `r` can change only if `r = Vy + i`, `c = Vx + j` for some `i < N`,
`j < 8` with `r < 32` and `c < 64`; and when `Vx ≥ 64` or `Vy ≥ 32` no cell changes and
`VF` ends as 0. -/
theorem drw_clips_without_byte_overflow (rnd : Nat) (cpu : Cpu) (X Y N : Nat)
    (hX : X < 16) (hY : Y < 16) (hN : N < 16) (hI : cpu.reg.i + N ≤ 4096)
    (hx : cpu.reg.v X + 7 < 256) (hy : cpu.reg.v Y + N ≤ 256) :
    ∃ c1, interpret rnd cpu (opword 0xD X Y N) = .ok c1 ∧
      (∀ r c, r < 32 → c < 64 → c1.vram (64 * r + c) ≠ cpu.vram (64 * r + c) →
        ∃ i j, i < N ∧ j < 8 ∧ r = cpu.reg.v Y + i ∧ c = cpu.reg.v X + j) ∧
      (cpu.reg.v X ≥ 64 ∨ cpu.reg.v Y ≥ 32 →
        (∀ k, c1.vram k = cpu.vram k) ∧ c1.reg.v 15 = 0) := by
  obtain ⟨c1, h1, _, hmiss, _, _, hclr⟩ := interpret_drw_spec rnd cpu X Y N hX hY hN hI
  refine ⟨c1, h1, ?_, ?_⟩
  · intro r c hr hc hne
    by_contra hno
    apply hne
    apply hmiss
    intro e d he hd hre hcd heq
    apply hno
    refine ⟨e, 7 - d, he, by omega, ?_, ?_⟩
    · unfold cell row_of col at heq
      unfold row_of at hre
      unfold col at hcd
      simp only [vram_width] at heq
      omega
    · unfold cell row_of col at heq
      unfold row_of at hre
      unfold col at hcd
      simp only [vram_width] at heq
      omega
  · intro hoff
    have hnone : ∀ e d, e < N → d < 8 → row_of (cpu.reg.v Y) e < 32 →
        col (cpu.reg.v X) d < 64 → False := by
      intro e d he hd hre hcd
      unfold row_of at hre
      unfold col at hcd
      omega
    refine ⟨fun k => hmiss k (fun e d he hd hre hcd => (hnone e d he hd hre hcd).elim), ?_⟩
    apply hclr
    rintro ⟨e, d, he, hd, hre, hcd, _⟩
    exact hnone e d he hd (by simpa only [Nat.zero_add] using hre) hcd

/-- Claim C2.  Sprite XOR is an involution on the framebuffer: for `X ≠ F`, `Y ≠ F` and
`I + N ≤ 4096`, executing `DXYN` twice in a row completes both times and leaves every
one of the 2048 vram cells equal to its value before the first draw. -/
theorem drw_twice_restores_vram (rnd1 rnd2 : Nat) (cpu : Cpu) (X Y N : Nat)
    (hX : X < 15) (hY : Y < 15) (hN : N < 16) (hI : cpu.reg.i + N ≤ 4096) :
    ∃ c1 c2, interpret rnd1 cpu (opword 0xD X Y N) = .ok c1 ∧
      interpret rnd2 c1 (opword 0xD X Y N) = .ok c2 ∧
      ∀ k, k < 2048 → c2.vram k = cpu.vram k := by
  obtain ⟨c1, h1, ⟨f, V, hs⟩, hmiss1, hhit1, _⟩ :=
    interpret_drw_spec rnd1 cpu X Y N (by omega) (by omega) hN hI
  have hi1 : c1.reg.i = cpu.reg.i := by rw [hs]
  have hram1 : c1.ram = cpu.ram := by rw [hs]
  have hx1 : c1.reg.v X = cpu.reg.v X := by
    rw [hs]; simp only [set_at]; rw [if_neg (by omega)]
  have hy1 : c1.reg.v Y = cpu.reg.v Y := by
    rw [hs]; simp only [set_at]; rw [if_neg (by omega)]
  obtain ⟨c2, h2, _, hmiss2, hhit2, _⟩ :=
    interpret_drw_spec rnd2 c1 X Y N (by omega) (by omega) hN (by rw [hi1]; exact hI)
  rw [hx1, hy1] at hmiss2 hhit2
  rw [hi1, hram1] at hhit2
  refine ⟨c1, c2, h1, h2, ?_⟩
  intro k _
  by_cases hk : ∃ e d, e < N ∧ d < 8 ∧ row_of (cpu.reg.v Y) e < 32 ∧ col (cpu.reg.v X) d < 64 ∧
      k = cell (row_of (cpu.reg.v Y) e) (col (cpu.reg.v X) d)
  · obtain ⟨e, d, he, hd, hr, hc, rfl⟩ := hk
    rw [hhit2 e d he hd hr hc, hhit1 e d he hd hr hc, Nat.xor_assoc, Nat.xor_self,
      Nat.xor_zero]
  · have hk2 : ∀ e d, e < N → d < 8 → row_of (cpu.reg.v Y) e < 32 → col (cpu.reg.v X) d < 64 →
        k ≠ cell (row_of (cpu.reg.v Y) e) (col (cpu.reg.v X) d) :=
      fun e d he hd hr hc heq => hk ⟨e, d, he, hd, hr, hc, heq⟩
    rw [hmiss2 k hk2, hmiss1 k hk2]

/-- Claim C2, the scenario of the claim: on a cleared framebuffer with the font in `ram`,
`I = 0`, `V0 = V1 = 0`, the word `D015` first shows the glyph of `0` with `VF = 0`; the
second `D015` leaves the framebuffer all zero with `VF = 1`. -/
theorem drw_twice_restores_vram_witness :
    (0 < 15 ∧ 1 < 15 ∧ 5 < 16 ∧ font_cpu.reg.i + 5 ≤ 4096) ∧
    (∀ k, k < 2048 → font_cpu.vram k = 0) ∧
    (∃ c1 c2, interpret 0 font_cpu (opword 0xD 0 1 5) = .ok c1 ∧
      interpret 0 c1 (opword 0xD 0 1 5) = .ok c2 ∧
      c1.reg.v 15 = 0 ∧
      (∀ r, r < 5 → ∀ c, c < 8 →
        c1.vram (64 * r + c) = (HEX_FONTS.getD r 0 >>> (7 - c)) &&& 1) ∧
      [c1.vram 0, c1.vram 1, c1.vram 2, c1.vram 3] = [1, 1, 1, 1] ∧
      [c1.vram 64, c1.vram 65, c1.vram 66, c1.vram 67] = [1, 0, 0, 1] ∧
      [c1.vram 128, c1.vram 129, c1.vram 130, c1.vram 131] = [1, 0, 0, 1] ∧
      [c1.vram 192, c1.vram 193, c1.vram 194, c1.vram 195] = [1, 0, 0, 1] ∧
      [c1.vram 256, c1.vram 257, c1.vram 258, c1.vram 259] = [1, 1, 1, 1] ∧
      c2.reg.v 15 = 1 ∧
      (∀ k, k < 2048 → c2.vram k = 0)) := by
  refine ⟨by decide, fun _ _ => rfl, ?_⟩
  obtain ⟨c1, c2, h1, h2, h3⟩ :=
    drw_twice_restores_vram 0 0 font_cpu 0 1 5 (by decide) (by decide) (by decide) (by decide)
  have e1 : interpret 0 font_cpu (opword 0xD 0 1 5) = .ok
      ((interpret 0 font_cpu (opword 0xD 0 1 5)).toOption.getD font_cpu) := rfl
  have hc1 : c1 = (interpret 0 font_cpu (opword 0xD 0 1 5)).toOption.getD font_cpu :=
    Except.ok.inj (h1.symm.trans e1)
  subst hc1
  have e2 : interpret 0 ((interpret 0 font_cpu (opword 0xD 0 1 5)).toOption.getD font_cpu)
      (opword 0xD 0 1 5) = .ok
      ((interpret 0 ((interpret 0 font_cpu (opword 0xD 0 1 5)).toOption.getD font_cpu)
        (opword 0xD 0 1 5)).toOption.getD font_cpu) := rfl
  have hc2 := Except.ok.inj (h2.symm.trans e2)
  subst hc2
  refine ⟨_, _, h1, h2, by decide, by decide, by decide, by decide, by decide, by decide,
    by decide, by decide, ?_⟩
  intro k hk
  rw [h3 k hk]
  rfl

/-- On-screen coordinates: with `x < 64`, column iteration `7 - j` addresses column
`x + j`. -/
theorem col_on_screen (x j : Nat) (hx : x < 64) (hj : j < 8) : col x (7 - j) = x + j := by
  unfold col; omega

theorem row_on_screen (y i : Nat) (hy : y < 32) (hi : i < 16) : row_of y i = y + i := by
  unfold row_of; omega

theorem cell_on_screen (r c : Nat) (hr : r < 32) (hc : c < 64) : cell r c = 64 * r + c := by
  unfold cell; simp only [vram_width]; omega

/-- A sprite bit and a 0/1 pixel have a nonzero AND exactly when both are 1. -/
theorem bit_and_pixel (a v : Nat) (hv : v = 0 ∨ v = 1) :
    (a &&& 1) &&& v ≠ 0 ↔ a &&& 1 = 1 ∧ v = 1 := by
  rw [Nat.and_one_is_mod]
  rcases hv with hv | hv
  · subst hv; simp
  · subst hv
    rw [Nat.and_one_is_mod]
    omega

/-- Claim C3.  Collision flag of `DRW`: when every vram cell is 0 or 1, `Vx < 64`, `Vy < 32`
and `I + N ≤ 4096`, the instruction completes and leaves `VF = 1` if and only if some
`i < N`, `j < 8` with `Vx + j < 64`, `Vy + i < 32` has bit `7 - j` of `ram[I + i]` set and
the pixel at column `Vx + j`, row `Vy + i` lit before the draw; otherwise `VF = 0`,
whatever `VF` held before. -/
theorem drw_collision_flag (rnd : Nat) (cpu : Cpu) (X Y N : Nat)
    (hX : X < 16) (hY : Y < 16) (hN : N < 16)
    (hbin : ∀ k, k < 2048 → cpu.vram k = 0 ∨ cpu.vram k = 1)
    (hx : cpu.reg.v X < 64) (hy : cpu.reg.v Y < 32) (hI : cpu.reg.i + N ≤ 4096) :
    ∃ c1, interpret rnd cpu (opword 0xD X Y N) = .ok c1 ∧
      (c1.reg.v 15 = 1 ↔
        ∃ i j, i < N ∧ j < 8 ∧ cpu.reg.v X + j < 64 ∧ cpu.reg.v Y + i < 32 ∧
          (cpu.ram (cpu.reg.i + i) >>> (7 - j)) &&& 1 = 1 ∧
          cpu.vram (64 * (cpu.reg.v Y + i) + (cpu.reg.v X + j)) = 1) ∧
      ((¬ ∃ i j, i < N ∧ j < 8 ∧ cpu.reg.v X + j < 64 ∧ cpu.reg.v Y + i < 32 ∧
          (cpu.ram (cpu.reg.i + i) >>> (7 - j)) &&& 1 = 1 ∧
          cpu.vram (64 * (cpu.reg.v Y + i) + (cpu.reg.v X + j)) = 1) →
        c1.reg.v 15 = 0) := by
  obtain ⟨c1, h1, _, _, _, hset, hclr⟩ := interpret_drw_spec rnd cpu X Y N hX hY hN hI
  have hiff : sprite_collision (cpu.reg.v X) (cpu.reg.v Y) N 0 cpu.reg.i cpu.ram cpu.vram ↔
      ∃ i j, i < N ∧ j < 8 ∧ cpu.reg.v X + j < 64 ∧ cpu.reg.v Y + i < 32 ∧
        (cpu.ram (cpu.reg.i + i) >>> (7 - j)) &&& 1 = 1 ∧
        cpu.vram (64 * (cpu.reg.v Y + i) + (cpu.reg.v X + j)) = 1 := by
    constructor
    · rintro ⟨e, d, he, hd, hr, hc, hb⟩
      simp only [Nat.zero_add] at hr hb
      have hre : row_of (cpu.reg.v Y) e = cpu.reg.v Y + e := row_on_screen _ _ hy (by omega)
      have hcd : col (cpu.reg.v X) d = cpu.reg.v X + (7 - d) := by
        have := col_on_screen (cpu.reg.v X) (7 - d) hx (by omega)
        rwa [show 7 - (7 - d) = d by omega] at this
      rw [hre] at hr
      rw [hcd] at hc
      rw [hre, hcd, cell_on_screen _ _ hr hc] at hb
      have hpix := hbin (64 * (cpu.reg.v Y + e) + (cpu.reg.v X + (7 - d))) (by omega)
      have hb2 := (bit_and_pixel _ _ hpix).1 hb
      refine ⟨e, 7 - d, he, by omega, hc, hr, ?_, hb2.2⟩
      rw [show 7 - (7 - d) = d by omega]
      exact hb2.1
    · rintro ⟨i, j, hi, hj, hc, hr, hbit, hpix⟩
      refine ⟨i, 7 - j, hi, by omega, ?_, ?_, ?_⟩
      · simp only [Nat.zero_add]
        rw [row_on_screen _ _ hy (by omega)]; exact hr
      · rw [col_on_screen _ _ hx hj]; exact hc
      · simp only [Nat.zero_add]
        rw [row_on_screen _ _ hy (by omega), col_on_screen _ _ hx hj,
          cell_on_screen _ _ hr hc]
        exact (bit_and_pixel _ _ (Or.inr hpix)).2 ⟨hbit, hpix⟩
  refine ⟨c1, h1, ⟨?_, ?_⟩, ?_⟩
  · intro hv
    by_contra hno
    have h0 := hclr (fun hcol => hno (hiff.1 hcol))
    omega
  · intro hex
    exact hset (hiff.2 hex)
  · intro hno
    exact hclr (fun hcol => hno (hiff.1 hcol))

/-- Claim C3 at a concrete input: on an all-lit framebuffer with the font in `ram`, `D015`
at the origin collides and leaves `VF = 1`. -/
theorem drw_collision_flag_witness :
    (0 < 16 ∧ 1 < 16 ∧ 5 < 16 ∧ (∀ k, k < 2048 → lit_cpu.vram k = 0 ∨ lit_cpu.vram k = 1) ∧
      lit_cpu.reg.v 0 < 64 ∧ lit_cpu.reg.v 1 < 32 ∧ lit_cpu.reg.i + 5 ≤ 4096) ∧
    ∃ c1, interpret 0 lit_cpu (opword 0xD 0 1 5) = .ok c1 ∧ c1.reg.v 15 = 1 := by
  have hbin : ∀ k, k < 2048 → lit_cpu.vram k = 0 ∨ lit_cpu.vram k = 1 :=
    fun _ _ => Or.inr rfl
  obtain ⟨c1, h1, hiff, _⟩ := drw_collision_flag 0 lit_cpu 0 1 5 (by decide) (by decide)
    (by decide) hbin (by decide) (by decide) (by decide)
  refine ⟨⟨by decide, by decide, by decide, hbin, by decide, by decide, by decide⟩,
    c1, h1, hiff.2 ⟨0, 0, by decide, by decide, by decide, by decide, by decide, rfl⟩⟩

/-- Claim C4.  Pixel placement of `DRW`: with `Vx < 64`, `Vy < 32` and `I + N ≤ 4096` the
instruction completes; for `i < N`, `j < 8` with `Vx + j < 64`, `Vy + i < 32` the cell
`vram[64 * (Vy + i) + (Vx + j)]` becomes its old value XOR `(ram[I + i] >> (7 - j)) & 1`;
`ram`, `I`, `pc`, `sp`, the stack and `V0..VE` are unchanged and `update_gui` is set. -/
theorem drw_pixel_placement (rnd : Nat) (cpu : Cpu) (X Y N : Nat)
    (hX : X < 16) (hY : Y < 16) (hN : N < 16)
    (hx : cpu.reg.v X < 64) (hy : cpu.reg.v Y < 32) (hI : cpu.reg.i + N ≤ 4096) :
    ∃ c1, interpret rnd cpu (opword 0xD X Y N) = .ok c1 ∧
      (∀ i j, i < N → j < 8 → cpu.reg.v X + j < 64 → cpu.reg.v Y + i < 32 →
        c1.vram (64 * (cpu.reg.v Y + i) + (cpu.reg.v X + j))
          = cpu.vram (64 * (cpu.reg.v Y + i) + (cpu.reg.v X + j))
              ^^^ ((cpu.ram (cpu.reg.i + i) >>> (7 - j)) &&& 1)) ∧
      c1.ram = cpu.ram ∧ c1.reg.i = cpu.reg.i ∧ c1.reg.pc = cpu.reg.pc ∧
      c1.reg.sp = cpu.reg.sp ∧ c1.stack = cpu.stack ∧
      (∀ k, k < 15 → c1.reg.v k = cpu.reg.v k) ∧ c1.update_gui = true := by
  obtain ⟨c1, h1, ⟨f, V, hs⟩, _, hhit, _⟩ := interpret_drw_spec rnd cpu X Y N hX hY hN hI
  refine ⟨c1, h1, ?_, by rw [hs], by rw [hs], by rw [hs], by rw [hs], by rw [hs], ?_,
    by rw [hs]⟩
  · intro i j hi hj hc hr
    have h2 := hhit i (7 - j) hi (by omega)
      (by rw [row_on_screen _ _ hy (by omega)]; exact hr)
      (by rw [col_on_screen _ _ hx hj]; exact hc)
    rw [row_on_screen _ _ hy (by omega), col_on_screen _ _ hx hj,
      cell_on_screen _ _ hr hc] at h2
    exact h2
  · intro k hk
    rw [hs]; simp only [set_at]; rw [if_neg (by omega)]

/-- Claim C4 at a concrete input: on a cleared framebuffer with the font in `ram`, `D015` at
the origin lights the top-left pixel (bit 7 of `0xF0`), leaves column 4 dark (bit 3),
keeps `ram` and sets `update_gui`. -/
theorem drw_pixel_placement_witness :
    (0 < 16 ∧ 1 < 16 ∧ 5 < 16 ∧ font_cpu.reg.v 0 < 64 ∧ font_cpu.reg.v 1 < 32 ∧
      font_cpu.reg.i + 5 ≤ 4096) ∧
    ∃ c1, interpret 0 font_cpu (opword 0xD 0 1 5) = .ok c1 ∧
      c1.vram 0 = 1 ∧ c1.vram 4 = 0 ∧ c1.ram = font_cpu.ram ∧ c1.update_gui = true := by
  obtain ⟨c1, h1, hpix, hram, _, _, _, _, _, hgui⟩ := drw_pixel_placement 0 font_cpu 0 1 5
    (by decide) (by decide) (by decide) (by decide) (by decide) (by decide)
  refine ⟨⟨by decide, by decide, by decide, by decide, by decide, by decide⟩,
    c1, h1, ?_, ?_, hram, hgui⟩
  · exact hpix 0 0 (by decide) (by decide) (by decide) (by decide)
  · exact hpix 0 4 (by decide) (by decide) (by decide) (by decide)

/-! ## Arithmetic (`8XYn`) -/

/-- The word `8XY4` reaches `add_reg_reg` with payload `XY4`. -/
theorem interpret_add (rnd : Nat) (cpu : Cpu) (X Y : Nat) (hX : X < 16) (hY : Y < 16) :
    interpret rnd cpu (opword 8 X Y 4) = .ok (add_reg_reg cpu ⟨0x100 * X + 0x10 * Y + 4⟩) := by
  unfold interpret
  simp only [opword_type 8 X Y 4 (by decide) hX hY (by decide),
    opword_code 8 X Y 4 hX hY (by decide), code_n X Y 4 hY (by decide)]

/-- The word `8XY5` reaches `sub_reg_reg` with payload `XY5`. -/
theorem interpret_sub (rnd : Nat) (cpu : Cpu) (X Y : Nat) (hX : X < 16) (hY : Y < 16) :
    interpret rnd cpu (opword 8 X Y 5) = .ok (sub_reg_reg cpu ⟨0x100 * X + 0x10 * Y + 5⟩) := by
  unfold interpret
  simp only [opword_type 8 X Y 5 (by decide) hX hY (by decide),
    opword_code 8 X Y 5 hX hY (by decide), code_n X Y 5 hY (by decide)]

/-- The word `8XY6` reaches `shr_reg_reg` with payload `XY6`. -/
theorem interpret_shr (rnd : Nat) (cpu : Cpu) (X Y : Nat) (hX : X < 16) (hY : Y < 16) :
    interpret rnd cpu (opword 8 X Y 6) = .ok (shr_reg_reg cpu ⟨0x100 * X + 0x10 * Y + 6⟩) := by
  unfold interpret
  simp only [opword_type 8 X Y 6 (by decide) hX hY (by decide),
    opword_code 8 X Y 6 hX hY (by decide), code_n X Y 6 hY (by decide)]

/-- Claim C5, which the code departs from.  `SUB Vx, Vy` stores the flag before it subtracts, so
with `Y = F` the subtrahend is the new flag: from `V0 = 5`, `VF = 3` the word `80F5`
leaves `V0 = 4`, `VF = 1`, where `(5 - 3) mod 256 = 2`. -/
theorem sub_reads_flag_after_store :
    (interpret 0 ((zero_cpu.set_v 0 5).set_v 15 3) (opword 8 0 15 5)).toOption.map
        (fun c => (c.reg.v 0, c.reg.v 15)) = some (4, 1) ∧
    ((zero_cpu.set_v 0 5).set_v 15 3).reg.v 0 = 5 ∧
    ((zero_cpu.set_v 0 5).set_v 15 3).reg.v 15 = 3 ∧
    to_byte (5 - 3) = 2 ∧
    ((zero_cpu.set_v 0 5).set_v 15 3).WF := by
  refine ⟨by decide, by decide, by decide, by decide,
    WF_set_v _ _ _ (WF_set_v _ _ _ zero_cpu_WF (by decide)) (by decide)⟩

/-- For `X ≠ F` and `Y ≠ F`, `SUB Vx, Vy` leaves `Vx = (a - b) mod 256` and `VF = 1` when
`a > b`, else 0, with `a`, `b` the values of `Vx`, `Vy` before the instruction. -/
theorem sub_vx_vy_without_flag_operand (rnd : Nat) (cpu : Cpu) (X Y : Nat)
    (hX : X < 15) (hY : Y < 15) :
    ∃ c1, interpret rnd cpu (opword 8 X Y 5) = .ok c1 ∧
      c1.reg.v X = to_byte ((cpu.reg.v X : Int) - (cpu.reg.v Y : Int)) ∧
      c1.reg.v 15 = (if cpu.reg.v X > cpu.reg.v Y then 1 else 0) := by
  rw [interpret_sub rnd cpu X Y (by omega) (by omega)]
  have hX15 : X ≠ 15 := by omega
  have hX15b : 15 ≠ X := by omega
  have hY15 : Y ≠ 15 := by omega
  refine ⟨_, rfl, ?_, ?_⟩
  · simp only [sub_reg_reg, code_high X Y 5 (by omega) (by omega) (by decide),
      code_vy X Y 5 (by omega) (by decide), Cpu.set_v_flag, Cpu.set_v, set_at, if_true, if_false, hX15, hX15b, hY15,
      ne_eq, not_false_eq_true]
  · simp only [sub_reg_reg, code_high X Y 5 (by omega) (by omega) (by decide),
      code_vy X Y 5 (by omega) (by decide), Cpu.set_v_flag, Cpu.set_v, set_at, if_true, if_false, hX15, hX15b, hY15,
      ne_eq, not_false_eq_true]

/-- Claim C6.  `ADD Vx, Vy` (`8XY4`) with `X ≠ F`: with `a`, `b` the values of `Vx`, `Vy`
before the instruction, afterwards `Vx = (a + b) mod 256` and `VF = 1` if `a + b > 255`,
else 0; every other V register, `I`, `pc`, `sp`, `ram` and `vram` are unchanged. -/
theorem add_vx_vy_carry (rnd : Nat) (cpu : Cpu) (X Y : Nat)
    (hX : X < 15) (hY : Y < 16) (hwf : cpu.WF) :
    ∃ c1, interpret rnd cpu (opword 8 X Y 4) = .ok c1 ∧
      c1.reg.v X = (cpu.reg.v X + cpu.reg.v Y) % 256 ∧
      c1.reg.v 15 = (if cpu.reg.v X + cpu.reg.v Y > 255 then 1 else 0) ∧
      (∀ k, k < 16 → k ≠ X → k ≠ 15 → c1.reg.v k = cpu.reg.v k) ∧
      c1.reg.i = cpu.reg.i ∧ c1.reg.pc = cpu.reg.pc ∧ c1.reg.sp = cpu.reg.sp ∧
      c1.ram = cpu.ram ∧ c1.vram = cpu.vram := by
  rw [interpret_add rnd cpu X Y (by omega) hY]
  have hX15 : X ≠ 15 := by omega
  have hX15b : 15 ≠ X := by omega
  have ha := hwf.v_lt X (by omega)
  have hb := hwf.v_lt Y hY
  have hsum : (cpu.reg.v X + cpu.reg.v Y) % 65536 = cpu.reg.v X + cpu.reg.v Y := by omega
  refine ⟨_, rfl, ?_, ?_, ?_, rfl, rfl, rfl, rfl, rfl⟩
  · simp only [add_reg_reg, code_high X Y 4 (by omega) hY (by decide),
      code_vy X Y 4 hY (by decide), Cpu.set_v_flag, Cpu.set_v, set_at, hsum, if_true, if_false, hX15, hX15b]
  · simp only [add_reg_reg, code_high X Y 4 (by omega) hY (by decide),
      code_vy X Y 4 hY (by decide), Cpu.set_v_flag, Cpu.set_v, set_at, hsum, if_true, if_false, hX15, hX15b]
  · intro k _ hkX hk15
    simp only [add_reg_reg, code_high X Y 4 (by omega) hY (by decide),
      code_vy X Y 4 hY (by decide), Cpu.set_v_flag, Cpu.set_v, set_at, if_false, hkX, hk15]

/-- Claim C6 at the input of the claim: `Vx = 0xFF`, `Vy = 0x01` gives `Vx = 0x00`, `VF = 1`. -/
theorem add_vx_vy_carry_witness :
    (0 < 15 ∧ 1 < 16 ∧ ((zero_cpu.set_v 0 0xFF).set_v 1 0x01).WF) ∧
    ∃ c1, interpret 0 ((zero_cpu.set_v 0 0xFF).set_v 1 0x01) (opword 8 0 1 4) = .ok c1 ∧
      c1.reg.v 0 = 0x00 ∧ c1.reg.v 15 = 1 := by
  have hwf : ((zero_cpu.set_v 0 0xFF).set_v 1 0x01).WF :=
    WF_set_v _ _ _ (WF_set_v _ _ _ zero_cpu_WF (by decide)) (by decide)
  obtain ⟨c1, h1, hv, hf, _⟩ := add_vx_vy_carry 0 ((zero_cpu.set_v 0 0xFF).set_v 1 0x01) 0 1
    (by decide) (by decide) hwf
  exact ⟨⟨by decide, by decide, hwf⟩, c1, h1, hv, hf⟩

/-- Claim C7, which the code departs from.  `SHR Vx, Vy` stores the flag before it shifts, so with
`Y = F` the shifted value is the new flag: from `VF = 3` the word `80F6` leaves `V0 = 0`,
`VF = 1`, where `3 >> 1 = 1`. -/
theorem shr_reads_flag_after_store :
    (interpret 0 (zero_cpu.set_v 15 3) (opword 8 0 15 6)).toOption.map
        (fun c => (c.reg.v 0, c.reg.v 15)) = some (0, 1) ∧
    (zero_cpu.set_v 15 3).reg.v 15 = 3 ∧ 3 >>> 1 = 1 ∧ 3 &&& 1 = 1 ∧
    (zero_cpu.set_v 15 3).WF := by
  refine ⟨by decide, by decide, by decide, by decide,
    WF_set_v _ _ _ zero_cpu_WF (by decide)⟩

/-- For `X ≠ F` and `Y ≠ F`, `SHR Vx, Vy` leaves `VF = b & 1` and `Vx = b >> 1`, with `b`
the value of `Vy` before the instruction. -/
theorem shr_vx_vy_without_flag_operand (rnd : Nat) (cpu : Cpu) (X Y : Nat)
    (hX : X < 15) (hY : Y < 15) :
    ∃ c1, interpret rnd cpu (opword 8 X Y 6) = .ok c1 ∧
      c1.reg.v 15 = cpu.reg.v Y &&& 1 ∧ c1.reg.v X = cpu.reg.v Y >>> 1 := by
  rw [interpret_shr rnd cpu X Y (by omega) (by omega)]
  have hX15 : X ≠ 15 := by omega
  have hX15b : 15 ≠ X := by omega
  have hY15 : Y ≠ 15 := by omega
  refine ⟨_, rfl, ?_, ?_⟩
  · simp only [shr_reg_reg, code_high X Y 6 (by omega) (by omega) (by decide),
      code_vy X Y 6 (by omega) (by decide), Cpu.set_v_flag, Cpu.set_v, set_at, if_true, if_false, hX15, hX15b, hY15,
      ne_eq, not_false_eq_true]
  · simp only [shr_reg_reg, code_high X Y 6 (by omega) (by omega) (by decide),
      code_vy X Y 6 (by omega) (by decide), Cpu.set_v_flag, Cpu.set_v, set_at, if_true, if_false, hX15, hX15b, hY15,
      ne_eq, not_false_eq_true]

/-! ## Font address, keypad and BCD (`FX29`, `EX9E`, `FX33`) -/

/-- The word `FX29` reaches `load_sprite` with payload `X29`. -/
theorem interpret_load_sprite (rnd : Nat) (cpu : Cpu) (X : Nat) (hX : X < 16) :
    interpret rnd cpu (opword 0xF X 2 9) = .ok (load_sprite cpu ⟨0x100 * X + 0x10 * 2 + 9⟩) := by
  unfold interpret
  simp only [opword_type 0xF X 2 9 (by decide) hX (by decide) (by decide),
    opword_code 0xF X 2 9 hX (by decide) (by decide), code_low X 2 9 (by decide) (by decide)]

/-- The word `FX33` reaches `store_bcd` with payload `X33`. -/
theorem interpret_store_bcd (rnd : Nat) (cpu : Cpu) (X : Nat) (hX : X < 16) :
    interpret rnd cpu (opword 0xF X 3 3) = store_bcd cpu ⟨0x100 * X + 0x10 * 3 + 3⟩ := by
  unfold interpret
  simp only [opword_type 0xF X 3 3 (by decide) hX (by decide) (by decide),
    opword_code 0xF X 3 3 hX (by decide) (by decide), code_low X 3 3 (by decide) (by decide)]

/-- The word `EX9E` reaches `skip_pressed` with payload `X9E`. -/
theorem interpret_skip_pressed (rnd : Nat) (cpu : Cpu) (X : Nat) (hX : X < 16) :
    interpret rnd cpu (opword 0xE X 9 0xE) = skip_pressed cpu ⟨0x100 * X + 0x10 * 9 + 0xE⟩ := by
  unfold interpret
  simp only [opword_type 0xE X 9 0xE (by decide) hX (by decide) (by decide),
    opword_code 0xE X 9 0xE hX (by decide) (by decide), code_low X 9 0xE (by decide) (by decide)]
  rfl

/-- Claim C8, as stated, fails: `LD F, Vx` does not mask the digit.  From `V0 = 0x1A` the word
`F029` leaves `I = 130`, where `(0x1A & 0x0F) * 5 = 50`, and `130` is past the last glyph
start `75`. -/
theorem load_sprite_mask_counterexample :
    (interpret 0 (zero_cpu.set_v 0 0x1A) (opword 0xF 0 2 9)).toOption.map
        (fun c => c.reg.i) = some 130 ∧
    (zero_cpu.set_v 0 0x1A).reg.v 0 = 0x1A ∧ (0x1A &&& 0x0F) * 5 = 50 ∧ ¬ (130 ≤ 75) ∧
    (zero_cpu.set_v 0 0x1A).WF := by
  refine ⟨by decide, by decide, by decide, by decide,
    WF_set_v _ _ _ zero_cpu_WF (by decide)⟩

/-- Claim C8, amended.  `LD F, Vx` (`FX29`) leaves `I = Vx * 5` for every value of `Vx` in
0..255, so `I ≤ 1275`; when `Vx ≤ 15` this is `(Vx & 0x0F) * 5`, the start of one of the
16 glyphs of the font table (`I ≤ 75`). -/
theorem load_sprite_unmasked (rnd : Nat) (cpu : Cpu) (X : Nat) (hX : X < 16) (hwf : cpu.WF) :
    ∃ c1, interpret rnd cpu (opword 0xF X 2 9) = .ok c1 ∧
      c1.reg.i = cpu.reg.v X * 5 ∧ c1.reg.i ≤ 1275 ∧
      (cpu.reg.v X ≤ 15 → c1.reg.i = (cpu.reg.v X &&& 0x0F) * 5 ∧ c1.reg.i ≤ 75) := by
  rw [interpret_load_sprite rnd cpu X hX]
  have hv := hwf.v_lt X hX
  have hi : (load_sprite cpu ⟨0x100 * X + 0x10 * 2 + 9⟩).reg.i = cpu.reg.v X * 5 := by
    simp only [load_sprite, code_high X 2 9 hX (by decide) (by decide), Cpu.set_i, sprint_size]
    omega
  refine ⟨_, rfl, hi, by omega, ?_⟩
  intro h15
  rw [hi, and_0f]
  omega

/-- Claim C8, amended, at the input of the claim: `Vx = 0x0A` gives `I = 50`. -/
theorem load_sprite_unmasked_witness :
    (0 < 16 ∧ (zero_cpu.set_v 0 0x0A).WF) ∧
    ∃ c1, interpret 0 (zero_cpu.set_v 0 0x0A) (opword 0xF 0 2 9) = .ok c1 ∧ c1.reg.i = 50 := by
  have hwf : (zero_cpu.set_v 0 0x0A).WF := WF_set_v _ _ _ zero_cpu_WF (by decide)
  obtain ⟨c1, h1, hi, _⟩ := load_sprite_unmasked 0 (zero_cpu.set_v 0 0x0A) 0 (by decide) hwf
  exact ⟨⟨by decide, hwf⟩, c1, h1, hi⟩

/-- Claim C9, which the code departs from.  `SKP Vx` indexes `keys` with `Vx` itself.  With key 5
pressed and `V0 = 0x15` the word `E09E` addresses `keys[21]`, outside the 16 slots, where
`keys[0x15 & 0x0F] = keys[5]` is pressed. -/
theorem skip_pressed_reads_outside_keys :
    interpret 0 (key5_cpu.set_v 0 0x15) (opword 0xE 0 9 0xE) = .error .out_of_range ∧
    (key5_cpu.set_v 0 0x15).reg.v 0 = 0x15 ∧ ¬ (0x15 < key_size) ∧
    (key5_cpu.set_v 0 0x15).keys (0x15 &&& 0x0F) = true ∧
    (key5_cpu.set_v 0 0x15).WF := by
  refine ⟨rfl, by decide, by decide, by decide,
    WF_set_v _ _ _ key5_cpu_WF (by decide)⟩

/-- For `Vx ≤ 15`, `SKP Vx` adds 2 to `pc` if `keys[Vx]` is pressed and changes nothing
otherwise. -/
theorem skip_pressed_in_range (rnd : Nat) (cpu : Cpu) (X : Nat) (hX : X < 16)
    (hv : cpu.reg.v X < 16) :
    interpret rnd cpu (opword 0xE X 9 0xE) =
      .ok (if cpu.keys (cpu.reg.v X &&& 0x0F) then cpu.set_pc ((cpu.reg.pc + 2) % 65536)
        else cpu) := by
  rw [interpret_skip_pressed rnd cpu X hX]
  have hm : cpu.reg.v X &&& 0x0F = cpu.reg.v X := by rw [and_0f]; omega
  simp only [skip_pressed, code_high X 9 0xE hX (by decide) (by decide), key_size, hv,
    if_true, hm]

/-- Claim C10.  BCD law of `LD B, Vx` (`FX33`): with `I + 2 < 4096` and `v` the value of `Vx`,
the instruction completes with `ram[I] * 100 + ram[I+1] * 10 + ram[I+2] = v`, each of
the three bytes at most 9, every other `ram` byte unchanged and the register struct
(`V0..VF`, `I`, `pc`, `sp`) unchanged. -/
theorem store_bcd_law (rnd : Nat) (cpu : Cpu) (X : Nat) (hX : X < 16) (hwf : cpu.WF)
    (hI : cpu.reg.i + 2 < 4096) :
    ∃ c1, interpret rnd cpu (opword 0xF X 3 3) = .ok c1 ∧
      c1.ram cpu.reg.i * 100 + c1.ram (cpu.reg.i + 1) * 10 + c1.ram (cpu.reg.i + 2)
        = cpu.reg.v X ∧
      c1.ram cpu.reg.i ≤ 9 ∧ c1.ram (cpu.reg.i + 1) ≤ 9 ∧ c1.ram (cpu.reg.i + 2) ≤ 9 ∧
      (∀ k, k ≠ cpu.reg.i → k ≠ cpu.reg.i + 1 → k ≠ cpu.reg.i + 2 → c1.ram k = cpu.ram k) ∧
      c1.reg = cpu.reg := by
  rw [interpret_store_bcd rnd cpu X hX]
  have hv := hwf.v_lt X hX
  unfold store_bcd
  simp only [code_high X 3 3 hX (by decide) (by decide), mem_size]
  rw [if_pos hI]
  have e02 : ¬ cpu.reg.i = cpu.reg.i + 2 := by omega
  have e01 : ¬ cpu.reg.i = cpu.reg.i + 1 := by omega
  have e12 : ¬ cpu.reg.i + 1 = cpu.reg.i + 2 := by omega
  refine ⟨_, rfl, ?_, ?_, ?_, ?_, ?_, rfl⟩
  · simp only [set_at, if_true, if_false, e02, e01, e12]
    omega
  · simp only [set_at, if_true, if_false, e02, e01, e12]
    omega
  · simp only [set_at, if_true, if_false, e02, e01, e12]
    omega
  · simp only [set_at, if_true, if_false, e02, e01, e12]
    omega
  · intro k h0 h1 h2
    simp only [set_at]
    rw [if_neg h2, if_neg h1, if_neg h0]

/-- Claim C10 at the input of the claim: `Vx = 0x7B`, `I = 0x300` stores 1, 2, 3. -/
theorem store_bcd_law_witness :
    (0 < 16 ∧ ((zero_cpu.set_v 0 0x7B).set_i 0x300).WF ∧
      ((zero_cpu.set_v 0 0x7B).set_i 0x300).reg.i + 2 < 4096) ∧
    ∃ c1, interpret 0 ((zero_cpu.set_v 0 0x7B).set_i 0x300) (opword 0xF 0 3 3) = .ok c1 ∧
      c1.ram 0x300 * 100 + c1.ram 0x301 * 10 + c1.ram 0x302 = 0x7B ∧
      [c1.ram 0x300, c1.ram 0x301, c1.ram 0x302] = [1, 2, 3] := by
  have hwf : ((zero_cpu.set_v 0 0x7B).set_i 0x300).WF :=
    { WF_set_v _ _ _ zero_cpu_WF (by decide : 0x7B < 256) with i_lt := by decide }
  obtain ⟨c1, h1, hsum, _⟩ := store_bcd_law 0 ((zero_cpu.set_v 0 0x7B).set_i 0x300) 0
    (by decide) hwf (by decide)
  have e1 : interpret 0 ((zero_cpu.set_v 0 0x7B).set_i 0x300) (opword 0xF 0 3 3) = .ok
      ((interpret 0 ((zero_cpu.set_v 0 0x7B).set_i 0x300) (opword 0xF 0 3 3)).toOption.getD
        zero_cpu) := rfl
  have hc1 := Except.ok.inj (h1.symm.trans e1)
  subst hc1
  exact ⟨⟨by decide, hwf, by decide⟩, _, h1, hsum, by decide⟩

/-! ## Register block transfer (`FX55`, `FX65`) -/

/-- The word `FX55` reaches `store_regs` with payload `X55`. -/
theorem interpret_store_regs (rnd : Nat) (cpu : Cpu) (X : Nat) (hX : X < 16) :
    interpret rnd cpu (opword 0xF X 5 5) = store_regs cpu ⟨0x100 * X + 0x10 * 5 + 5⟩ := by
  unfold interpret
  simp only [opword_type 0xF X 5 5 (by decide) hX (by decide) (by decide),
    opword_code 0xF X 5 5 hX (by decide) (by decide), code_low X 5 5 (by decide) (by decide)]

/-- The word `FX65` reaches `load_regs` with payload `X65`. -/
theorem interpret_load_regs (rnd : Nat) (cpu : Cpu) (X : Nat) (hX : X < 16) :
    interpret rnd cpu (opword 0xF X 6 5) = load_regs cpu ⟨0x100 * X + 0x10 * 6 + 5⟩ := by
  unfold interpret
  simp only [opword_type 0xF X 6 5 (by decide) hX (by decide) (by decide),
    opword_code 0xF X 6 5 hX (by decide) (by decide), code_low X 6 5 (by decide) (by decide)]

/-- The loop of `load_regs` inside `ram`: it completes, advances `I` by the number of
registers, keeps `ram` and the registers below `i`, and loads `v[j] = ram[I + (j - i)]`. -/
theorem load_regs_loop_spec : ∀ (todo i : Nat) (cpu : Cpu), cpu.reg.i + todo ≤ 4096 →
    ∃ c, load_regs_loop todo i cpu = .ok c ∧ c.reg.i = cpu.reg.i + todo ∧ c.ram = cpu.ram ∧
      (∀ j, j < i → c.reg.v j = cpu.reg.v j) ∧
      (∀ j, i ≤ j → j < i + todo → c.reg.v j = cpu.ram (cpu.reg.i + (j - i))) := by
  intro todo
  induction todo with
  | zero =>
    intro i cpu _
    exact ⟨cpu, rfl, rfl, rfl, fun _ _ => rfl, fun j h1 h2 => by omega⟩
  | succ todo ih =>
    intro i cpu hI
    rw [load_regs_loop, if_pos (by simp only [mem_size]; omega)]
    obtain ⟨c, hc, hci, hcr, hlow, hv⟩ := ih (i + 1)
      { cpu with reg := { cpu.reg with
          v := set_at cpu.reg.v i (cpu.ram cpu.reg.i), i := (cpu.reg.i + 1) % 65536 } }
      (by simp only; omega)
    simp only at hci hcr hlow hv
    have hmod : (cpu.reg.i + 1) % 65536 = cpu.reg.i + 1 := by omega
    rw [hmod] at hci hv
    refine ⟨c, hc, by omega, hcr, ?_, ?_⟩
    · intro j hj
      rw [hlow j (by omega)]
      simp only [set_at]; rw [if_neg (by omega)]
    · intro j h1 h2
      by_cases hji : j = i
      · subst hji
        rw [hlow j (by omega)]
        simp only [set_at, if_true, Nat.sub_self, Nat.add_zero]
      · rw [hv j (by omega) (by omega)]
        congr 1
        omega

/-- The loop of `store_regs` inside `ram`: it completes, advances `I` by the number of
registers, keeps the registers, and stores `ram[a] = v[i + (a - I)]` for `a` in
`[I, I + todo)`. -/
theorem store_regs_loop_spec : ∀ (todo i : Nat) (cpu : Cpu), cpu.reg.i + todo ≤ 4096 →
    ∃ c, store_regs_loop todo i cpu = .ok c ∧ c.reg.i = cpu.reg.i + todo ∧
      c.reg.v = cpu.reg.v ∧
      (∀ a, c.ram a = if cpu.reg.i ≤ a ∧ a < cpu.reg.i + todo
        then cpu.reg.v (i + (a - cpu.reg.i)) else cpu.ram a) := by
  intro todo
  induction todo with
  | zero =>
    intro i cpu _
    refine ⟨cpu, rfl, rfl, rfl, ?_⟩
    intro a
    rw [if_neg (by omega)]
  | succ todo ih =>
    intro i cpu hI
    rw [store_regs_loop, if_pos (by simp only [mem_size]; omega)]
    obtain ⟨c, hc, hci, hcv, hram⟩ := ih (i + 1)
      { cpu with
        ram := set_at cpu.ram cpu.reg.i (cpu.reg.v i),
        reg := { cpu.reg with i := (cpu.reg.i + 1) % 65536 } }
      (by simp only; omega)
    simp only at hci hcv hram
    have hmod : (cpu.reg.i + 1) % 65536 = cpu.reg.i + 1 := by omega
    rw [hmod] at hci hram
    refine ⟨c, hc, by omega, hcv, ?_⟩
    intro a
    rw [hram a]
    by_cases h1 : cpu.reg.i + 1 ≤ a ∧ a < cpu.reg.i + 1 + todo
    · rw [if_pos h1, if_pos (by omega)]
      congr 1
      omega
    · rw [if_neg h1]
      by_cases h2 : a = cpu.reg.i
      · subst h2
        rw [if_pos (by omega)]
        simp only [set_at, if_true, Nat.sub_self, Nat.add_zero]
      · rw [if_neg (by omega)]
        simp only [set_at]; rw [if_neg h2]

/-- Claim C11.  Register load/store round trip: for `1 ≤ k ≤ 16` and `A + k ≤ 4096`,
setting `I = A`, executing `FX65` with `X = k - 1`, setting `I = A` again and executing
`FX55` with `X = k - 1` completes, leaves every `ram` cell as it was, and each of the two
instructions leaves `I = A + k`. -/
theorem regs_load_store_round_trip (rnd1 rnd2 : Nat) (cpu : Cpu) (k A : Nat)
    (hk1 : 1 ≤ k) (hk : k ≤ 16) (hA : A + k ≤ 4096) :
    ∃ c1 c2, interpret rnd1 (cpu.set_i A) (opword 0xF (k - 1) 6 5) = .ok c1 ∧
      c1.reg.i = A + k ∧
      interpret rnd2 (c1.set_i A) (opword 0xF (k - 1) 5 5) = .ok c2 ∧
      c2.reg.i = A + k ∧
      ∀ a, c2.ram a = cpu.ram a := by
  have hX : k - 1 < 16 := by omega
  rw [interpret_load_regs rnd1 _ (k - 1) hX]
  unfold load_regs
  simp only [code_high (k - 1) 6 5 hX (by decide) (by decide)]
  rw [if_pos (by omega), show k - 1 + 1 = k by omega]
  obtain ⟨c1, h1, hi1, hram1, _, hv1⟩ := load_regs_loop_spec k 0 (cpu.set_i A)
    (by simpa [Cpu.set_i] using hA)
  simp only [Cpu.set_i] at hi1 hram1 hv1
  have hstore : interpret rnd2 (c1.set_i A) (opword 0xF (k - 1) 5 5)
      = store_regs_loop k 0 (c1.set_i A) := by
    rw [interpret_store_regs rnd2 _ (k - 1) hX]
    unfold store_regs
    simp only [code_high (k - 1) 5 5 hX (by decide) (by decide)]
    rw [if_pos (by omega), show k - 1 + 1 = k by omega]
  obtain ⟨c2, h2, hi2, _, hram2⟩ := store_regs_loop_spec k 0 (c1.set_i A)
    (by simpa [Cpu.set_i] using hA)
  simp only [Cpu.set_i] at hi2 hram2
  refine ⟨c1, c2, h1, hi1, hstore.trans h2, hi2, ?_⟩
  intro a
  rw [hram2 a]
  split
  · rename_i ha
    rw [hv1 (0 + (a - A)) (by omega) (by omega)]
    congr 1
    omega
  · rw [hram1]

/-- Claim C11 at a concrete input: with the font in `ram`, `A = 0` and `k = 5`, `F465`
loads the glyph of `0` into `V0..V4` and leaves `I = 5`; `F455` from `I = 0` stores it
back and leaves `I = 5`. -/
theorem regs_load_store_round_trip_witness :
    (1 ≤ 5 ∧ 5 ≤ 16 ∧ 0 + 5 ≤ 4096) ∧
    ∃ c1 c2, interpret 0 (font_cpu.set_i 0) (opword 0xF (5 - 1) 6 5) = .ok c1 ∧
      c1.reg.i = 0 + 5 ∧
      interpret 0 (c1.set_i 0) (opword 0xF (5 - 1) 5 5) = .ok c2 ∧
      c2.reg.i = 0 + 5 ∧
      ∀ a, c2.ram a = font_cpu.ram a :=
  ⟨by decide, regs_load_store_round_trip 0 0 font_cpu 5 0 (by decide) (by decide) (by decide)⟩

/-! ## Decoding -/

/-- The type nibble as `interpret` computes it. -/
theorem type_norm (w : Nat) : ((w &&& 0xf000) >>> 12) % 256 = w / 4096 % 16 := by
  rw [and_f000_shift]; omega

/-- The low byte of the payload of `w`. -/
theorem low_norm (w : Nat) : Opcode.low ⟨w &&& 0x0fff⟩ = w % 256 := by
  unfold Opcode.low; simp only; rw [and_fff]; omega

/-- The last nibble of the low byte of `w`. -/
theorem low_nibble_norm (w : Nat) : (w % 256) &&& 0x0f = w % 16 := by
  rw [and_0f]; omega

/-- The register nibble `X` of the payload of `w`. -/
theorem high_lt (w : Nat) : Opcode.high ⟨w &&& 0x0fff⟩ < 16 := by
  unfold Opcode.high; simp only; rw [and_fff]; omega

/-- Every word is decoded by one branch of `interpret`. -/
theorem interpret_decoded (rnd : Nat) (cpu : Cpu) (w : Nat) :
    Decoded rnd cpu w (interpret rnd cpu w) := by
  unfold interpret
  simp only [type_norm, low_norm, low_nibble_norm]
  split
  · split
    · exact .cls ‹_› ‹_›
    · split
      · exact .ret ‹_› ‹_› ‹_›
      · exact .ignored ‹_› ‹_› ‹_›
  · exact .jump ‹_›
  · exact .call ‹_›
  · exact .skip_eq ‹_›
  · exact .skip_not_eq ‹_›
  · split
    · exact .invalid_5 ‹_› ‹_›
    · exact .skip_eq_reg ‹_› (by omega)
  · exact .load_reg_value ‹_›
  · exact .add_reg_value ‹_›
  · split
    · exact .load_reg_reg ‹_› ‹_›
    · exact .or_reg_reg ‹_› ‹_›
    · exact .and_reg_reg ‹_› ‹_›
    · exact .xor_reg_reg ‹_› ‹_›
    · exact .add_reg_reg ‹_› ‹_›
    · exact .sub_reg_reg ‹_› ‹_›
    · exact .shr_reg_reg ‹_› ‹_›
    · exact .subn_reg_reg ‹_› ‹_›
    · exact .shl_reg_reg ‹_› ‹_›
    · rename_i n0 n1 n2 n3 n4 n5 n6 n7 n14
      have e0 : w % 16 ≠ 0 := n0
      have e1 : w % 16 ≠ 1 := n1
      have e2 : w % 16 ≠ 2 := n2
      have e3 : w % 16 ≠ 3 := n3
      have e4 : w % 16 ≠ 4 := n4
      have e5 : w % 16 ≠ 5 := n5
      have e6 : w % 16 ≠ 6 := n6
      have e7 : w % 16 ≠ 7 := n7
      exact .invalid_8 ‹_› (by omega) n14
  · exact .skip_not_eq_reg ‹_›
  · exact .load_i_addr ‹_›
  · exact .jump_relative ‹_›
  · exact .rand_mask ‹_›
  · exact .draw_sprite ‹_›
  · split
    · exact .skip_pressed ‹_› ‹_›
    · split
      · exact .skip_not_pressed ‹_› ‹_›
      · exact .invalid_E ‹_› ‹_› ‹_›
  · split
    · exact .load_reg_delay ‹_› ‹_›
    · exact .load_wait_key ‹_› ‹_›
    · exact .load_delay_reg ‹_› ‹_›
    · exact .load_sound_reg ‹_› ‹_›
    · exact .add_i_reg ‹_› ‹_›
    · exact .load_sprite ‹_› ‹_›
    · exact .store_bcd ‹_› ‹_›
    · exact .store_regs ‹_› ‹_›
    · exact .load_regs ‹_› ‹_›
    · rename_i n0 n1 n2 n3 n4 n5 n6 n7 n8
      exact .invalid_F ‹_› n0 n1 n2 n3 n4 n5 n6 n7 n8
  · rename_i n0 n1 n2 n3 n4 n5 n6 n7 n8 n9 n10 n11 n12 n13 n14 n15
    have e0 : w / 4096 % 16 ≠ 0 := n0
    have e1 : w / 4096 % 16 ≠ 1 := n1
    have e2 : w / 4096 % 16 ≠ 2 := n2
    have e3 : w / 4096 % 16 ≠ 3 := n3
    have e4 : w / 4096 % 16 ≠ 4 := n4
    have e5 : w / 4096 % 16 ≠ 5 := n5
    have e6 : w / 4096 % 16 ≠ 6 := n6
    have e7 : w / 4096 % 16 ≠ 7 := n7
    have e8 : w / 4096 % 16 ≠ 8 := n8
    have e9 : w / 4096 % 16 ≠ 9 := n9
    have e10 : w / 4096 % 16 ≠ 10 := n10
    have e11 : w / 4096 % 16 ≠ 11 := n11
    have e12 : w / 4096 % 16 ≠ 12 := n12
    have e13 : w / 4096 % 16 ≠ 13 := n13
    have e14 : w / 4096 % 16 ≠ 14 := n14
    have e15 : w / 4096 % 16 ≠ 15 := n15
    omega

/-! ## Invalid opcodes -/

/-- The operations that can stop on an access outside an array never raise the
invalid-opcode error. -/
theorem ret_not_invalid (cpu c : Cpu) : ret cpu ≠ .error (.invalid_opcode c) := by
  unfold ret; simp only; split <;> intro h <;> cases h

theorem call_not_invalid (cpu c : Cpu) (code : Opcode) :
    call cpu code ≠ .error (.invalid_opcode c) := by
  unfold call; split <;> intro h <;> cases h

theorem draw_rows_not_invalid (x y : Nat) (c : Cpu) : ∀ (todo i : Nat) (cpu : Cpu),
    draw_rows x y todo i cpu ≠ .error (.invalid_opcode c) := by
  intro todo
  induction todo with
  | zero => intro i cpu h; rw [draw_rows] at h; cases h
  | succ todo ih =>
    intro i cpu
    rw [draw_rows_succ]
    split
    · split
      · exact ih _ _
      · exact ih _ _
    · intro h; cases h

theorem draw_sprite_not_invalid (cpu c : Cpu) (code : Opcode) :
    draw_sprite cpu code ≠ .error (.invalid_opcode c) := by
  unfold draw_sprite
  simp only
  split
  · intro h; cases h
  · rename_i e he
    intro h
    cases h
    exact draw_rows_not_invalid _ _ c _ _ _ he

theorem skip_pressed_not_invalid (cpu c : Cpu) (code : Opcode) :
    skip_pressed cpu code ≠ .error (.invalid_opcode c) := by
  unfold skip_pressed; simp only; split <;> intro h <;> cases h

theorem skip_not_pressed_not_invalid (cpu c : Cpu) (code : Opcode) :
    skip_not_pressed cpu code ≠ .error (.invalid_opcode c) := by
  unfold skip_not_pressed; simp only; split <;> intro h <;> cases h

theorem store_bcd_not_invalid (cpu c : Cpu) (code : Opcode) :
    store_bcd cpu code ≠ .error (.invalid_opcode c) := by
  unfold store_bcd; simp only; split <;> intro h <;> cases h

theorem store_regs_loop_not_invalid (c : Cpu) : ∀ (todo i : Nat) (cpu : Cpu),
    store_regs_loop todo i cpu ≠ .error (.invalid_opcode c) := by
  intro todo
  induction todo with
  | zero => intro i cpu h; rw [store_regs_loop] at h; cases h
  | succ todo ih =>
    intro i cpu
    rw [store_regs_loop]
    split
    · exact ih _ _
    · intro h; cases h

theorem store_regs_not_invalid (cpu c : Cpu) (code : Opcode) :
    store_regs cpu code ≠ .error (.invalid_opcode c) := by
  unfold store_regs; simp only
  split
  · exact store_regs_loop_not_invalid c _ _ _
  · intro h; cases h

theorem load_regs_loop_not_invalid (c : Cpu) : ∀ (todo i : Nat) (cpu : Cpu),
    load_regs_loop todo i cpu ≠ .error (.invalid_opcode c) := by
  intro todo
  induction todo with
  | zero => intro i cpu h; rw [load_regs_loop] at h; cases h
  | succ todo ih =>
    intro i cpu
    rw [load_regs_loop]
    split
    · exact ih _ _
    · intro h; cases h

theorem load_regs_not_invalid (cpu c : Cpu) (code : Opcode) :
    load_regs cpu code ≠ .error (.invalid_opcode c) := by
  unfold load_regs; simp only
  split
  · exact load_regs_loop_not_invalid c _ _ _
  · intro h; cases h

/-- Claim C12.  Invalid-opcode faults are raised exactly for the undefined patterns: for
every 16-bit word `w` and every state, `interpret` fails with the invalid-opcode error if
and only if `w` is `5XYn` with `n ≠ 0`, `8XYn` with `n` not in `{0..7, E}`, `EXkk` with
`kk` not in `{9E, A1}` or `FXkk` with `kk` not in `{07, 0A, 15, 18, 1E, 29, 33, 55, 65}`;
no word `0NNN` or `9XYn` raises it; and the state at the throw is the state before the
call. -/
theorem invalid_opcode_iff_undefined (rnd : Nat) (cpu : Cpu) (w : Nat) (hw : w < 65536) :
    ((∃ c, interpret rnd cpu w = .error (.invalid_opcode c)) ↔ undefined_pattern w) ∧
    (w / 4096 = 0x0 ∨ w / 4096 = 0x9 → ∀ c, interpret rnd cpu w ≠ .error (.invalid_opcode c)) ∧
    (∀ c, interpret rnd cpu w = .error (.invalid_opcode c) → c = cpu) := by
  have ht : w / 4096 % 16 = w / 4096 := by omega
  have key : ((∃ c, interpret rnd cpu w = .error (.invalid_opcode c)) ↔ undefined_pattern w) ∧
      (∀ c, interpret rnd cpu w = .error (.invalid_opcode c) → c = cpu) := by
    have h := interpret_decoded rnd cpu w
    generalize interpret rnd cpu w = r at h
    unfold undefined_pattern
    cases h <;> refine ⟨⟨?_, ?_⟩, ?_⟩
    all_goals first
      | (rintro ⟨c, hc⟩; cases hc; omega)
      | (rintro ⟨c, hc⟩; cases hc)
      | (rintro ⟨c, hc⟩
         first
          | exact absurd hc (ret_not_invalid _ _)
          | exact absurd hc (call_not_invalid _ _ _)
          | exact absurd hc (draw_sprite_not_invalid _ _ _)
          | exact absurd hc (skip_pressed_not_invalid _ _ _)
          | exact absurd hc (skip_not_pressed_not_invalid _ _ _)
          | exact absurd hc (store_bcd_not_invalid _ _ _)
          | exact absurd hc (store_regs_not_invalid _ _ _)
          | exact absurd hc (load_regs_not_invalid _ _ _))
      | (intro hp; exact ⟨cpu, rfl⟩)
      | (intro hp; exfalso; omega)
      | (intro c hc; cases hc; rfl)
      | (intro c hc; cases hc)
      | (intro c hc
         first
          | exact absurd hc (ret_not_invalid _ _)
          | exact absurd hc (call_not_invalid _ _ _)
          | exact absurd hc (draw_sprite_not_invalid _ _ _)
          | exact absurd hc (skip_pressed_not_invalid _ _ _)
          | exact absurd hc (skip_not_pressed_not_invalid _ _ _)
          | exact absurd hc (store_bcd_not_invalid _ _ _)
          | exact absurd hc (store_regs_not_invalid _ _ _)
          | exact absurd hc (load_regs_not_invalid _ _ _))
  refine ⟨key.1, ?_, key.2⟩
  intro h09 c hc
  have hp := key.1.1 ⟨c, hc⟩
  unfold undefined_pattern at hp
  omega

/-- Claim C12 at a concrete input: the word `5001` (`5XYn` with `n = 1`) is undefined
and raises the invalid-opcode error. -/
theorem invalid_opcode_iff_undefined_witness :
    0x5001 < 65536 ∧ undefined_pattern 0x5001 ∧
    ∃ c, interpret 0 zero_cpu 0x5001 = .error (.invalid_opcode c) :=
  ⟨by decide, Or.inl ⟨by decide, by decide⟩,
    (invalid_opcode_iff_undefined 0 zero_cpu 0x5001 (by decide)).1.2
      (Or.inl ⟨by decide, by decide⟩)⟩

/-! ## Invariants of the operations -/

theorem Ready.settled {cpu : Cpu} (h : Ready cpu) : Settled cpu :=
  ⟨h.1, by have := h.2.2; omega⟩

theorem to_byte_lt (z : Int) : to_byte z < 256 := by
  unfold to_byte; omega

theorem vy_lt (code : Opcode) : (code.low &&& 0xf0) >>> 4 < 16 := by
  rw [and_f0_shift]; omega

theorem low_lt (code : Opcode) : code.low < 256 := by
  unfold Opcode.low; omega

theorem shiftRight_one_lt (a : Nat) (h : a < 256) : a >>> 1 < 256 := by
  rw [Nat.shiftRight_eq_div_pow]; omega

/-- A byte stored in a register keeps a state `Ready`. -/
theorem Ready.set_v {cpu : Cpu} (h : Ready cpu) (k x : Nat) (hx : x < 256) :
    Ready (cpu.set_v k x) := by
  refine ⟨{ h.1 with v_lt := ?_ }, h.2⟩
  intro j hj
  simp only [Cpu.set_v, set_at]
  split
  · exact hx
  · exact h.1.v_lt j hj

/-- A store to `I` keeps a state `Ready`. -/
theorem Ready.set_i {cpu : Cpu} (h : Ready cpu) (x : Nat) : Ready (cpu.set_i x) :=
  ⟨{ h.1 with }, h.2⟩

/-- A store to `pc` of an address up to `0x10FE` leaves a `Ready` state `Settled`. -/
theorem Ready.set_pc {cpu : Cpu} (h : Ready cpu) (x : Nat) (hx : x ≤ 0x10FE) :
    Settled (cpu.set_pc x) :=
  ⟨{ h.1 with }, hx⟩

theorem cls_settled {cpu : Cpu} (h : Ready cpu) : Settled (cls cpu) := by
  refine ⟨{ h.1 with vram_bin := ?_ }, by have := h.2.2; exact (h.settled).2⟩
  intro k hk
  simp only [cls]
  split
  · omega
  · exact h.1.vram_bin k hk

theorem ret_settled {cpu c : Cpu} (h : Ready cpu) (hc : ret cpu = .ok c) : Settled c := by
  unfold ret at hc
  simp only at hc
  split at hc
  · rename_i hsp
    cases hc
    refine ⟨{ h.1 with sp_le := ?_ }, ?_⟩
    · simp only [stack_size] at hsp ⊢; omega
    · have := h.1.stack_le _ (by simpa using hsp)
      simp only; omega
  · cases hc

theorem jump_settled {cpu : Cpu} (h : Ready cpu) (code : Opcode) (hw : code.word < 4096) :
    Settled (jump cpu code) :=
  h.set_pc _ (by omega)

theorem call_settled {cpu c : Cpu} (h : Ready cpu) (code : Opcode) (hw : code.word < 4096)
    (hc : call cpu code = .ok c) : Settled c := by
  unfold call at hc
  split at hc
  · rename_i hsp
    simp only [stack_size] at hsp
    cases hc
    refine ⟨{ h.1 with sp_le := ?_, stack_le := ?_ }, ?_⟩
    · intro k hk
      simp only [set_at]
      split
      · exact h.2.2
      · exact h.1.stack_le k hk
    · simp only; omega
    · simp only; omega
  · cases hc

theorem skip_eq_settled {cpu : Cpu} (h : Ready cpu) (code : Opcode) :
    Settled (skip_eq cpu code) := by
  unfold skip_eq; simp only
  split
  · exact h.set_pc _ (by have := h.2.2; omega)
  · exact h.settled

theorem skip_not_eq_settled {cpu : Cpu} (h : Ready cpu) (code : Opcode) :
    Settled (skip_not_eq cpu code) := by
  unfold skip_not_eq; simp only
  split
  · exact h.set_pc _ (by have := h.2.2; omega)
  · exact h.settled

theorem skip_eq_reg_settled {cpu : Cpu} (h : Ready cpu) (code : Opcode) :
    Settled (skip_eq_reg cpu code) := by
  unfold skip_eq_reg; simp only
  split
  · exact h.set_pc _ (by have := h.2.2; omega)
  · exact h.settled

theorem skip_not_eq_reg_settled {cpu : Cpu} (h : Ready cpu) (code : Opcode) :
    Settled (skip_not_eq_reg cpu code) := by
  unfold skip_not_eq_reg; simp only
  split
  · exact h.set_pc _ (by have := h.2.2; omega)
  · exact h.settled

theorem load_reg_value_ready {cpu : Cpu} (h : Ready cpu) (code : Opcode) :
    Ready (load_reg_value cpu code) :=
  h.set_v _ _ (low_lt code)

theorem add_reg_value_ready {cpu : Cpu} (h : Ready cpu) (code : Opcode) :
    Ready (add_reg_value cpu code) :=
  h.set_v _ _ (Nat.mod_lt _ (by decide))

theorem load_reg_reg_ready {cpu : Cpu} (h : Ready cpu) (code : Opcode) :
    Ready (load_reg_reg cpu code) :=
  h.set_v _ _ (h.1.v_lt _ (vy_lt code))

theorem or_reg_reg_ready {cpu : Cpu} (h : Ready cpu) (code : Opcode) (hx : code.high < 16) :
    Ready (or_reg_reg cpu code) :=
  h.set_v _ _ (Nat.or_lt_two_pow (n := 8) (h.1.v_lt _ hx) (h.1.v_lt _ (vy_lt code)))

theorem and_reg_reg_ready {cpu : Cpu} (h : Ready cpu) (code : Opcode) :
    Ready (and_reg_reg cpu code) :=
  h.set_v _ _ (Nat.and_lt_two_pow (n := 8) _ (h.1.v_lt _ (vy_lt code)))

theorem xor_reg_reg_ready {cpu : Cpu} (h : Ready cpu) (code : Opcode) (hx : code.high < 16) :
    Ready (xor_reg_reg cpu code) :=
  h.set_v _ _ (Nat.xor_lt_two_pow (n := 8) (h.1.v_lt _ hx) (h.1.v_lt _ (vy_lt code)))

theorem add_reg_reg_ready {cpu : Cpu} (h : Ready cpu) (code : Opcode) :
    Ready (add_reg_reg cpu code) :=
  (h.set_v 15 _ (by split <;> decide)).set_v _ _ (Nat.mod_lt _ (by decide))

theorem sub_reg_reg_ready {cpu : Cpu} (h : Ready cpu) (code : Opcode) :
    Ready (sub_reg_reg cpu code) :=
  (h.set_v 15 _ (by split <;> decide)).set_v _ _ (to_byte_lt _)

theorem shr_reg_reg_ready {cpu : Cpu} (h : Ready cpu) (code : Opcode) :
    Ready (shr_reg_reg cpu code) := by
  have h1 : Ready (cpu.set_v_flag (cpu.reg.v ((code.low &&& 0xf0) >>> 4) &&& 0x01)) :=
    h.set_v 15 _ (Nat.and_lt_two_pow (n := 8) _ (by decide))
  exact h1.set_v _ _ (shiftRight_one_lt _ (h1.1.v_lt _ (vy_lt code)))

theorem subn_reg_reg_ready {cpu : Cpu} (h : Ready cpu) (code : Opcode) :
    Ready (subn_reg_reg cpu code) :=
  (h.set_v 15 _ (by split <;> decide)).set_v _ _ (to_byte_lt _)

theorem shl_reg_reg_ready {cpu : Cpu} (h : Ready cpu) (code : Opcode) :
    Ready (shl_reg_reg cpu code) :=
  (h.set_v 15 _ (by split <;> decide)).set_v _ _ (Nat.mod_lt _ (by decide))

theorem load_i_addr_ready {cpu : Cpu} (h : Ready cpu) (code : Opcode) :
    Ready (load_i_addr cpu code) :=
  h.set_i _

theorem jump_relative_settled {cpu : Cpu} (h : Ready cpu) (code : Opcode)
    (hw : code.word < 4096) : Settled (jump_relative cpu code) :=
  h.set_pc _ (by have := h.1.v_lt 0 (by decide); omega)

theorem rand_mask_ready {cpu : Cpu} (h : Ready cpu) (rnd : Nat) (code : Opcode) :
    Ready (rand_mask rnd cpu code) :=
  h.set_v _ _ (Nat.and_lt_two_pow (n := 8) _ (low_lt code))

theorem skip_pressed_settled {cpu c : Cpu} (h : Ready cpu) (code : Opcode)
    (hc : skip_pressed cpu code = .ok c) : Settled c := by
  unfold skip_pressed at hc
  simp only at hc
  split at hc
  · cases hc
    split
    · exact h.set_pc _ (by have := h.2.2; omega)
    · exact h.settled
  · cases hc

theorem skip_not_pressed_settled {cpu c : Cpu} (h : Ready cpu) (code : Opcode)
    (hc : skip_not_pressed cpu code = .ok c) : Settled c := by
  unfold skip_not_pressed at hc
  simp only at hc
  split at hc
  · cases hc
    split
    · exact h.set_pc _ (by have := h.2.2; omega)
    · exact h.settled
  · cases hc

theorem load_reg_delay_ready {cpu : Cpu} (h : Ready cpu) (code : Opcode) :
    Ready (load_reg_delay cpu code) :=
  h.set_v _ _ h.1.delay_lt

theorem load_wait_key_settled {cpu : Cpu} (h : Ready cpu) (code : Opcode) :
    Settled (load_wait_key cpu code) := by
  unfold load_wait_key
  simp only
  split
  · rename_i i hi
    have hmem := List.mem_of_find?_eq_some hi
    rw [List.mem_range] at hmem
    simp only [key_size] at hmem
    exact (h.set_v _ i (by omega)).settled
  · refine h.set_pc _ ?_
    have h2 := h.2.1
    have h3 := h.2.2
    unfold to_word
    omega

theorem load_delay_reg_ready {cpu : Cpu} (h : Ready cpu) (code : Opcode)
    (hx : code.high < 16) : Ready (load_delay_reg cpu code) :=
  ⟨{ h.1 with delay_lt := h.1.v_lt _ hx }, h.2⟩

theorem load_sound_reg_ready {cpu : Cpu} (h : Ready cpu) (code : Opcode) :
    Ready (load_sound_reg cpu code) :=
  ⟨{ h.1 with }, h.2⟩

theorem add_i_reg_ready {cpu : Cpu} (h : Ready cpu) (code : Opcode) :
    Ready (add_i_reg cpu code) :=
  h.set_i _

theorem load_sprite_ready {cpu : Cpu} (h : Ready cpu) (code : Opcode) :
    Ready (load_sprite cpu code) :=
  h.set_i _

/-- A byte stored in `ram` keeps a state `Ready`. -/
theorem Ready.set_ram {cpu : Cpu} (h : Ready cpu) (a x : Nat) (hx : x < 256) :
    Ready { cpu with ram := set_at cpu.ram a x } := by
  refine ⟨{ h.1 with ram_lt := ?_ }, h.2⟩
  intro k hk
  simp only [set_at]
  split
  · exact hx
  · exact h.1.ram_lt k hk

theorem store_bcd_ready {cpu c : Cpu} (h : Ready cpu) (code : Opcode) (hx : code.high < 16)
    (hc : store_bcd cpu code = .ok c) : Ready c := by
  unfold store_bcd at hc
  simp only at hc
  split at hc
  · cases hc
    have hv := h.1.v_lt _ hx
    exact ((h.set_ram _ _ (by omega : cpu.reg.v code.high / 100 < 256)).set_ram _ _
      (by omega : cpu.reg.v code.high % 100 / 10 < 256)).set_ram _ _
      (by omega : cpu.reg.v code.high % 10 < 256)
  · cases hc

theorem store_regs_loop_ready : ∀ (todo i : Nat) (cpu c : Cpu), Ready cpu → i + todo ≤ 16 →
    store_regs_loop todo i cpu = .ok c → Ready c := by
  intro todo
  induction todo with
  | zero =>
    intro i cpu c h _ hc
    rw [store_regs_loop] at hc
    cases hc
    exact h
  | succ todo ih =>
    intro i cpu c h hi hc
    rw [store_regs_loop] at hc
    split at hc
    · refine ih (i + 1) _ c ?_ (by omega) hc
      exact (h.set_ram _ _ (h.1.v_lt i (by omega))).set_i _
    · cases hc

theorem store_regs_ready {cpu c : Cpu} (h : Ready cpu) (code : Opcode) (hx : code.high < 16)
    (hc : store_regs cpu code = .ok c) : Ready c := by
  unfold store_regs at hc
  simp only at hc
  split at hc
  · exact store_regs_loop_ready _ 0 cpu c h (by omega) hc
  · cases hc

theorem load_regs_loop_ready : ∀ (todo i : Nat) (cpu c : Cpu), Ready cpu →
    load_regs_loop todo i cpu = .ok c → Ready c := by
  intro todo
  induction todo with
  | zero =>
    intro i cpu c h hc
    rw [load_regs_loop] at hc
    cases hc
    exact h
  | succ todo ih =>
    intro i cpu c h hc
    rw [load_regs_loop] at hc
    split at hc
    · rename_i hI
      refine ih (i + 1) _ c ?_ hc
      exact (h.set_v i _ (h.1.ram_lt _ (by simpa using hI))).set_i _
    · cases hc

theorem load_regs_ready {cpu c : Cpu} (h : Ready cpu) (code : Opcode)
    (hc : load_regs cpu code = .ok c) : Ready c := by
  unfold load_regs at hc
  simp only at hc
  split at hc
  · exact load_regs_loop_ready _ 0 cpu c h hc
  · cases hc

/-- The inner loop of `draw_sprite` on a row of the screen keeps every pixel 0 or 1. -/
theorem draw_row_bin (x yc : Nat) (hyc : yc < 32) : ∀ (todo j data : Nat) (cpu : Cpu),
    (∀ k, k < 2048 → cpu.vram k ≤ 1) →
    ∀ k, k < 2048 → (draw_row x yc todo j data cpu).vram k ≤ 1 := by
  intro todo
  induction todo with
  | zero => intro j data cpu h; exact h
  | succ todo ih =>
    intro j data cpu h
    rw [draw_row_succ]
    split
    · exact ih _ _ _ h
    · rename_i hc
      apply ih
      intro k hk
      simp only [set_at]
      split
      · rename_i hkc
        have hpos : cell yc (col x j) < 2048 := by
          simp only [vram_width] at hc
          unfold cell; simp only [vram_width]; omega
        have h1 := h _ hpos
        have h2 : data &&& 1 < 2 ^ 1 := Nat.and_lt_two_pow (n := 1) _ (by decide)
        have h3 : cpu.vram (cell yc (col x j)) ^^^ (data &&& 1) < 2 ^ 1 :=
          Nat.xor_lt_two_pow (n := 1) (by omega) h2
        omega
      · exact h k hk

/-- The inner loop of `draw_sprite` on a row of the screen keeps a state `Ready`. -/
theorem draw_row_ready (x yc : Nat) (hyc : yc < 32) (data : Nat) {cpu : Cpu} (h : Ready cpu) :
    Ready (draw_row x yc 8 0 data cpu) := by
  obtain ⟨f, V, hs⟩ := draw_row_shape x yc 8 0 data cpu
  have hbin := draw_row_bin x yc hyc 8 0 data cpu h.1.vram_bin
  have hflag := draw_row_flag x yc 8 0 data cpu (by omega)
  have hf : (draw_row x yc 8 0 data cpu).reg.v 15 < 256 := by
    by_cases hcol : row_collision x yc 8 0 data cpu.vram
    · rw [hflag.1 hcol]; decide
    · rw [hflag.2 hcol]; exact h.1.v_lt 15 (by decide)
  rw [hs] at hbin hf ⊢
  refine ⟨{ h.1 with v_lt := ?_, vram_bin := hbin }, h.2⟩
  intro k hk
  by_cases hk15 : k = 15
  · rw [hk15]; exact hf
  · simp only [set_at]
    rw [if_neg hk15]
    exact h.1.v_lt k hk

/-- The outer loop of `draw_sprite` keeps every pixel 0 or 1. -/
theorem draw_rows_bin (x y : Nat) : ∀ (todo i : Nat) (cpu c : Cpu),
    draw_rows x y todo i cpu = .ok c → (∀ k, k < 2048 → cpu.vram k ≤ 1) →
    ∀ k, k < 2048 → c.vram k ≤ 1 := by
  intro todo
  induction todo with
  | zero =>
    intro i cpu c hc h
    rw [draw_rows] at hc
    cases hc
    exact h
  | succ todo ih =>
    intro i cpu c hc h
    rw [draw_rows_succ] at hc
    split at hc
    · split at hc
      · exact ih _ _ _ hc h
      · rename_i hr
        simp only [vram_height] at hr
        exact ih _ _ _ hc (draw_row_bin x _ (by omega) 8 0 _ cpu h)
    · cases hc

/-- The outer loop of `draw_sprite` keeps a state `Ready`. -/
theorem draw_rows_ready (x y : Nat) : ∀ (todo i : Nat) (cpu c : Cpu),
    draw_rows x y todo i cpu = .ok c → Ready cpu → Ready c := by
  intro todo
  induction todo with
  | zero =>
    intro i cpu c hc h
    rw [draw_rows] at hc
    cases hc
    exact h
  | succ todo ih =>
    intro i cpu c hc h
    rw [draw_rows_succ] at hc
    split at hc
    · split at hc
      · exact ih _ _ _ hc h
      · rename_i hr
        simp only [vram_height] at hr
        exact ih _ _ _ hc (draw_row_ready x _ (by omega) _ h)
    · cases hc

theorem draw_sprite_ready {cpu c : Cpu} (h : Ready cpu) (code : Opcode)
    (hc : draw_sprite cpu code = .ok c) : Ready c := by
  unfold draw_sprite at hc
  simp only at hc
  split at hc
  · rename_i c1 h1
    cases hc
    have hr := draw_rows_ready _ _ _ _ _ _ h1 (h.set_v 15 0 (by decide))
    exact ⟨{ hr.1 with }, hr.2⟩
  · cases hc

/-- Every instruction that completes takes a `Ready` state to a `Settled` one. -/
theorem interpret_settled (rnd : Nat) (cpu c : Cpu) (w : Nat) (h : Ready cpu)
    (hc : interpret rnd cpu w = .ok c) : Settled c := by
  have hd := interpret_decoded rnd cpu w
  have hx := high_lt w
  have hw : (Opcode.mk (w &&& 0x0fff)).word < 4096 := by
    simp only; rw [and_fff]; omega
  rw [hc] at hd
  generalize hr : (Except.ok c : Except Fault Cpu) = r at hd
  cases hd
  case cls => cases hr; exact cls_settled h
  case ret => exact ret_settled h hr.symm
  case ignored => cases hr; exact h.settled
  case jump => cases hr; exact jump_settled h _ hw
  case call => exact call_settled h _ hw hr.symm
  case skip_eq => cases hr; exact skip_eq_settled h _
  case skip_not_eq => cases hr; exact skip_not_eq_settled h _
  case invalid_5 => cases hr
  case skip_eq_reg => cases hr; exact skip_eq_reg_settled h _
  case load_reg_value => cases hr; exact (load_reg_value_ready h _).settled
  case add_reg_value => cases hr; exact (add_reg_value_ready h _).settled
  case load_reg_reg => cases hr; exact (load_reg_reg_ready h _).settled
  case or_reg_reg => cases hr; exact (or_reg_reg_ready h _ hx).settled
  case and_reg_reg => cases hr; exact (and_reg_reg_ready h _).settled
  case xor_reg_reg => cases hr; exact (xor_reg_reg_ready h _ hx).settled
  case add_reg_reg => cases hr; exact (add_reg_reg_ready h _).settled
  case sub_reg_reg => cases hr; exact (sub_reg_reg_ready h _).settled
  case shr_reg_reg => cases hr; exact (shr_reg_reg_ready h _).settled
  case subn_reg_reg => cases hr; exact (subn_reg_reg_ready h _).settled
  case shl_reg_reg => cases hr; exact (shl_reg_reg_ready h _).settled
  case invalid_8 => cases hr
  case skip_not_eq_reg => cases hr; exact skip_not_eq_reg_settled h _
  case load_i_addr => cases hr; exact (load_i_addr_ready h _).settled
  case jump_relative => cases hr; exact jump_relative_settled h _ hw
  case rand_mask => cases hr; exact (rand_mask_ready h _ _).settled
  case draw_sprite => exact (draw_sprite_ready h _ hr.symm).settled
  case skip_pressed => exact skip_pressed_settled h _ hr.symm
  case skip_not_pressed => exact skip_not_pressed_settled h _ hr.symm
  case invalid_E => cases hr
  case load_reg_delay => cases hr; exact (load_reg_delay_ready h _).settled
  case load_wait_key => cases hr; exact load_wait_key_settled h _
  case load_delay_reg => cases hr; exact (load_delay_reg_ready h _ hx).settled
  case load_sound_reg => cases hr; exact (load_sound_reg_ready h _).settled
  case add_i_reg => cases hr; exact (add_i_reg_ready h _).settled
  case load_sprite => cases hr; exact (load_sprite_ready h _).settled
  case store_bcd => exact (store_bcd_ready h _ hx hr.symm).settled
  case store_regs => exact (store_regs_ready h _ hx hr.symm).settled
  case load_regs => exact (load_regs_ready h _ hr.symm).settled
  case invalid_F => cases hr

/-! ## Fetch, cycle and sequences of cycles -/

/-- A fetch inside `ram` returns the big-endian word at `pc` and advances `pc` by 2. -/
theorem fetch_ok (cpu : Cpu) (h : cpu.reg.pc + 1 < 4096) :
    fetch cpu = .ok (cpu.set_pc (cpu.reg.pc + 2),
      (cpu.ram cpu.reg.pc <<< 8) % 65536 ||| cpu.ram (cpu.reg.pc + 1)) := by
  unfold fetch
  have e1 : (cpu.reg.pc + 1) % 65536 = cpu.reg.pc + 1 := by omega
  have e2 : (cpu.reg.pc + 1 + 1) % 65536 = cpu.reg.pc + 2 := by omega
  simp only [mem_size, e1, e2]
  rw [if_pos (by omega), if_pos h]

/-- A fetch completes only inside `ram`. -/
theorem fetch_inv {cpu c : Cpu} {w : Nat} (h : fetch cpu = .ok (c, w)) :
    cpu.reg.pc + 1 < 4096 ∧ c = cpu.set_pc (cpu.reg.pc + 2) := by
  have hb : cpu.reg.pc + 1 < 4096 := by
    unfold fetch at h
    simp only [mem_size] at h
    split at h
    · split at h
      · omega
      · cases h
    · cases h
  rw [fetch_ok cpu hb] at h
  cases h
  exact ⟨hb, rfl⟩

/-- The timer block in closed form: a byte decrement that stops at 0. -/
theorem timer_block_eq (now : Nat) (cpu : Cpu) :
    timer_block now cpu =
      if time_out_passed (to_u32 ((now : Int) - (cpu.last_timer_ticks : Int))) timer_frequency
      then { cpu with delay_timer := cpu.delay_timer - 1, sound_timer := cpu.sound_timer - 1,
                      last_timer_ticks := now }
      else cpu := by
  unfold timer_block
  split
  · simp only
    by_cases hd : cpu.delay_timer > 0 <;> by_cases hs : cpu.sound_timer > 0
    · simp only [hd, hs, if_true]
    · have hs0 : cpu.sound_timer = 0 := by omega
      simp [hd, hs0]
    · have hd0 : cpu.delay_timer = 0 := by omega
      simp [hs, hd0]
    · have hs0 : cpu.sound_timer = 0 := by omega
      have hd0 : cpu.delay_timer = 0 := by omega
      simp [hs0, hd0]
  · rfl

theorem timer_block_settled (now : Nat) {cpu : Cpu} (h : Settled cpu) :
    Settled (timer_block now cpu) := by
  rw [timer_block_eq]
  split
  · exact ⟨{ h.1 with delay_lt := by have := h.1.delay_lt; simp only; omega }, h.2⟩
  · exact h

theorem cpu_block_settled (rnd now : Nat) {cpu c : Cpu} (h : Settled cpu)
    (hc : cpu_block rnd now cpu = .ok c) : Settled c := by
  unfold cpu_block at hc
  split at hc
  · split at hc
    · rename_i c1 w hf
      obtain ⟨hb, rfl⟩ := fetch_inv hf
      split at hc
      · rename_i c2 hi
        cases hc
        have hready : Ready { cpu.set_pc (cpu.reg.pc + 2) with update_gui := false } :=
          ⟨{ h.1 with }, by simp only [Cpu.set_pc]; omega, by simp only [Cpu.set_pc]; omega⟩
        have hs := interpret_settled rnd _ c2 w hready hi
        exact ⟨{ hs.1 with }, hs.2⟩
      · cases hc
    · cases hc
  · cases hc
    exact h

theorem cycle_settled (rnd now : Nat) {cpu c : Cpu} (h : Settled cpu)
    (hc : cycle rnd now cpu = .ok c) : Settled c :=
  cpu_block_settled rnd now (timer_block_settled now h) hc

theorem run_cons (now rnd : Nat) (rest : List (Nat × Nat)) (cpu : Cpu) :
    run ((now, rnd) :: rest) cpu =
      match cycle rnd now cpu with
      | .ok cpu1 => run rest cpu1
      | .error e => .error e := rfl

/-- Every sequence of cycles that completes keeps a state `Settled`. -/
theorem run_settled : ∀ (ticks : List (Nat × Nat)) (cpu c : Cpu), Settled cpu →
    run ticks cpu = .ok c → Settled c := by
  intro ticks
  induction ticks with
  | nil =>
    intro cpu c h hc
    have e : cpu = c := Except.ok.inj hc
    rw [← e]
    exact h
  | cons t rest ih =>
    intro cpu c h hc
    obtain ⟨now, rnd⟩ := t
    rw [run_cons] at hc
    split at hc
    · rename_i c1 h1
      exact ih c1 c (cycle_settled rnd now h h1) hc
    · exact absurd hc (by intro h2; cases h2)

/-- Every entry of a list of bytes, and the default 0, is a byte. -/
theorem getD_lt (l : List Nat) (h : ∀ b ∈ l, b < 256) (n : Nat) : l.getD n 0 < 256 := by
  by_cases hn : n < l.length
  · rw [List.getD_eq_getElem _ _ hn]
    exact h _ (List.getElem_mem hn)
  · rw [List.getD_eq_default _ _ (by omega)]
    decide

/-- The state `reset` leaves is `Settled`, whatever bytes the state before held. -/
theorem reset_settled (cpu : Cpu) : Settled (reset cpu) := by
  have hdelay : (reset cpu).delay_timer < 256 := by
    show (if stack_fill_covers 48 1 = true then 0 else cpu.delay_timer) < 256
    rw [if_pos (by decide)]
    decide
  refine ⟨⟨?_, ?_, hdelay, ?_, ?_, ?_⟩, ?_⟩
  · intro k hk
    simp only [reset]
    rw [if_pos hk]
    decide
  · intro k _
    simp only [reset]
    split
    · exact HEX_FONTS_lt k
    · split
      · decide
      · rename_i h1 h2
        simp only [mem_size] at h2
        omega
  · intro k hk
    simp only [reset, stack_size]
    rw [if_pos (by omega)]
    decide
  · intro k hk
    simp only [reset, vram_size, vram_width, vram_height]
    rw [if_pos (by omega)]
    decide
  · simp only [reset]; decide
  · simp only [reset, prog_start]; decide

/-- The state `load_program` leaves is `Settled` when the file holds bytes. -/
theorem load_program_settled {cpu c : Cpu} (rom : List Nat)
    (hrom : ∀ b ∈ rom, b < 256) (hc : load_program (some rom) cpu = .ok c) : Settled c := by
  unfold load_program at hc
  simp only at hc
  cases hc
  have hs := reset_settled cpu
  refine ⟨{ hs.1 with ram_lt := ?_ }, hs.2⟩
  intro k hk
  simp only
  split
  · exact getD_lt rom hrom _
  · exact hs.1.ram_lt k hk

/-! ## The framebuffer holds 0 and 1 only -/

theorem store_regs_loop_vram : ∀ (todo i : Nat) (cpu c : Cpu),
    store_regs_loop todo i cpu = .ok c → c.vram = cpu.vram := by
  intro todo
  induction todo with
  | zero =>
    intro i cpu c hc
    rw [Except.ok.inj hc]
  | succ todo ih =>
    intro i cpu c hc
    rw [store_regs_loop] at hc
    split at hc
    · have h3 := ih (i + 1) _ c hc
      exact h3
    · exact absurd hc (by intro h2; cases h2)

theorem load_regs_loop_vram : ∀ (todo i : Nat) (cpu c : Cpu),
    load_regs_loop todo i cpu = .ok c → c.vram = cpu.vram := by
  intro todo
  induction todo with
  | zero =>
    intro i cpu c hc
    rw [Except.ok.inj hc]
  | succ todo ih =>
    intro i cpu c hc
    rw [load_regs_loop] at hc
    split at hc
    · have h3 := ih (i + 1) _ c hc
      exact h3
    · exact absurd hc (by intro h2; cases h2)

/-- Apart from `CLS` and `DRW`, an instruction that completes leaves `vram` as it was;
`CLS` zeroes it and `DRW` XORs 0 or 1 into pixels of the screen.  So pixels that are 0
or 1 stay 0 or 1. -/
theorem interpret_bin (rnd : Nat) (cpu c : Cpu) (w : Nat)
    (hbin : ∀ k, k < 2048 → cpu.vram k ≤ 1) (hc : interpret rnd cpu w = .ok c) :
    ∀ k, k < 2048 → c.vram k ≤ 1 := by
  have hd := interpret_decoded rnd cpu w
  rw [hc] at hd
  generalize hr : (Except.ok c : Except Fault Cpu) = r at hd
  cases hd
  case cls =>
    cases hr
    intro k hk
    simp only [cls]
    split
    · omega
    · exact hbin k hk
  case ret =>
    unfold ret at hr; simp only at hr
    split at hr
    · cases hr; exact hbin
    · cases hr
  case ignored => cases hr; exact hbin
  case jump => cases hr; exact hbin
  case call =>
    unfold call at hr
    split at hr
    · cases hr; exact hbin
    · cases hr
  case skip_eq => cases hr; unfold skip_eq; simp only; split <;> exact hbin
  case skip_not_eq => cases hr; unfold skip_not_eq; simp only; split <;> exact hbin
  case invalid_5 => cases hr
  case skip_eq_reg => cases hr; unfold skip_eq_reg; simp only; split <;> exact hbin
  case load_reg_value => cases hr; exact hbin
  case add_reg_value => cases hr; exact hbin
  case load_reg_reg => cases hr; exact hbin
  case or_reg_reg => cases hr; exact hbin
  case and_reg_reg => cases hr; exact hbin
  case xor_reg_reg => cases hr; exact hbin
  case add_reg_reg => cases hr; exact hbin
  case sub_reg_reg => cases hr; exact hbin
  case shr_reg_reg => cases hr; exact hbin
  case subn_reg_reg => cases hr; exact hbin
  case shl_reg_reg => cases hr; exact hbin
  case invalid_8 => cases hr
  case skip_not_eq_reg => cases hr; unfold skip_not_eq_reg; simp only; split <;> exact hbin
  case load_i_addr => cases hr; exact hbin
  case jump_relative => cases hr; exact hbin
  case rand_mask => cases hr; exact hbin
  case draw_sprite =>
    unfold draw_sprite at hr; simp only at hr
    split at hr
    · rename_i c1 h1
      cases hr
      have h3 := draw_rows_bin _ _ _ _ _ c1 h1 hbin
      exact h3
    · cases hr
  case skip_pressed =>
    unfold skip_pressed at hr; simp only at hr
    split at hr
    · cases hr; split <;> exact hbin
    · cases hr
  case skip_not_pressed =>
    unfold skip_not_pressed at hr; simp only at hr
    split at hr
    · cases hr; split <;> exact hbin
    · cases hr
  case invalid_E => cases hr
  case load_reg_delay => cases hr; exact hbin
  case load_wait_key => cases hr; unfold load_wait_key; simp only; split <;> exact hbin
  case load_delay_reg => cases hr; exact hbin
  case load_sound_reg => cases hr; exact hbin
  case add_i_reg => cases hr; exact hbin
  case load_sprite => cases hr; exact hbin
  case store_bcd =>
    unfold store_bcd at hr; simp only at hr
    split at hr
    · cases hr; exact hbin
    · cases hr
  case store_regs =>
    unfold store_regs at hr; simp only at hr
    split at hr
    · rw [store_regs_loop_vram _ _ _ _ hr.symm]; exact hbin
    · cases hr
  case load_regs =>
    unfold load_regs at hr; simp only at hr
    split at hr
    · rw [load_regs_loop_vram _ _ _ _ hr.symm]; exact hbin
    · cases hr
  case invalid_F => cases hr

theorem cycle_bin (rnd now : Nat) (cpu c : Cpu) (hbin : ∀ k, k < 2048 → cpu.vram k ≤ 1)
    (hc : cycle rnd now cpu = .ok c) : ∀ k, k < 2048 → c.vram k ≤ 1 := by
  unfold cycle cpu_block at hc
  have ht : (timer_block now cpu).vram = cpu.vram := by
    rw [timer_block_eq]; split <;> rfl
  split at hc
  · split at hc
    · rename_i c1 w hf
      obtain ⟨_, rfl⟩ := fetch_inv hf
      split at hc
      · rename_i c2 hi
        have e : c = { c2 with last_cpu_ticks := now } := (Except.ok.inj hc).symm
        rw [e]
        exact interpret_bin rnd _ c2 w (by simpa [Cpu.set_pc, ht] using hbin) hi
      · exact absurd hc (by intro h2; cases h2)
    · exact absurd hc (by intro h2; cases h2)
  · rw [← Except.ok.inj hc, ht]
    exact hbin

/-- Every sequence of cycles that completes keeps the pixels 0 or 1. -/
theorem run_bin : ∀ (ticks : List (Nat × Nat)) (cpu c : Cpu),
    (∀ k, k < 2048 → cpu.vram k ≤ 1) → run ticks cpu = .ok c →
    ∀ k, k < 2048 → c.vram k ≤ 1 := by
  intro ticks
  induction ticks with
  | nil =>
    intro cpu c h hc
    rw [← Except.ok.inj hc]
    exact h
  | cons t rest ih =>
    intro cpu c h hc
    obtain ⟨now, rnd⟩ := t
    rw [run_cons] at hc
    split at hc
    · rename_i c1 h1
      exact ih c1 c (cycle_bin rnd now cpu c1 h h1) hc
    · exact absurd hc (by intro h2; cases h2)

/-! ## Invariants over sequences of cycles -/

/-- Claim C13, which the code departs from.  `CALL` and `RET` index `stack` with no
test of `sp` and raise nothing.  The program `22 00` (`CALL 0x200` at `0x200`) completes
16 cycles and stands at `sp = 16`, `pc = 0x200`; the 17th `CALL` addresses `stack[16]`,
outside the 16 slots, on its way to `sp = 17`.  The program `00 EE` (`RET` with
`sp = 0`) decrements the byte `sp` to 255 and addresses `stack[255]`. -/
theorem call_and_ret_index_stack_unchecked :
    (((load_program (some [0x22, 0x00]) zero_cpu).bind
        (run ((List.range 16).map (fun k => (2 * k + 2, 0))))).toOption.map
      (fun c => (c.reg.sp, c.reg.pc)) = some (16, 0x200)) ∧
    ((load_program (some [0x22, 0x00]) zero_cpu).bind
        (run ((List.range 17).map (fun k => (2 * k + 2, 0)))) = .error .out_of_range) ∧
    ((load_program (some [0x00, 0xEE]) zero_cpu).bind (run [(2, 0)])
      = .error .out_of_range) ∧
    ¬ (16 < stack_size) ∧ to_byte ((0 : Int) - 1) = 255 ∧ ¬ (255 < stack_size) := by
  refine ⟨by decide, rfl, rfl, by decide, by decide, by decide⟩

/-- In the embedding an access outside an array ends the sequence of cycles, so a
sequence that completes never passes through `CALL` with `sp = 16` or `RET` with
`sp = 0`, and `sp ≤ 16` holds after it.  The code has no such stop. -/
theorem sp_bound_while_inside_the_arrays (rom : List Nat) (cpu0 c : Cpu)
    (ticks : List (Nat × Nat)) (hrom : ∀ b ∈ rom, b < 256)
    (hc : (load_program (some rom) cpu0).bind (run ticks) = .ok c) : c.reg.sp ≤ 16 := by
  have h0 : load_program (some rom) cpu0 = .ok ((load_program (some rom) cpu0).toOption.getD
      cpu0) := rfl
  rw [h0] at hc
  exact (run_settled ticks _ c (load_program_settled rom hrom h0) hc).1.sp_le

/-- Claim C14, which the code departs from.  `fetch` indexes `ram` with `pc` and no
test, and no operation reduces `pc`.  The program `60 FF BF FF` (`LD V0, 0xFF`;
`JP V0, 0xFFF`) completes two cycles and stands at `pc = 0xFFF + 0xFF = 0x10FE`; the
fetch of the third cycle addresses `ram[0x10FE]` and `ram[0x10FF]`, outside the 4096
cells, on its way to `pc = 0x1100`.  The program `1F FE` (`JP 0xFFE`) fetches the zero
word at `0xFFE`, which is ignored, and stands at `pc = 4096` with every access inside
`ram`; the fetch of its third cycle addresses `ram[4096]`. -/
theorem fetch_indexes_ram_unchecked :
    (((load_program (some [0x60, 0xFF, 0xBF, 0xFF]) zero_cpu).bind
        (run [(2, 0), (4, 0)])).toOption.map (fun c => c.reg.pc) = some 0x10FE) ∧
    ((load_program (some [0x60, 0xFF, 0xBF, 0xFF]) zero_cpu).bind
        (run [(2, 0), (4, 0), (6, 0)]) = .error .out_of_range) ∧
    ¬ (0x10FE < mem_size) ∧
    (((load_program (some [0x1F, 0xFE]) zero_cpu).bind
        (run [(2, 0), (4, 0)])).toOption.map (fun c => c.reg.pc) = some 4096) ∧
    ((load_program (some [0x1F, 0xFE]) zero_cpu).bind
        (run [(2, 0), (4, 0), (6, 0)]) = .error .out_of_range) ∧
    ¬ (4096 < mem_size) ∧
    (∀ cpu : Cpu, mem_size ≤ cpu.reg.pc → fetch cpu = .error .out_of_range) := by
  refine ⟨by decide, rfl, by decide, by decide, rfl, by decide, ?_⟩
  intro cpu h
  simp only [mem_size] at h
  unfold fetch
  simp only [mem_size]
  rw [if_neg (by omega)]

/-- In the embedding an access outside an array ends the sequence of cycles, so a
sequence that completes never fetches with `pc ≥ 4095`, and `pc ≤ 0x10FE`
(`0xFFF + 0xFF`, the largest target of `JP V0, addr`) holds after it.  The code has no
such stop. -/
theorem pc_bound_while_inside_the_arrays (rom : List Nat) (cpu0 c : Cpu)
    (ticks : List (Nat × Nat)) (hrom : ∀ b ∈ rom, b < 256)
    (hc : (load_program (some rom) cpu0).bind (run ticks) = .ok c) :
    c.reg.pc ≤ 0x10FE := by
  have h0 : load_program (some rom) cpu0 = .ok ((load_program (some rom) cpu0).toOption.getD
      cpu0) := rfl
  rw [h0] at hc
  exact (run_settled ticks _ c (load_program_settled rom hrom h0) hc).2

/-- Claim C15, which the code departs from.  `store_bcd` stores to `ram[I]`,
`ram[I + 1]` and `ram[I + 2]` with no test of `I`.  The program `60 07 AF FE F0 33`
(`LD V0, 7`; `LD I, 0xFFE`; `LD B, V0`) completes two cycles and stands at `V0 = 7`,
`I = 0xFFE`, `pc = 0x204` with `vram[0] = 0`; its third instruction stores the digit
`7 % 10 = 7`, which is neither 0 nor 1, to `ram[0xFFE + 2]`, the first cell after the
4096 of `ram`, where `cpu.h` declares `vram`; and so does `FX33` in every state with
`I + 2 ≥ 4096`. -/
theorem store_bcd_stores_past_ram :
    (((load_program (some [0x60, 0x07, 0xAF, 0xFE, 0xF0, 0x33]) zero_cpu).bind
        (run [(2, 0), (4, 0)])).toOption.map
      (fun c => (c.reg.v 0, c.reg.i, c.reg.pc, c.vram 0)) = some (7, 0xFFE, 0x204, 0)) ∧
    ((load_program (some [0x60, 0x07, 0xAF, 0xFE, 0xF0, 0x33]) zero_cpu).bind
        (run [(2, 0), (4, 0), (6, 0)]) = .error .out_of_range) ∧
    0xFFE + 2 = mem_size ∧ 7 % 10 = 7 ∧ ¬ (7 = 0 ∨ 7 = 1) ∧
    (∀ (rnd : Nat) (cpu : Cpu) (X : Nat), X < 16 → mem_size ≤ cpu.reg.i + 2 →
      interpret rnd cpu (opword 0xF X 3 3) = .error .out_of_range) := by
  refine ⟨by decide, rfl, by decide, by decide, by decide, ?_⟩
  intro rnd cpu X hX h
  simp only [mem_size] at h
  rw [interpret_store_bcd rnd cpu X hX]
  unfold store_bcd
  simp only [mem_size]
  rw [if_neg (by omega)]

/-- In the embedding an access outside an array ends the instruction and the sequence
of cycles, so what completes stores to `vram` through `cls` and `draw_sprite` only: if
every vram cell is 0 or 1 before `interpret`, every vram cell is 0 or 1 after it, and
every state reached from `reset` or from `load_program` by `cycle` calls that complete
has every vram cell 0 or 1.  The code has no such stop. -/
theorem vram_binary_while_inside_the_arrays (rnd : Nat) (cpu : Cpu) (w : Nat) (cpu0 : Cpu)
    (file : Option (List Nat)) (ticks : List (Nat × Nat)) :
    ((∀ k, k < 2048 → cpu.vram k = 0 ∨ cpu.vram k = 1) →
      ∀ c, interpret rnd cpu w = .ok c → ∀ k, k < 2048 → c.vram k = 0 ∨ c.vram k = 1) ∧
    (∀ c, run ticks (reset cpu0) = .ok c → ∀ k, k < 2048 → c.vram k = 0 ∨ c.vram k = 1) ∧
    (∀ c, (load_program file cpu0).bind (run ticks) = .ok c →
      ∀ k, k < 2048 → c.vram k = 0 ∨ c.vram k = 1) := by
  have hreset : ∀ k, k < 2048 → (reset cpu0).vram k ≤ 1 := by
    intro k hk
    simp only [reset, vram_size, vram_width, vram_height]
    rw [if_pos (by omega)]
    decide
  refine ⟨?_, ?_, ?_⟩
  · intro hbin c hc k hk
    have h1 := interpret_bin rnd cpu c w (fun j hj => by have := hbin j hj; omega) hc k hk
    omega
  · intro c hc k hk
    have h1 := run_bin ticks _ c hreset hc k hk
    omega
  · intro c hc k hk
    cases file with
    | none => exact absurd hc (by intro h2; cases h2)
    | some rom =>
      have hc2 : run ticks ((load_program (some rom) cpu0).toOption.getD cpu0) = .ok c := hc
      have h1 := run_bin ticks ((load_program (some rom) cpu0).toOption.getD cpu0) c
        (fun j hj => hreset j hj) hc2 k hk
      omega

/-- The framebuffer at a concrete input: after `D015` on the font, and after two cycles
of the program `00 E0 D0 15`, every vram cell is 0 or 1. -/
theorem vram_binary_after_drw :
    (∀ k, k < 2048 → font_cpu.vram k = 0 ∨ font_cpu.vram k = 1) ∧
    (∃ c, interpret 0 font_cpu (opword 0xD 0 1 5) = .ok c ∧
      ∀ k, k < 2048 → c.vram k = 0 ∨ c.vram k = 1) ∧
    (∃ c, (load_program (some [0x00, 0xE0, 0xD0, 0x15]) zero_cpu).bind (run [(2, 0), (4, 0)])
        = .ok c ∧ ∀ k, k < 2048 → c.vram k = 0 ∨ c.vram k = 1) := by
  have hbin : ∀ k, k < 2048 → font_cpu.vram k = 0 ∨ font_cpu.vram k = 1 :=
    fun _ _ => Or.inl rfl
  have e1 : interpret 0 font_cpu (opword 0xD 0 1 5) = .ok
      ((interpret 0 font_cpu (opword 0xD 0 1 5)).toOption.getD font_cpu) := rfl
  have e2 : (load_program (some [0x00, 0xE0, 0xD0, 0x15]) zero_cpu).bind
      (run [(2, 0), (4, 0)]) = .ok (((load_program (some [0x00, 0xE0, 0xD0, 0x15])
        zero_cpu).bind (run [(2, 0), (4, 0)])).toOption.getD zero_cpu) := rfl
  have h := vram_binary_while_inside_the_arrays 0 font_cpu (opword 0xD 0 1 5) zero_cpu
    (some [0x00, 0xE0, 0xD0, 0x15]) [(2, 0), (4, 0)]
  exact ⟨hbin, ⟨_, e1, h.1 hbin _ e1⟩, ⟨_, e2, h.2.2 _ e2⟩⟩

/-! ## Loader and reset -/

/-- Claim C16.  `load_program` places the ROM at `0x200` and truncates it: on a file
that opens, `ram[0x200 + k] = rom[k]` for `k < min(length(rom), 3584)`,
`ram[0x200 + k] = 0` for `length(rom) ≤ k < 3584`, `ram[0..80)` holds the hex-font table,
`ram[80..0x200)` is zero and `pc = 0x200`; the bytes of the file from index 3584 on have
no effect on the state; on a file that does not open, `load_program` fails and the
state at the throw is the state before the call. -/
theorem load_program_places_rom (rom : List Nat) (cpu : Cpu) :
    (∃ c, load_program (some rom) cpu = .ok c ∧
      (∀ k, k < min rom.length 3584 → rom[k]? = some (c.ram (0x200 + k))) ∧
      (∀ k, rom.length ≤ k → k < 3584 → c.ram (0x200 + k) = 0) ∧
      (∀ k, k < 80 → c.ram k = HEX_FONTS.getD k 0) ∧
      (∀ k, 80 ≤ k → k < 0x200 → c.ram k = 0) ∧
      c.reg.pc = 0x200) ∧
    load_program (some rom) cpu = load_program (some (rom.take 3584)) cpu ∧
    load_program none cpu = .error (.could_not_open cpu) := by
  refine ⟨⟨_, rfl, ?_, ?_, ?_, ?_, rfl⟩, ?_, rfl⟩
  · intro k hk
    have hlen : k < rom.length := by omega
    simp only [prog_start, max_prog_size, mem_size]
    rw [if_pos (by omega), show 0x200 + k - 0x200 = k by omega,
      List.getD_eq_getElem _ _ hlen, List.getElem?_eq_getElem hlen]
  · intro k h1 h2
    simp only [prog_start, max_prog_size, mem_size]
    rw [if_neg (by omega)]
    simp only [reset, mem_size]
    rw [if_neg (by simp only [HEX_FONTS, List.length]; omega), if_pos (by omega)]
  · intro k hk
    simp only [prog_start, max_prog_size, mem_size]
    rw [if_neg (by omega)]
    simp only [reset]
    rw [if_pos (by simp only [HEX_FONTS, List.length]; omega)]
  · intro k h1 h2
    simp only [prog_start, max_prog_size, mem_size]
    rw [if_neg (by omega)]
    simp only [reset, mem_size]
    rw [if_neg (by simp only [HEX_FONTS, List.length]; omega), if_pos (by omega)]
  · unfold load_program
    simp only [prog_start, max_prog_size, mem_size, List.length_take]
    congr 2
    funext k
    have e : min (min 3584 rom.length) (4096 - 512) = min rom.length (4096 - 512) := by omega
    rw [e]
    split
    · rename_i hk
      rw [List.getD_eq_getElem?_getD, List.getD_eq_getElem?_getD, List.getElem?_take,
        if_pos (by omega)]
    · rfl

/-- Claim C17.  `reset` postcondition, for every state before it: `pc = 0x200`, the
glyph of digit `d` in `ram[5 * d .. 5 * d + 5)` (for `A`: `F0 90 F0 90 90` in
`ram[50..55)`), and zero in `ram[80..4096)`, in all of `vram`, in `V0..VF`, `I`, `sp`,
the 16 stack slots, the 16 keys, `delay_timer` and `sound_timer`. -/
theorem reset_postcondition (cpu : Cpu) :
    (reset cpu).reg.pc = 0x200 ∧
    (∀ d r, d < 16 → r < 5 → (reset cpu).ram (5 * d + r) = HEX_FONTS.getD (5 * d + r) 0) ∧
    [(reset cpu).ram 50, (reset cpu).ram 51, (reset cpu).ram 52, (reset cpu).ram 53,
      (reset cpu).ram 54] = [0xF0, 0x90, 0xF0, 0x90, 0x90] ∧
    (∀ k, 80 ≤ k → k < 4096 → (reset cpu).ram k = 0) ∧
    (∀ k, k < 2048 → (reset cpu).vram k = 0) ∧
    (∀ k, k < 16 → (reset cpu).reg.v k = 0) ∧
    (reset cpu).reg.i = 0 ∧ (reset cpu).reg.sp = 0 ∧
    (∀ k, k < 16 → (reset cpu).stack k = 0) ∧
    (∀ k, k < 16 → (reset cpu).keys k = false) ∧
    (reset cpu).delay_timer = 0 ∧
    (reset cpu).sound_timer = 0 := by
  refine ⟨rfl, ?_, rfl, ?_, ?_, ?_, rfl, rfl, ?_, ?_, rfl, rfl⟩
  · intro d r hd hr
    simp only [reset]
    rw [if_pos (by simp only [HEX_FONTS, List.length]; omega)]
  · intro k h1 h2
    simp only [reset, mem_size]
    rw [if_neg (by simp only [HEX_FONTS, List.length]; omega), if_pos h2]
  · intro k hk
    simp only [reset, vram_size, vram_width, vram_height]
    rw [if_pos (by omega)]
  · intro k hk
    simp only [reset]
    rw [if_pos hk]
  · intro k hk
    simp only [reset, stack_size]
    rw [if_pos hk]
  · intro k hk
    simp only [reset, key_size]
    rw [if_pos hk]

/-- The fields of the state that no statement of `reset` names are zero after it as
well: the fill of `stack` covers them.  With the count `stack_size` in place of
`sizeof_stack` it would cover none of them. -/
theorem reset_reaches_flags_and_ticks (cpu : Cpu) :
    (reset cpu).update_gui = false ∧ (reset cpu).debug = false ∧
    (reset cpu).last_cpu_ticks = 0 ∧ (reset cpu).last_timer_ticks = 0 ∧
    sizeof_stack = 32 ∧ stack_size = 16 ∧
    stack_fill_covers 48 1 = true ∧ stack_fill_covers 58 4 = true ∧
    ¬ (48 + 1 ≤ 2 * stack_size) := by
  refine ⟨rfl, rfl, rfl, rfl, by decide, by decide, by decide, by decide, by decide⟩

/-! ## Cycles: wait-key polling, pacing, CALL and RET -/

/-- The timer block touches the two timers and `last_timer_ticks` only. -/
theorem timer_block_frame (now : Nat) (cpu : Cpu) :
    (timer_block now cpu).reg = cpu.reg ∧ (timer_block now cpu).ram = cpu.ram ∧
    (timer_block now cpu).keys = cpu.keys ∧ (timer_block now cpu).stack = cpu.stack ∧
    (timer_block now cpu).last_cpu_ticks = cpu.last_cpu_ticks := by
  rw [timer_block_eq]
  split <;> exact ⟨rfl, rfl, rfl, rfl, rfl⟩

/-- The bytes `FX` and `0A` are fetched as the word `FX0A`. -/
theorem word_FX0A (X : Nat) (hX : X < 16) :
    ((0xF0 + X) <<< 8) % 65536 ||| 0x0A = opword 0xF X 0 0xA := by
  interval_cases X <;> rfl

/-- The word `FX0A` reaches `load_wait_key` with payload `X0A`. -/
theorem interpret_load_wait_key (rnd : Nat) (cpu : Cpu) (X : Nat) (hX : X < 16) :
    interpret rnd cpu (opword 0xF X 0 0xA)
      = .ok (load_wait_key cpu ⟨0x100 * X + 0x10 * 0 + 0xA⟩) := by
  unfold interpret
  simp only [opword_type 0xF X 0 0xA (by decide) hX (by decide) (by decide),
    opword_code 0xF X 0 0xA hX (by decide) (by decide), code_low X 0 0xA (by decide) (by decide)]

/-- Claim C18.  Wait-key polling through `cycle`: when the CPU gate fires and the word
at `pc` is `FX0A`, the cycle completes; if no key is pressed, `pc` equals its value
before the cycle and every V register is unchanged; if a key is pressed, `Vx` is the
lowest pressed key index and `pc` has advanced by 2. -/
theorem wait_key_polling (rnd now : Nat) (cpu : Cpu) (X : Nat) (hX : X < 16)
    (hgate : time_out_passed (to_u32 ((now : Int) - (cpu.last_cpu_ticks : Int)))
      cpu_frequency = true)
    (hpc : cpu.reg.pc + 1 < 4096)
    (hhigh : cpu.ram cpu.reg.pc = 0xF0 + X) (hlow : cpu.ram (cpu.reg.pc + 1) = 0x0A) :
    ∃ c, cycle rnd now cpu = .ok c ∧
      ((∀ k, k < 16 → cpu.keys k = false) →
        c.reg.pc = cpu.reg.pc ∧ ∀ k, c.reg.v k = cpu.reg.v k) ∧
      (∀ i, i < 16 → cpu.keys i = true → (∀ k, k < i → cpu.keys k = false) →
        c.reg.v X = i ∧ c.reg.pc = cpu.reg.pc + 2) := by
  obtain ⟨hreg, hram, hkeys, _, hticks⟩ := timer_block_frame now cpu
  have hf := fetch_ok (timer_block now cpu) (by rw [hreg]; exact hpc)
  rw [hreg, hram, hhigh, hlow, word_FX0A X hX] at hf
  have hcyc : cycle rnd now cpu = .ok
      { load_wait_key { (timer_block now cpu).set_pc (cpu.reg.pc + 2) with update_gui := false }
          ⟨0x100 * X + 0x10 * 0 + 0xA⟩ with last_cpu_ticks := now } := by
    unfold cycle cpu_block
    rw [hticks, if_pos hgate, hf]
    simp only
    rw [interpret_load_wait_key rnd _ X hX]
  refine ⟨_, hcyc, ?_, ?_⟩
  · intro hnone
    have hfind : (List.range key_size).find? (fun i => (timer_block now cpu).keys i) = none := by
      rw [List.find?_range_eq_none]
      intro i hi
      rw [hkeys, hnone i (by simpa using hi)]
      rfl
    simp only [load_wait_key, Cpu.set_pc, hfind, hreg]
    constructor
    · unfold to_word
      omega
    · intro k
      trivial
  · intro i hi hpress hlower
    have hfind : (List.range key_size).find? (fun i => (timer_block now cpu).keys i) = some i := by
      rw [List.find?_range_eq_some]
      refine ⟨by rw [hkeys]; exact hpress, by simpa using hi, ?_⟩
      intro j hj
      rw [hkeys, hlower j hj]
      rfl
    simp only [load_wait_key, Cpu.set_pc, hfind, hreg, Cpu.set_v,
      code_high X 0 0xA hX (by decide) (by decide), set_at, if_true, and_self]

/-- Claim C18 at the input of the specification: the program `F0 0A 12 02` returns to
`pc = 0x200` with `V0` unchanged while no key is pressed, and with key 5 pressed leaves
`V0 = 5`, `pc = 0x202`. -/
theorem wait_key_polling_witness :
    (0 < 16 ∧
      time_out_passed (to_u32 ((2 : Int) - (wait_key_cpu.last_cpu_ticks : Int)))
        cpu_frequency = true ∧
      wait_key_cpu.reg.pc + 1 < 4096 ∧ wait_key_cpu.ram wait_key_cpu.reg.pc = 0xF0 + 0 ∧
      wait_key_cpu.ram (wait_key_cpu.reg.pc + 1) = 0x0A) ∧
    (∃ c, cycle 0 2 wait_key_cpu = .ok c ∧ c.reg.pc = 0x200 ∧ c.reg.v 0 = 0) ∧
    (∃ c, cycle 0 2 { wait_key_cpu with keys := fun k => k == 5 } = .ok c ∧
      c.reg.v 0 = 5 ∧ c.reg.pc = 0x202) := by
  obtain ⟨c, hc, hnone, _⟩ := wait_key_polling 0 2 wait_key_cpu 0 (by decide) (by decide)
    (by decide) (by decide) (by decide)
  obtain ⟨c5, hc5, _, hsome⟩ := wait_key_polling 0 2
    { wait_key_cpu with keys := fun k => k == 5 } 0
    (by decide) (by decide) (by decide) (by decide) (by decide)
  have hkeys : ∀ k, k < 16 → wait_key_cpu.keys k = false := by
    intro k hk
    show (if k < 16 then false else false) = false
    split <;> rfl
  refine ⟨⟨by decide, by decide, by decide, by decide, by decide⟩, ⟨c, hc, ?_, ?_⟩,
    ⟨c5, hc5, ?_⟩⟩
  · exact (hnone hkeys).1
  · exact (hnone hkeys).2 0
  · exact hsome 5 (by decide) rfl (by decide)

/-- Claim C19.  Pacing of `cycle(now)`: with `d_cpu` and `d_timer` the unsigned 32-bit
differences of `now` and the two tick counters, the CPU gate is `d_cpu ≥ 2` and the timer
gate is `d_timer ≥ 17`; the timers are stepped once when the timer gate fires and not
otherwise, a step lowering each of the two timers by 1 if it is positive and leaving
it at 0 otherwise; after that one instruction is fetched and executed when the CPU gate
fires and none otherwise; and when neither gate fires the call changes no state. -/
theorem cycle_pacing (rnd now : Nat) (cpu : Cpu) :
    (time_out_passed (to_u32 ((now : Int) - (cpu.last_cpu_ticks : Int))) cpu_frequency = true
      ↔ 2 ≤ to_u32 ((now : Int) - (cpu.last_cpu_ticks : Int))) ∧
    (time_out_passed (to_u32 ((now : Int) - (cpu.last_timer_ticks : Int))) timer_frequency = true
      ↔ 17 ≤ to_u32 ((now : Int) - (cpu.last_timer_ticks : Int))) ∧
    (17 ≤ to_u32 ((now : Int) - (cpu.last_timer_ticks : Int)) →
      timer_block now cpu =
        { cpu with delay_timer := cpu.delay_timer - 1, sound_timer := cpu.sound_timer - 1,
                   last_timer_ticks := now } ∧
      (0 < cpu.delay_timer → (timer_block now cpu).delay_timer + 1 = cpu.delay_timer) ∧
      (cpu.delay_timer = 0 → (timer_block now cpu).delay_timer = 0) ∧
      (0 < cpu.sound_timer → (timer_block now cpu).sound_timer + 1 = cpu.sound_timer) ∧
      (cpu.sound_timer = 0 → (timer_block now cpu).sound_timer = 0)) ∧
    (¬ 17 ≤ to_u32 ((now : Int) - (cpu.last_timer_ticks : Int)) → timer_block now cpu = cpu) ∧
    (2 ≤ to_u32 ((now : Int) - (cpu.last_cpu_ticks : Int)) →
      cycle rnd now cpu =
        match fetch (timer_block now cpu) with
        | .ok (cpu1, code) =>
          match interpret rnd { cpu1 with update_gui := false } code with
          | .ok cpu2 => .ok { cpu2 with last_cpu_ticks := now }
          | .error e => .error e
        | .error e => .error e) ∧
    (¬ 2 ≤ to_u32 ((now : Int) - (cpu.last_cpu_ticks : Int)) →
      cycle rnd now cpu = .ok (timer_block now cpu)) ∧
    (¬ 2 ≤ to_u32 ((now : Int) - (cpu.last_cpu_ticks : Int)) →
      ¬ 17 ≤ to_u32 ((now : Int) - (cpu.last_timer_ticks : Int)) →
      cycle rnd now cpu = .ok cpu) := by
  have hcpu : ∀ d, time_out_passed d cpu_frequency = true ↔ 2 ≤ d := by
    intro d
    simp only [time_out_passed, cpu_frequency, decide_eq_true_eq]
    omega
  have htim : ∀ d, time_out_passed d timer_frequency = true ↔ 17 ≤ d := by
    intro d
    simp only [time_out_passed, timer_frequency, decide_eq_true_eq]
    omega
  have hticks := (timer_block_frame now cpu).2.2.2.2
  have hoff : ¬ 17 ≤ to_u32 ((now : Int) - (cpu.last_timer_ticks : Int)) →
      timer_block now cpu = cpu := by
    intro h
    rw [timer_block_eq, if_neg (fun h2 => h ((htim _).1 h2))]
  have hskip : ¬ 2 ≤ to_u32 ((now : Int) - (cpu.last_cpu_ticks : Int)) →
      cycle rnd now cpu = .ok (timer_block now cpu) := by
    intro h
    unfold cycle cpu_block
    rw [hticks, if_neg (fun h2 => h ((hcpu _).1 h2))]
  refine ⟨hcpu _, htim _, ?_, hoff, ?_, hskip, ?_⟩
  · intro h
    have e : timer_block now cpu =
        { cpu with delay_timer := cpu.delay_timer - 1, sound_timer := cpu.sound_timer - 1,
                   last_timer_ticks := now } := by
      rw [timer_block_eq, if_pos ((htim _).2 h)]
    rw [e]
    refine ⟨rfl, ?_, ?_, ?_, ?_⟩ <;> intro h2 <;> simp only <;> omega
  · intro h
    unfold cycle cpu_block
    rw [hticks, if_pos ((hcpu _).2 h)]
  · intro h1 h2
    rw [hskip h1, hoff h2]

/-- The word `2NNN` reaches `call` with payload `NNN`. -/
theorem interpret_call (rnd : Nat) (cpu : Cpu) (N : Nat) (hN : N < 4096) :
    interpret rnd cpu (0x2000 + N) = call cpu ⟨N⟩ := by
  have ht : ((0x2000 + N) &&& 0xf000) >>> 12 % 256 = 2 := by rw [type_norm]; omega
  have hcode : (0x2000 + N) &&& 0x0fff = N := by rw [and_fff]; omega
  unfold interpret
  simp only [ht, hcode]

/-- The word `00EE` reaches `ret`. -/
theorem interpret_ret (rnd : Nat) (cpu : Cpu) : interpret rnd cpu 0x00EE = ret cpu := rfl

/-- Claim C20.  `CALL`/`RET` round trip: with `sp < 16` and a 12-bit address `NNN`,
`2NNN` completes and sets `stack[old sp]` to the old `pc`, `sp` to `old sp + 1` and `pc`
to `NNN`; `00EE` right after it completes and restores `pc` and `sp`, with the V
registers, `I`, `ram` and `vram` as before the `CALL`. -/
theorem call_ret_round_trip (rnd1 rnd2 : Nat) (cpu : Cpu) (N : Nat) (hN : N < 4096)
    (hsp : cpu.reg.sp < 16) :
    ∃ c1 c2, interpret rnd1 cpu (0x2000 + N) = .ok c1 ∧
      c1.stack cpu.reg.sp = cpu.reg.pc ∧ c1.reg.sp = cpu.reg.sp + 1 ∧ c1.reg.pc = N ∧
      interpret rnd2 c1 0x00EE = .ok c2 ∧
      c2.reg.pc = cpu.reg.pc ∧ c2.reg.sp = cpu.reg.sp ∧
      c2.reg.v = cpu.reg.v ∧ c2.reg.i = cpu.reg.i ∧ c2.ram = cpu.ram ∧ c2.vram = cpu.vram := by
  have hmod : (cpu.reg.sp + 1) % 256 = cpu.reg.sp + 1 := by omega
  have hback : to_byte (((cpu.reg.sp + 1 : Nat) : Int) - 1) = cpu.reg.sp := by
    unfold to_byte; omega
  have h1 : interpret rnd1 cpu (0x2000 + N) = .ok
      { cpu with
        stack := set_at cpu.stack cpu.reg.sp cpu.reg.pc,
        reg := { cpu.reg with sp := cpu.reg.sp + 1, pc := N } } := by
    rw [interpret_call rnd1 cpu N hN]
    unfold call
    rw [if_pos (by simpa using hsp), hmod]
  have h2 : interpret rnd2
      { cpu with
        stack := set_at cpu.stack cpu.reg.sp cpu.reg.pc,
        reg := { cpu.reg with sp := cpu.reg.sp + 1, pc := N } } 0x00EE = .ok
      { cpu with
        stack := set_at cpu.stack cpu.reg.sp cpu.reg.pc,
        reg := { cpu.reg with sp := cpu.reg.sp, pc := cpu.reg.pc } } := by
    rw [interpret_ret]
    unfold ret
    simp only [hback, stack_size]
    rw [if_pos hsp]
    simp only [set_at, if_true]
  refine ⟨_, _, h1, ?_, rfl, rfl, h2, rfl, rfl, rfl, rfl, rfl, rfl⟩
  simp only [set_at, if_true]

/-- Claim C20 at the input of the specification: on the program
`22 06 12 04 00 00 00 EE` the first cycle (`CALL 0x206`) leaves `pc = 0x206`, `sp = 1`,
`stack[0] = 0x202`, and the second (`RET`) leaves `pc = 0x202`, `sp = 0`. -/
theorem call_ret_round_trip_witness :
    (0x206 < 4096 ∧ (call_ret_cpu.set_pc 0x202).reg.sp < 16) ∧
    (∃ c1 c2, interpret 0 (call_ret_cpu.set_pc 0x202) (0x2000 + 0x206) = .ok c1 ∧
      c1.stack 0 = 0x202 ∧ c1.reg.sp = 1 ∧ c1.reg.pc = 0x206 ∧
      interpret 0 c1 0x00EE = .ok c2 ∧ c2.reg.pc = 0x202 ∧ c2.reg.sp = 0) ∧
    ((cycle 0 2 call_ret_cpu).toOption.map (fun c => (c.reg.pc, c.reg.sp, c.stack 0))
      = some (0x206, 1, 0x202)) ∧
    (((cycle 0 2 call_ret_cpu).bind (cycle 0 4)).toOption.map (fun c => (c.reg.pc, c.reg.sp))
      = some (0x202, 0)) ∧
    ((run [(2, 0), (4, 0), (6, 0)] call_ret_cpu).toOption.map (fun c => c.reg.pc)
      = some 0x204) := by
  obtain ⟨c1, c2, h1, hst, hsp, hpc, h2, hpc2, hsp2, _⟩ :=
    call_ret_round_trip 0 0 (call_ret_cpu.set_pc 0x202) 0x206 (by decide) (by decide)
  exact ⟨⟨by decide, by decide⟩, ⟨c1, c2, h1, hst, hsp, hpc, h2, hpc2, hsp2⟩,
    by decide, by decide, by decide⟩

/-! ## Reset after reset, reset after load -/

/-- Claim C21.  `reset` is idempotent and wipes the ROM: `reset (reset s) = reset s` as
whole machine states, and for every ROM `load_program` completes and `reset` of the
state it leaves equals `reset` of the starting state, with every cell of the program
area `ram[0x200..0x1000)` zero. -/
theorem reset_idempotent_and_wipes_rom (s : Cpu) (rom : List Nat) :
    reset (reset s) = reset s ∧
    ∃ c, load_program (some rom) s = .ok c ∧ reset c = reset s ∧
      ∀ k, prog_start ≤ k → k < mem_size → (reset c).ram k = 0 := by
  have hcov : ∀ (a b : Cpu),
      (∀ k, mem_size ≤ k → a.ram k = b.ram k) → (∀ k, vram_size ≤ k → a.vram k = b.vram k) →
      (∀ k, stack_size ≤ k → a.stack k = b.stack k) →
      (∀ k, key_size ≤ k → a.keys k = b.keys k) →
      (∀ k, 16 ≤ k → a.reg.v k = b.reg.v k) → reset a = reset b := by
    intro a b hram hvram hstack hkeys hv
    unfold reset
    simp only [Cpu.mk.injEq, Register.mk.injEq, true_and, and_true]
    have hfill : ∀ (offset size : Nat) (α : Type) (z x y : α),
        stack_fill_covers offset size = true →
        (if stack_fill_covers offset size = true then z else x)
          = (if stack_fill_covers offset size = true then z else y) := by
      intro offset size α z x y h
      rw [if_pos h, if_pos h]
    refine ⟨?_, ?_, ?_, ?_, ?_, hfill _ _ _ _ _ _ (by decide), hfill _ _ _ _ _ _ (by decide),
      hfill _ _ _ _ _ _ (by decide), hfill _ _ _ _ _ _ (by decide),
      hfill _ _ _ _ _ _ (by decide), hfill _ _ _ _ _ _ (by decide)⟩
    · funext k
      by_cases h : k < 16
      · rw [if_pos h, if_pos h]
      · rw [if_neg h, if_neg h]
        exact hv k (Nat.le_of_not_lt h)
    · funext k
      by_cases h1 : k < HEX_FONTS.length
      · rw [if_pos h1, if_pos h1]
      · rw [if_neg h1, if_neg h1]
        by_cases h2 : k < mem_size
        · rw [if_pos h2, if_pos h2]
        · rw [if_neg h2, if_neg h2]
          exact hram k (Nat.le_of_not_lt h2)
    · funext k
      by_cases h : k < vram_size
      · rw [if_pos h, if_pos h]
      · rw [if_neg h, if_neg h]
        exact hvram k (Nat.le_of_not_lt h)
    · funext k
      by_cases h : k < stack_size
      · rw [if_pos h, if_pos h]
      · rw [if_neg h, if_neg h]
        exact hstack k (Nat.le_of_not_lt h)
    · funext k
      by_cases h : k < key_size
      · rw [if_pos h, if_pos h]
      · rw [if_neg h, if_neg h]
        exact hkeys k (Nat.le_of_not_lt h)
  refine ⟨?_, ?_⟩
  · apply hcov
    · intro k hk
      simp only [mem_size] at hk
      simp only [reset, mem_size]
      rw [if_neg (by simp only [HEX_FONTS, List.length]; omega), if_neg (by omega)]
    · intro k hk
      simp only [reset]
      rw [if_neg (by omega)]
    · intro k hk
      simp only [reset]
      rw [if_neg (by omega)]
    · intro k hk
      simp only [reset]
      rw [if_neg (by omega)]
    · intro k hk
      simp only [reset]
      rw [if_neg (by omega)]
  · refine ⟨_, rfl, ?_, ?_⟩
    · apply hcov
      · intro k hk
        simp only [mem_size] at hk
        simp only [reset, mem_size, prog_start, max_prog_size]
        rw [if_neg (by omega), if_neg (by simp only [HEX_FONTS, List.length]; omega),
          if_neg (by omega)]
      · intro k hk
        simp only [reset]
        rw [if_neg (by omega)]
      · intro k hk
        simp only [reset]
        rw [if_neg (by omega)]
      · intro k hk
        simp only [reset]
        rw [if_neg (by omega)]
      · intro k hk
        simp only [reset]
        rw [if_neg (by omega)]
    · intro k h1 h2
      have h3 : ¬k < HEX_FONTS.length := by
        simp only [prog_start] at h1
        simp only [HEX_FONTS, List.length_cons, List.length_nil]
        omega
      simp only [reset, if_neg h3, if_pos h2]

/-! ## Timer step before the instruction -/

/-- The bytes `FX` and `07` are fetched as the word `FX07`. -/
theorem word_FX07 (X : Nat) (hX : X < 16) :
    ((0xF0 + X) <<< 8) % 65536 ||| 0x07 = opword 0xF X 0 7 := by
  interval_cases X <;> rfl

/-- The word `FX07` reaches `load_reg_delay` with payload `X07`. -/
theorem interpret_load_reg_delay (rnd : Nat) (cpu : Cpu) (X : Nat) (hX : X < 16) :
    interpret rnd cpu (opword 0xF X 0 7)
      = .ok (load_reg_delay cpu ⟨0x100 * X + 0x10 * 0 + 7⟩) := by
  unfold interpret
  simp only [opword_type 0xF X 0 7 (by decide) hX (by decide) (by decide),
    opword_code 0xF X 0 7 hX (by decide) (by decide), code_low X 0 7 (by decide) (by decide)]

/-- Claim C22.  The timer step precedes the instruction within one `cycle` call: when
both gates fire on `cycle now` and the word at `pc` is `FX07` (`LD Vx, DT`), the cycle
completes; with `delay_timer = d > 0` before the call, afterwards `Vx = d - 1` and
`delay_timer = d - 1`; with `delay_timer = 0` before the call, afterwards `Vx = 0`. -/
theorem timer_step_precedes_instruction (rnd now : Nat) (cpu : Cpu) (X : Nat) (hX : X < 16)
    (htimer : time_out_passed (to_u32 ((now : Int) - (cpu.last_timer_ticks : Int)))
      timer_frequency = true)
    (hgate : time_out_passed (to_u32 ((now : Int) - (cpu.last_cpu_ticks : Int)))
      cpu_frequency = true)
    (hpc : cpu.reg.pc + 1 < 4096)
    (hhigh : cpu.ram cpu.reg.pc = 0xF0 + X) (hlow : cpu.ram (cpu.reg.pc + 1) = 0x07) :
    ∃ c, cycle rnd now cpu = .ok c ∧
      (0 < cpu.delay_timer →
        c.reg.v X = cpu.delay_timer - 1 ∧ c.delay_timer = cpu.delay_timer - 1) ∧
      (cpu.delay_timer = 0 → c.reg.v X = 0) := by
  obtain ⟨hreg, hram, _, _, hticks⟩ := timer_block_frame now cpu
  have hf := fetch_ok (timer_block now cpu) (by rw [hreg]; exact hpc)
  rw [hreg, hram, hhigh, hlow, word_FX07 X hX] at hf
  have hdelay : (timer_block now cpu).delay_timer = cpu.delay_timer - 1 := by
    rw [timer_block_eq, if_pos htimer]
  have hcyc : cycle rnd now cpu = .ok
      { load_reg_delay { (timer_block now cpu).set_pc (cpu.reg.pc + 2) with update_gui := false }
          ⟨0x100 * X + 0x10 * 0 + 7⟩ with last_cpu_ticks := now } := by
    unfold cycle cpu_block
    rw [hticks, if_pos hgate, hf]
    simp only
    rw [interpret_load_reg_delay rnd _ X hX]
  have hvx : ({ load_reg_delay
      { (timer_block now cpu).set_pc (cpu.reg.pc + 2) with update_gui := false }
      ⟨0x100 * X + 0x10 * 0 + 7⟩ with last_cpu_ticks := now } : Cpu).reg.v X
      = cpu.delay_timer - 1 := by
    simp only [load_reg_delay, Cpu.set_pc, Cpu.set_v,
      code_high X 0 7 hX (by decide) (by decide), set_at, if_true, hdelay]
  have hdt : ({ load_reg_delay
      { (timer_block now cpu).set_pc (cpu.reg.pc + 2) with update_gui := false }
      ⟨0x100 * X + 0x10 * 0 + 7⟩ with last_cpu_ticks := now } : Cpu).delay_timer
      = cpu.delay_timer - 1 := by
    simp only [load_reg_delay, Cpu.set_pc, Cpu.set_v, hdelay]
  refine ⟨_, hcyc, ?_, ?_⟩
  · intro _
    exact ⟨hvx, hdt⟩
  · intro h0
    rw [hvx, h0]

/-- Claim C22 at a concrete input: the program `F3 07` with `delay_timer = 10`, cycled
at `now = 17` from tick counters 0, leaves `V3 = 9` and `delay_timer = 9`; with
`delay_timer = 0` it leaves `V3 = 0`. -/
theorem timer_step_precedes_instruction_witness :
    (3 < 16 ∧
      time_out_passed (to_u32 ((17 : Int) - (delay_cpu.last_timer_ticks : Int)))
        timer_frequency = true ∧
      time_out_passed (to_u32 ((17 : Int) - (delay_cpu.last_cpu_ticks : Int)))
        cpu_frequency = true ∧
      delay_cpu.reg.pc + 1 < 4096 ∧ delay_cpu.ram delay_cpu.reg.pc = 0xF0 + 3 ∧
      delay_cpu.ram (delay_cpu.reg.pc + 1) = 0x07 ∧ delay_cpu.delay_timer = 10) ∧
    (∃ c, cycle 0 17 delay_cpu = .ok c ∧ c.reg.v 3 = 9 ∧ c.delay_timer = 9) ∧
    (∃ c, cycle 0 17 { delay_cpu with delay_timer := 0 } = .ok c ∧ c.reg.v 3 = 0) := by
  obtain ⟨c, hc, hpos, _⟩ := timer_step_precedes_instruction 0 17 delay_cpu 3 (by decide)
    (by decide) (by decide) (by decide) (by decide) (by decide)
  obtain ⟨c0, hc0, _, hzero⟩ := timer_step_precedes_instruction 0 17
    { delay_cpu with delay_timer := 0 } 3
    (by decide) (by decide) (by decide) (by decide) (by decide) (by decide)
  exact ⟨⟨by decide, by decide, by decide, by decide, by decide, by decide, rfl⟩,
    ⟨c, hc, (hpos (by decide)).1, (hpos (by decide)).2⟩, ⟨c0, hc0, hzero rfl⟩⟩

/-! ## ADD into the flag register -/

/-- Claim C23.  `8FY4` (ADD with destination `VF`): the instruction completes and leaves
`VF = (a + b) mod 256`, with `a` the old `VF` and `b` the old `Vy` (`b = a` when
`Y = F`), whatever the carry `a + b > 255` was; so `VF` equals the carry bit afterwards
exactly when `(a + b) mod 256` equals it. -/
theorem add_into_flag_keeps_sum (rnd : Nat) (cpu : Cpu) (Y : Nat) (hY : Y < 16) :
    ∃ c, interpret rnd cpu (opword 8 0xF Y 4) = .ok c ∧
      c.reg.v 0xF = (cpu.reg.v 0xF + cpu.reg.v Y) % 256 ∧
      (c.reg.v 0xF = (if cpu.reg.v 0xF + cpu.reg.v Y > 0xff then 1 else 0) ↔
        (cpu.reg.v 0xF + cpu.reg.v Y) % 256
          = (if cpu.reg.v 0xF + cpu.reg.v Y > 0xff then 1 else 0)) := by
  have hv : (add_reg_reg cpu ⟨0x100 * 0xF + 0x10 * Y + 4⟩).reg.v 0xF
      = (cpu.reg.v 0xF + cpu.reg.v Y) % 256 := by
    simp only [add_reg_reg, Cpu.set_v_flag, Cpu.set_v,
      code_high 0xF Y 4 (by decide) hY (by decide), code_vy 0xF Y 4 hY (by decide), set_at,
      if_true]
    omega
  refine ⟨_, interpret_add rnd cpu 0xF Y (by decide) hY, hv, ?_⟩
  rw [hv]

/-- Claim C23 at concrete inputs: `VF = 0xFF`, `V1 = 0x01` carries and leaves `VF = 0`;
`VF = 0xFF`, `V1 = 0x02` carries and leaves `VF = 1`; `VF = 0x80` added to itself
(`Y = F`) carries and leaves `VF = 0`; `VF = 3`, `V1 = 4` does not carry and leaves
`VF = 7`. -/
theorem add_into_flag_keeps_sum_witness :
    (1 < 16 ∧ 15 < 16) ∧
    (∃ c, interpret 0 ((zero_cpu.set_v 0xF 0xFF).set_v 1 0x01) (opword 8 0xF 1 4) = .ok c ∧
      c.reg.v 0xF = 0) ∧
    (∃ c, interpret 0 ((zero_cpu.set_v 0xF 0xFF).set_v 1 0x02) (opword 8 0xF 1 4) = .ok c ∧
      c.reg.v 0xF = 1) ∧
    (∃ c, interpret 0 (zero_cpu.set_v 0xF 0x80) (opword 8 0xF 0xF 4) = .ok c ∧
      c.reg.v 0xF = 0) ∧
    (∃ c, interpret 0 ((zero_cpu.set_v 0xF 3).set_v 1 4) (opword 8 0xF 1 4) = .ok c ∧
      c.reg.v 0xF = 7) := by
  obtain ⟨c1, h1, v1, _⟩ :=
    add_into_flag_keeps_sum 0 ((zero_cpu.set_v 0xF 0xFF).set_v 1 0x01) 1 (by decide)
  obtain ⟨c2, h2, v2, _⟩ :=
    add_into_flag_keeps_sum 0 ((zero_cpu.set_v 0xF 0xFF).set_v 1 0x02) 1 (by decide)
  obtain ⟨c3, h3, v3, _⟩ :=
    add_into_flag_keeps_sum 0 (zero_cpu.set_v 0xF 0x80) 0xF (by decide)
  obtain ⟨c4, h4, v4, _⟩ :=
    add_into_flag_keeps_sum 0 ((zero_cpu.set_v 0xF 3).set_v 1 4) 1 (by decide)
  exact ⟨⟨by decide, by decide⟩, ⟨c1, h1, v1⟩, ⟨c2, h2, v2⟩, ⟨c3, h3, v3⟩, ⟨c4, h4, v4⟩⟩

end Chip8
